import Mathlib

/-!
Shallow embedding of the csopesy_mp emulator (directory Project1/):
the demand-paged memory manager (MemoryManager.cpp), the instruction
interpreter (Instruction.cpp), and the multi-core scheduler tick
(emulator.cpp, scheduler_loop_tick).  C++ unordered_map is modelled as an
association list with first-occurrence update, std::vector / std::deque as
List, machine integers as Int / Nat (values stay far from the 32/64-bit
bounds except where noted; the u64 sentinel in evictVictim is modelled
explicitly).  File I/O (trace log, backing-store dump) is omitted: it never
feeds back into the state.
-/

namespace Csopesy

/-- Sentinel used by MemoryManager::evictVictim: unsigned long long min_tick = -1. -/
def U64MAX : Nat := 2 ^ 64 - 1

/-! ## Association-list helpers (model of std::unordered_map) -/

/-- Lookup of the first binding of a key. -/
def alookup {α β : Type} [DecidableEq α] : List (α × β) → α → Option β
  | [], _ => none
  | (k, v) :: rest, a => if k = a then some v else alookup rest a

/-- Model of unordered_map operator[] assignment: replace the first binding
of the key, or append a new binding. -/
def aset {α β : Type} [DecidableEq α] : List (α × β) → α → β → List (α × β)
  | [], a, b => [(a, b)]
  | (k, v) :: rest, a, b => if k = a then (a, b) :: rest else (k, v) :: aset rest a b

theorem alookup_aset_self {α β : Type} [DecidableEq α] (l : List (α × β)) (k : α) (v : β) :
    alookup (aset l k v) k = some v := by
  induction l with
  | nil => simp [aset, alookup]
  | cons hd tl ih =>
    obtain ⟨a, b⟩ := hd
    by_cases h : a = k
    · simp [aset, alookup, h]
    · simp [aset, alookup, h, ih]

theorem alookup_aset_ne {α β : Type} [DecidableEq α] (l : List (α × β)) (k k' : α) (v : β)
    (h : k' ≠ k) : alookup (aset l k v) k' = alookup l k' := by
  induction l with
  | nil => simp [aset, alookup, Ne.symm h]
  | cons hd tl ih =>
    obtain ⟨a, b⟩ := hd
    by_cases hh : a = k
    · subst hh
      simp [aset, alookup, Ne.symm h]
    · simp [aset, alookup, hh, ih]

/-- Keys of an association list. -/
def akeys {α β : Type} (l : List (α × β)) : List α := l.map Prod.fst

theorem akeys_aset {α β : Type} [DecidableEq α] (l : List (α × β)) (k : α) (v : β) :
    (alookup l k).isSome → akeys (aset l k v) = akeys l := by
  induction l with
  | nil => intro h; simp [alookup] at h
  | cons hd tl ih =>
    obtain ⟨a, b⟩ := hd
    intro hs
    by_cases h : a = k
    · simp [aset, akeys, h]
    · simp only [alookup, h, if_false] at hs
      simp [aset, akeys, h]
      have := ih hs
      simpa [akeys] using this

theorem akeys_aset_new {α β : Type} [DecidableEq α] (l : List (α × β)) (k : α) (v : β) :
    alookup l k = none → akeys (aset l k v) = akeys l ++ [k] := by
  induction l with
  | nil => intro _; simp [aset, akeys]
  | cons hd tl ih =>
    obtain ⟨a, b⟩ := hd
    intro hs
    by_cases h : a = k
    · simp [alookup, h] at hs
    · simp only [alookup, h, if_false] at hs
      simp [aset, akeys, h]
      have := ih hs
      simpa [akeys] using this

theorem not_mem_akeys_of_alookup_none {α β : Type} [DecidableEq α] {l : List (α × β)} {k : α}
    (h : alookup l k = none) : k ∉ akeys l := by
  induction l with
  | nil => simp [akeys]
  | cons hd tl ih =>
    obtain ⟨a, b⟩ := hd
    by_cases hh : a = k
    · simp [alookup, hh] at h
    · simp only [alookup, hh, if_false] at h
      simp [akeys, Ne.symm hh]
      have := ih h
      simpa [akeys] using this

theorem akeys_nodup_aset {α β : Type} [DecidableEq α] (l : List (α × β)) (k : α) (v : β)
    (h : (akeys l).Nodup) : (akeys (aset l k v)).Nodup := by
  rcases ho : alookup l k with _ | w
  · rw [akeys_aset_new l k v ho]
    rw [List.nodup_append]
    exact ⟨h, List.nodup_singleton k, by
      intro a ha hb
      rw [List.mem_singleton] at hb
      subst hb
      exact not_mem_akeys_of_alookup_none ho ha⟩
  · rw [akeys_aset l k v (by rw [ho]; rfl)]
    exact h

theorem alookup_mem {α β : Type} [DecidableEq α] {l : List (α × β)} {k : α} {v : β}
    (h : alookup l k = some v) : (k, v) ∈ l := by
  induction l with
  | nil => simp [alookup] at h
  | cons hd tl ih =>
    obtain ⟨a, b⟩ := hd
    by_cases hh : a = k
    · simp [alookup, hh] at h
      simp [hh, h]
    · simp only [alookup, hh, if_false] at h
      exact List.mem_cons_of_mem _ (ih h)

theorem alookup_isSome_of_mem {α β : Type} [DecidableEq α] {l : List (α × β)} {k : α} {v : β}
    (h : (k, v) ∈ l) : (alookup l k).isSome := by
  induction l with
  | nil => simp at h
  | cons hd tl ih =>
    obtain ⟨a, b⟩ := hd
    by_cases hh : a = k
    · simp [alookup, hh]
    · simp only [alookup, hh, if_false]
      rcases List.mem_cons.mp h with h1 | h1
      · exact absurd (congrArg Prod.fst h1).symm hh
      · exact ih h1

/-- Membership in an updated association list with no duplicate keys. -/
theorem mem_aset_iff {α β : Type} [DecidableEq α] {l : List (α × β)} (hn : (akeys l).Nodup)
    (k : α) (v : β) (pe : α × β) :
    pe ∈ aset l k v ↔ pe = (k, v) ∨ (pe ∈ l ∧ pe.1 ≠ k) := by
  induction l with
  | nil =>
    constructor
    · intro h
      exact Or.inl (List.mem_singleton.mp h)
    · intro h
      rcases h with h | h
      · exact h ▸ List.mem_singleton_self _
      · exact absurd h.1 (List.not_mem_nil pe)
  | cons hd tl ih =>
    obtain ⟨a, b⟩ := hd
    have hn' : (akeys tl).Nodup := by
      have := hn
      simp [akeys, List.nodup_cons] at this
      exact this.2
    have hnot : a ∉ akeys tl := by
      have := hn
      simp [akeys, List.nodup_cons] at this
      intro hmem
      exact absurd hmem (by simpa [akeys] using this.1)
    by_cases hh : a = k
    · subst hh
      rw [show aset ((a, b) :: tl) a v = (a, v) :: tl by simp [aset]]
      constructor
      · intro h
        rcases List.mem_cons.mp h with h | h
        · exact Or.inl h
        · right
          refine ⟨List.mem_cons_of_mem _ h, ?_⟩
          intro hk
          exact hnot (hk ▸ List.mem_map_of_mem Prod.fst h)
      · intro h
        rcases h with h | h
        · exact h ▸ List.mem_cons_self _ _
        · rcases List.mem_cons.mp h.1 with h1 | h1
          · exact absurd (congrArg Prod.fst h1) h.2
          · exact List.mem_cons_of_mem _ h1
    · rw [show aset ((a, b) :: tl) k v = (a, b) :: aset tl k v by simp [aset, hh]]
      constructor
      · intro h
        rcases List.mem_cons.mp h with h | h
        · exact Or.inr ⟨h ▸ List.mem_cons_self _ _, by
            rw [h]
            exact hh⟩
        · rcases (ih hn').mp h with h1 | h1
          · exact Or.inl h1
          · exact Or.inr ⟨List.mem_cons_of_mem _ h1.1, h1.2⟩
      · intro h
        rcases h with h | h
        · exact List.mem_cons_of_mem _ ((ih hn').mpr (Or.inl h))
        · rcases List.mem_cons.mp h.1 with hm | hm
          · exact hm ▸ List.mem_cons_self _ _
          · exact List.mem_cons_of_mem _ ((ih hn').mpr (Or.inr ⟨hm, h.2⟩))

/-! ## List.getD / List.set helpers -/

theorem getD_set {α : Type} (l : List α) (i j : Nat) (v d : α) :
    (l.set i v).getD j d = if i = j ∧ i < l.length then v else l.getD j d := by
  induction l generalizing i j with
  | nil => simp [List.set]
  | cons hd tl ih =>
    cases i with
    | zero =>
      cases j with
      | zero => simp
      | succ j => simp
    | succ i =>
      cases j with
      | zero => simp
      | succ j =>
        simp only [List.set, List.getD_cons_succ, List.length_cons, ih]
        by_cases h : i = j ∧ i < tl.length
        · rw [if_pos h, if_pos (by omega)]
        · rw [if_neg h, if_neg (by omega)]

theorem getD_append_left {α : Type} (l l' : List α) (i : Nat) (d : α) (h : i < l.length) :
    (l ++ l').getD i d = l.getD i d := by
  induction l generalizing i with
  | nil => simp at h
  | cons hd tl ih =>
    cases i with
    | zero => simp
    | succ i =>
      simp only [List.cons_append, List.getD_cons_succ]
      exact ih i (by simpa using h)

/-! ## Data model (globals.h, MemoryManager.h)

Process states; MEMORY_VIOLATED is the terminal state used by
Instruction.cpp (WriteInstruction / ReadInstruction) and emulator.cpp. -/

inductive PState where
  | READY | RUNNING | SLEEPING | FINISHED | MEMORY_VIOLATED
deriving DecidableEq, Repr

/-- PageTableEntry from MemoryManager.h (frame_num = -1, valid = false,
dirty = false, last_accessed = 0 are the C++ member initialisers). -/
structure PageTableEntry where
  frame_num : Int := -1
  valid : Bool := false
  dirty : Bool := false
  last_accessed : Nat := 0
deriving DecidableEq, Repr

instance : Inhabited PageTableEntry := ⟨{}⟩

/-- FrameTableEntry from MemoryManager.h. -/
structure FrameTableEntry where
  pid : Int := -1
  page_num : Int := -1
  occupied : Bool := false
deriving DecidableEq, Repr

instance : Inhabited FrameTableEntry := ⟨{}⟩

/-- The eight instruction kinds of Instruction.h.  FOR keeps its body as raw
text, exactly as ForInstruction stores it; it is parsed at execution time. -/
inductive Instr where
  | DECLARE (var : String) (val : Int)
  | ADD (target op1 op2 : String)
  | SUBTRACT (target op1 op2 : String)
  | PRINT (expression : String)
  | SLEEP (duration : Int)
  | FOR (body : String) (repeats : Int)
  | WRITE (addrStr valStr : String)
  | READ (addrStr var : String)
deriving DecidableEq, Repr

/-- Arbitrary default, only used to give List.getD a default value; all
reads of the instruction list are in bounds. -/
instance : Inhabited Instr := ⟨.PRINT ""⟩

/-- Process record: the fields of struct Process used by the scheduler, the
interpreter and the memory manager (globals.h plus the memory fields
memory_required / symbol_table / symbol_cursor / page_table that
Instruction.cpp and emulator.cpp use). -/
structure Process where
  name : String := ""
  pid : Int := -1
  state : PState := .READY
  instructions : List Instr := []
  pc : Nat := 0
  logs : List String := []
  sleep_counter : Int := 0
  memory_required : Int := 0
  symbol_table : List (String × Int) := []
  symbol_cursor : Int := 0
  page_table : List (Int × PageTableEntry) := []
deriving DecidableEq, Repr

instance : Inhabited Process := ⟨{}⟩

/-- Memory-manager state (MemoryManager.h): frame table, flat RAM,
backing store keyed by (pid, page_num) — the C++ key string
"pid:page_num" is injective in that pair — and the VMStat counters. -/
structure MM where
  total_frames : Nat
  frame_size : Nat
  frame_table : List FrameTableEntry
  ram : List Int
  backing_store : List ((Int × Int) × List Int)
  pages_paged_in : Nat := 0
  pages_paged_out : Nat := 0
deriving DecidableEq, Repr

/-- MemoryManager constructor (MemoryManager.cpp:7-21): all frames free,
RAM zero-initialised, empty backing store. -/
def MM.init (total_frames frame_size : Nat) : MM where
  total_frames := total_frames
  frame_size := frame_size
  frame_table := List.replicate total_frames {}
  ram := List.replicate (total_frames * frame_size) 0
  backing_store := []

/-- The pid scans in MemoryManager.cpp (for (auto& p : processTable) if
(p.pid == pid) ...): first process with the given pid. -/
def findProcPid : List Process → Int → Option Process
  | [], _ => none
  | p :: rest, pid => if p.pid = pid then some p else findProcPid rest pid

/-- In-place mutation of the process found by a pid scan: apply f to the
first process whose pid matches, leave the rest unchanged. -/
def updatePid : List Process → Int → (Process → Process) → List Process
  | [], _, _ => []
  | p :: rest, pid, f => if p.pid = pid then f p :: rest else p :: updatePid rest pid f

/-- RAM read ram[i]; in-range under the invariants (out of range would be
undefined behaviour in the C++). -/
def ramGet (ram : List Int) (i : Nat) : Int := ram.getD i 0

/-- The read loop of the dirty write-back (MemoryManager.cpp:217-221):
page_data[k] = ram[phys_start + k] for k < frame_size. -/
def ramSlice (ram : List Int) (phys_start fs : Nat) : List Int :=
  (List.range fs).map fun k => ramGet ram (phys_start + k)

/-- The copy loop of handlePageFault (MemoryManager.cpp:130-135):
ram[phys_start + i] = page_data[i] if in range else 0, for i < frame_size. -/
def loadFrame (ram : List Int) (phys_start fs : Nat) (data : List Int) : List Int :=
  (List.range fs).foldl (fun r i => r.set (phys_start + i) (data.getD i 0)) ram

/-- Result of one step of the LRU victim scan (MemoryManager.cpp:184-201).
The accumulator is (min_tick, victim_frame), victim_frame = none standing
for the C++ value -1. -/
def evictScanStep (procs : List Process) (ft : List FrameTableEntry)
    (acc : Nat × Option Nat) (i : Nat) : Nat × Option Nat :=
  let fte := ft.getD i default
  match findProcPid procs fte.pid with
  | some p =>
    match alookup p.page_table fte.page_num with
    | some pte => if pte.last_accessed < acc.1 then (pte.last_accessed, some i) else acc
    | none => acc
  | none => acc

/-- The LRU victim scan over all frames. -/
def evictScan (procs : List Process) (mm : MM) : Nat × Option Nat :=
  (List.range mm.total_frames).foldl (evictScanStep procs mm.frame_table) (U64MAX, none)

/-- Invalidation of the chosen victim (MemoryManager.cpp:206-236): write
the frame back to the backing store if the owner's page-table entry is
dirty (incrementing pages_paged_out), invalidate that entry, clear the
frame's occupied flag.  flushBackingStore only rewrites the on-disk dump
and is omitted.  If the owner pid is absent from the process table the
C++ loop falls through without touching any page table. -/
def evictAt (procs : List Process) (mm : MM) (victim : Nat) :
    Nat × List Process × MM :=
  let fte := mm.frame_table.getD victim default
  let v_pid := fte.pid
  let v_page := fte.page_num
  match findProcPid procs v_pid with
  | some p =>
    let pte := (alookup p.page_table v_page).getD default
    let mm1 :=
      if pte.dirty then
        { mm with
          backing_store := aset mm.backing_store (v_pid, v_page)
            (ramSlice mm.ram (victim * mm.frame_size) mm.frame_size),
          pages_paged_out := mm.pages_paged_out + 1 }
      else mm
    let procs1 := updatePid procs v_pid fun q =>
      { q with page_table := (aset q.page_table v_page
          { pte with valid := false, frame_num := -1, dirty := false }) }
    (victim, procs1,
      { mm1 with frame_table := mm1.frame_table.set victim { fte with occupied := false } })
  | none =>
    (victim, procs,
      { mm with frame_table := mm.frame_table.set victim { fte with occupied := false } })

/-- MemoryManager::evictVictim (MemoryManager.cpp:174-237).  Returns none
only in the total_frames = 0 case, where the C++ fallback victim 0 would
index an empty frame table (undefined behaviour). -/
def evictVictim (procs : List Process) (mm : MM) : Option (Nat × List Process × MM) :=
  match (evictScan procs mm).2 with
  | some v => some (evictAt procs mm v)
  | none => if mm.total_frames = 0 then none else some (evictAt procs mm 0)

/-- MemoryManager::allocateFrame (MemoryManager.cpp:162-172): first free
frame in ascending order, else evict. -/
def allocateFrame (procs : List Process) (mm : MM) : Option (Nat × List Process × MM) :=
  match (List.range mm.total_frames).find?
      (fun i => !(mm.frame_table.getD i default).occupied) with
  | some i => some (i, procs, mm)
  | none => evictVictim procs mm

/-- MemoryManager::handlePageFault (MemoryManager.cpp:114-160): allocate a
frame, materialise the backing-store page (zeros when absent), copy it to
RAM, bump pages_paged_in, claim the frame, and set the owner's page-table
entry to (frame_idx, valid, clean, last_accessed = global_tick). -/
def handlePageFault (tick : Nat) (procs : List Process) (mm : MM) (pid page_num : Int) :
    Option (List Process × MM) :=
  match allocateFrame procs mm with
  | none => none
  | some (frame_idx, procs1, mm1) =>
    let key := (pid, page_num)
    let bs :=
      match alookup mm1.backing_store key with
      | none => aset mm1.backing_store key (List.replicate mm1.frame_size 0)
      | some _ => mm1.backing_store
    let page_data := (alookup bs key).getD []
    let ram1 := loadFrame mm1.ram (frame_idx * mm1.frame_size) mm1.frame_size page_data
    let mm2 := { mm1 with
      backing_store := bs
      ram := ram1
      pages_paged_in := mm1.pages_paged_in + 1
      frame_table := (mm1.frame_table.set frame_idx
        { pid := pid, page_num := page_num, occupied := true }) }
    let procs2 := updatePid procs1 pid fun p =>
      { p with page_table := (aset p.page_table page_num
          { frame_num := (frame_idx : Int), valid := true, dirty := false,
            last_accessed := tick }) }
    some (procs2, mm2)

/-- Result of MemoryManager::access.  The C++ returns bool; the three
failure exits (unknown pid, segmentation fault, failed page fault) are
distinguished here, and ok carries the value of the in-out parameter. -/
inductive AccessResult where
  | noProc | segFault | faultFail | ok (v : Int)
deriving DecidableEq, Repr

/-- The post-fault read/write step of MemoryManager::access
(MemoryManager.cpp:67-78): recompute the physical address from the (now
valid) page-table entry and perform the RAM read or write, setting the
dirty bit on a write. -/
def accessFinish (procs : List Process) (mm : MM) (pid page_num : Int) (offset : Nat)
    (write : Bool) (value : Int) (pte : PageTableEntry) : AccessResult × List Process × MM :=
  let phys := pte.frame_num.toNat * mm.frame_size + offset
  if write then
    (.ok value,
     updatePid procs pid fun p =>
       { p with page_table := aset p.page_table page_num { pte with dirty := true } },
     { mm with ram := mm.ram.set phys value })
  else
    (.ok (ramGet mm.ram phys), procs, mm)

/-- Body of MemoryManager::access after the process lookup succeeded
(MemoryManager.cpp:41-78): bounds check, page-table entry creation and
LRU stamping, page-fault service, then the RAM access.  The C++ reads the
entry through a reference that sees handlePageFault's update, hence the
re-lookup on the fault path. -/
def accessFound (tick : Nat) (procs : List Process) (mm : MM)
    (pid : Int) (virtual_addr : Nat) (write : Bool) (value : Int) (proc : Process) :
    AccessResult × List Process × MM :=
  let page_num : Int := (virtual_addr / mm.frame_size : Nat)
  let offset : Nat := virtual_addr % mm.frame_size
  if (virtual_addr : Int) ≥ proc.memory_required then (.segFault, procs, mm)
  else
    -- ensure the page-table entry exists, then stamp last_accessed
    let pt1 :=
      if (alookup proc.page_table page_num).isNone then
        aset proc.page_table page_num {}
      else proc.page_table
    let pte : PageTableEntry :=
      { (alookup pt1 page_num).getD default with last_accessed := tick }
    let pt2 := aset pt1 page_num pte
    let procs2 := updatePid procs pid fun p => { p with page_table := pt2 }
    if !pte.valid then
      match handlePageFault tick procs2 mm pid page_num with
      | none => (.faultFail, procs2, mm)
      | some (procs3, mm1) =>
        let pteF := (alookup ((findProcPid procs3 pid).getD default).page_table
          page_num).getD default
        accessFinish procs3 mm1 pid page_num offset write value pteF
    else
      accessFinish procs2 mm pid page_num offset write value pte

/-- MemoryManager::access (MemoryManager.cpp:23-79).  tick is the value of
the global clock global_tick; virtual_addr is a Nat since every caller
checks addr >= 0 first (division of a negative int would otherwise
truncate toward zero in C++). -/
def access (tick : Nat) (procs : List Process) (mm : MM)
    (pid : Int) (virtual_addr : Nat) (write : Bool) (value : Int) :
    AccessResult × List Process × MM :=
  match findProcPid procs pid with
  | none => (.noProc, procs, mm)
  | some proc => accessFound tick procs mm pid virtual_addr write value proc

/-- MemoryManager::initializePageTable (MemoryManager.cpp:81-87): fresh
invalid entries for pages 0 .. required_pages-1. -/
def initializePageTable (p : Process) (required_pages : Nat) : Process :=
  { p with page_table := (List.range required_pages).map fun (i : Nat) => ((i : Int), ({} : PageTableEntry)) }

/-! ## String utilities of Instruction.cpp -/

/-- Whitespace set of trim in Instruction.cpp: " \t\n\r". -/
def isTrimWS (c : Char) : Bool := c = ' ' || c = '\t' || c = '\n' || c = '\r'

/-- Whitespace of C++ isspace / the regex class \s. -/
def isSpaceChar (c : Char) : Bool :=
  c = ' ' || c = '\t' || c = '\n' || c = '\x0b' || c = '\x0c' || c = '\r'

/-- trim (Instruction.cpp:10-15). -/
def trim (s : String) : String :=
  String.mk (((s.toList.dropWhile isTrimWS).reverse.dropWhile isTrimWS).reverse)

/-- splitPrintExpr (Instruction.cpp:18-38): split on top-level '+' outside
single quotes; each pushed part is trimmed, a trailing empty chunk is
dropped. -/
def splitPrintExpr (expr : String) : List String :=
  let step := fun (acc : List String × List Char × Bool) (c : Char) =>
    let (parts, cur, inStr) := acc
    if c = '\'' then (parts, cur ++ ['\''], !inStr)
    else if c = '+' && !inStr then (parts ++ [trim (String.mk cur)], [], inStr)
    else (parts, cur ++ [c], inStr)
  let (parts, cur, _) := expr.toList.foldl step ([], [], false)
  if cur.isEmpty then parts else parts ++ [trim (String.mk cur)]

/-- isSingleQuoted (Instruction.cpp:41-43). -/
def isSingleQuoted (s : String) : Bool :=
  s.toList.length ≥ 2 && s.toList.head? = some '\'' && s.toList.getLast? = some '\''

/-- unquoteSingle (Instruction.cpp:45-48). -/
def unquoteSingle (s : String) : String :=
  if isSingleQuoted s then String.mk ((s.toList.drop 1).dropLast) else s

/-- Numeric value of a digit string. -/
def digitsVal (ds : List Char) : Nat :=
  ds.foldl (fun a c => a * 10 + (c.toNat - '0'.toNat)) 0

/-- Model of std::stoi(token) with the default base 10, as used by
getValueFromMemory: skip leading whitespace, optional sign, at least one
decimal digit (else invalid_argument -> none), trailing junk ignored,
values outside the int range throw out_of_range -> none. -/
def stoiOpt (s : String) : Option Int :=
  let cs := s.toList.dropWhile isSpaceChar
  let (sign, cs1) : Int × List Char :=
    match cs with
    | '-' :: rest => (-1, rest)
    | '+' :: rest => (1, rest)
    | _ => (1, cs)
  let ds := cs1.takeWhile Char.isDigit
  if ds.isEmpty then none
  else
    let v : Int := sign * (digitsVal ds : Nat)
    if v < -(2 ^ 31) || v > 2 ^ 31 - 1 then none else some v

/-- Hex digit test for base-0 stoi. -/
def isHexChar (c : Char) : Bool :=
  c.isDigit || ('a' ≤ c && c ≤ 'f') || ('A' ≤ c && c ≤ 'F')

def hexDigitVal (c : Char) : Nat :=
  if c.isDigit then c.toNat - '0'.toNat
  else if 'a' ≤ c && c ≤ 'f' then c.toNat - 'a'.toNat + 10
  else c.toNat - 'A'.toNat + 10

def hexVal (ds : List Char) : Nat := ds.foldl (fun a c => a * 16 + hexDigitVal c) 0

def isOctChar (c : Char) : Bool := '0' ≤ c && c ≤ '7'

def octVal (ds : List Char) : Nat := ds.foldl (fun a c => a * 8 + (c.toNat - '0'.toNat)) 0

/-- Model of std::stoi(token, nullptr, 0) (base auto-detection as in
strtol): 0x/0X prefix selects hex, a bare leading 0 selects octal,
otherwise decimal; at least one digit of the detected base is required
except that a lone "0" prefix itself counts as the parsed number. -/
def stoiBase0 (s : String) : Option Int :=
  let cs := s.toList.dropWhile isSpaceChar
  let (sign, cs1) : Int × List Char :=
    match cs with
    | '-' :: rest => (-1, rest)
    | '+' :: rest => (1, rest)
    | _ => (1, cs)
  let val : Option Nat :=
    match cs1 with
    | '0' :: rest =>
      match rest with
      | x :: rest2 =>
        if x = 'x' || x = 'X' then
          let hs := rest2.takeWhile isHexChar
          if hs.isEmpty then some 0 else some (hexVal hs)
        else some (octVal (rest.takeWhile isOctChar))
      | [] => some 0
    | _ =>
      let ds := cs1.takeWhile Char.isDigit
      if ds.isEmpty then none else some (digitsVal ds)
  match val with
  | none => none
  | some n =>
    let v : Int := sign * (n : Nat)
    if v < -(2 ^ 31) || v > 2 ^ 31 - 1 then none else some v

/-- parseAddressOrValue (Instruction.cpp:51-57): -1 signals failure. -/
def parseAddressOrValue (token : String) : Int :=
  match stoiBase0 token with
  | some v => v
  | none => -1

/-- clampUint16 (Instruction.cpp:116-120). -/
def clampUint16 (val : Int) : Int :=
  if val < 0 then 0 else if val > 65535 then 65535 else val

/-! ## Operand resolution (Instruction.cpp:60-113) -/

/-- getValueFromMemory (Instruction.cpp:60-84).  The executing process is
procs[idx] (the C++ reference into the process table); a memory access may
mutate page tables and the memory manager, returned alongside. -/
def getValueFromMemory (tick : Nat) (procs : List Process) (mm : MM) (idx : Nat)
    (token : String) : Option Int × List Process × MM :=
  match stoiOpt token with
  | some v => (some v, procs, mm)
  | none =>
    let p := procs.getD idx default
    match alookup p.symbol_table token with
    | none => (some 0, procs, mm)
    | some addr =>
      match access tick procs mm p.pid addr.toNat false 0 with
      | (.ok v, procs1, mm1) => (some v, procs1, mm1)
      | (_, procs1, mm1) => (none, procs1, mm1)

/-- setValueToMemory (Instruction.cpp:87-113): allocate a fresh address
(advancing symbol_cursor by 2) for a new variable, then write through the
memory manager. -/
def setValueToMemory (tick : Nat) (procs : List Process) (mm : MM) (idx : Nat)
    (varName : String) (value : Int) : Bool × List Process × MM :=
  let p := procs.getD idx default
  match alookup p.symbol_table varName with
  | none =>
    let addr := p.symbol_cursor
    let p1 := { p with
      symbol_table := aset p.symbol_table varName addr
      symbol_cursor := p.symbol_cursor + 2 }
    let procs1 := procs.set idx p1
    match access tick procs1 mm p.pid addr.toNat true value with
    | (.ok _, procs2, mm2) => (true, procs2, mm2)
    | (_, procs2, mm2) => (false, procs2, mm2)
  | some addr =>
    match access tick procs mm p.pid addr.toNat true value with
    | (.ok _, procs2, mm2) => (true, procs2, mm2)
    | (_, procs2, mm2) => (false, procs2, mm2)

/-! ## Instruction text parsing (Instruction.cpp:275-368)

Hand-rolled recognisers for the anchored std::regex patterns; each returns
some only on a full match. -/

def isWordChar (c : Char) : Bool := c.isAlphanum || c = '_'

/-- Word-or-hyphen class [\w\-] used for ADD / SUBTRACT operands. -/
def isWordDashChar (c : Char) : Bool := isWordChar c || c = '-'

/-- Consume an exact literal prefix. -/
def expectLit : List Char → List Char → Option (List Char)
  | [], cs => some cs
  | l :: ls, c :: cs => if c = l then expectLit ls cs else none
  | _ :: _, [] => none

/-- Consume one or more characters satisfying p. -/
def takeWhile1 (p : Char → Bool) (cs : List Char) : Option (List Char × List Char) :=
  let tk := cs.takeWhile p
  if tk.isEmpty then none else some (tk, cs.drop tk.length)

/-- Consume one or more \s characters. -/
def skipWS1 (cs : List Char) : Option (List Char) :=
  let tk := cs.takeWhile isSpaceChar
  if tk.isEmpty then none else some (cs.drop tk.length)

/-- The address token alternation (?:0x[0-9a-fA-F]+|\d+). -/
def takeNumberTok (cs : List Char) : Option (List Char × List Char) :=
  match cs with
  | '0' :: 'x' :: rest =>
    match takeWhile1 isHexChar rest with
    | some (hs, rest2) => some ('0' :: 'x' :: hs, rest2)
    | none =>
      -- fall back to the \d+ branch, which can only take the leading 0
      some (['0'], 'x' :: rest)
  | _ => takeWhile1 Char.isDigit cs

/-- Optionally signed decimal (-?\d+), value via std::stoi on the capture. -/
def takeSignedInt (cs : List Char) : Option (Int × List Char) := do
  let (neg, cs1) : Bool × List Char :=
    match cs with
    | '-' :: rest => (true, rest)
    | _ => (false, cs)
  let (ds, cs2) ← takeWhile1 Char.isDigit cs1
  some ((if neg then -(digitsVal ds : Int) else (digitsVal ds : Nat)), cs2)

def matchDeclareParen (cs : List Char) : Option Instr := do
  let cs ← expectLit "DECLARE(".toList cs
  let (v, cs) ← takeWhile1 isWordChar cs
  let cs ← expectLit [','] cs
  let cs := cs.dropWhile isSpaceChar
  let (n, cs) ← takeSignedInt cs
  let cs ← expectLit [')'] cs
  if cs.isEmpty then some (.DECLARE (String.mk v) n) else none

def matchThreeOpParen (kw : String) (mk : String → String → String → Instr)
    (cs : List Char) : Option Instr := do
  let cs ← expectLit (kw ++ "(").toList cs
  let (t, cs) ← takeWhile1 isWordChar cs
  let cs ← expectLit [','] cs
  let cs := cs.dropWhile isSpaceChar
  let (o1, cs) ← takeWhile1 isWordDashChar cs
  let cs ← expectLit [','] cs
  let cs := cs.dropWhile isSpaceChar
  let (o2, cs) ← takeWhile1 isWordDashChar cs
  let cs ← expectLit [')'] cs
  if cs.isEmpty then some (mk (String.mk t) (String.mk o1) (String.mk o2)) else none

/-- PRINT\((.*)\): everything between "PRINT(" and the final ')'. -/
def matchPrintParen (cs : List Char) : Option Instr := do
  let cs ← expectLit "PRINT(".toList cs
  if cs.getLast? = some ')' then some (.PRINT (trim (String.mk cs.dropLast))) else none

def matchSleepParen (cs : List Char) : Option Instr := do
  let cs ← expectLit "SLEEP(".toList cs
  let (ds, cs) ← takeWhile1 Char.isDigit cs
  let cs ← expectLit [')'] cs
  if cs.isEmpty then some (.SLEEP (digitsVal ds : Nat)) else none

def matchForParen (cs : List Char) : Option Instr := do
  let cs ← expectLit "FOR([".toList cs
  let (body, cs) ← takeWhile1 (fun c => c ≠ ']') cs
  let cs ← expectLit "],".toList cs
  let cs := cs.dropWhile isSpaceChar
  let (ds, cs) ← takeWhile1 Char.isDigit cs
  let cs ← expectLit [')'] cs
  if cs.isEmpty then some (.FOR (String.mk body) (digitsVal ds : Nat)) else none

/-- READ\((\w+),\s*(num)\): ReadInstruction(addr = capture 2, var = capture 1). -/
def matchReadParen (cs : List Char) : Option Instr := do
  let cs ← expectLit "READ(".toList cs
  let (v, cs) ← takeWhile1 isWordChar cs
  let cs ← expectLit [','] cs
  let cs := cs.dropWhile isSpaceChar
  let (num, cs) ← takeNumberTok cs
  let cs ← expectLit [')'] cs
  if cs.isEmpty then some (.READ (String.mk num) (String.mk v)) else none

def matchWriteParen (cs : List Char) : Option Instr := do
  let cs ← expectLit "WRITE(".toList cs
  let (num, cs) ← takeNumberTok cs
  let cs ← expectLit [','] cs
  let cs := cs.dropWhile isSpaceChar
  let (v, cs) ← takeWhile1 isWordChar cs
  let cs ← expectLit [')'] cs
  if cs.isEmpty then some (.WRITE (String.mk num) (String.mk v)) else none

def matchDeclareSpace (cs : List Char) : Option Instr := do
  let cs ← expectLit "DECLARE".toList cs
  let cs ← skipWS1 cs
  let (v, cs) ← takeWhile1 isWordChar cs
  let cs ← skipWS1 cs
  let (n, cs) ← takeSignedInt cs
  if cs.isEmpty then some (.DECLARE (String.mk v) n) else none

def matchThreeOpSpace (kw : String) (mk : String → String → String → Instr)
    (cs : List Char) : Option Instr := do
  let cs ← expectLit kw.toList cs
  let cs ← skipWS1 cs
  let (t, cs) ← takeWhile1 isWordChar cs
  let cs ← skipWS1 cs
  let (o1, cs) ← takeWhile1 isWordDashChar cs
  let cs ← skipWS1 cs
  let (o2, cs) ← takeWhile1 isWordDashChar cs
  if cs.isEmpty then some (mk (String.mk t) (String.mk o1) (String.mk o2)) else none

def matchReadSpace (cs : List Char) : Option Instr := do
  let cs ← expectLit "READ".toList cs
  let cs ← skipWS1 cs
  let (v, cs) ← takeWhile1 isWordChar cs
  let cs ← skipWS1 cs
  let (num, cs) ← takeNumberTok cs
  if cs.isEmpty then some (.READ (String.mk num) (String.mk v)) else none

def matchWriteSpace (cs : List Char) : Option Instr := do
  let cs ← expectLit "WRITE".toList cs
  let cs ← skipWS1 cs
  let (num, cs) ← takeNumberTok cs
  let cs ← skipWS1 cs
  let (v, cs) ← takeWhile1 isWordChar cs
  if cs.isEmpty then some (.WRITE (String.mk num) (String.mk v)) else none

def matchSleepSpace (cs : List Char) : Option Instr := do
  let cs ← expectLit "SLEEP".toList cs
  let cs ← skipWS1 cs
  let (ds, cs) ← takeWhile1 Char.isDigit cs
  if cs.isEmpty then some (.SLEEP (digitsVal ds : Nat)) else none

/-- parseInstruction (Instruction.cpp:275-368): trim, then try the
parenthesised patterns followed by the space-separated ones, in source
order. -/
def parseInstruction (line : String) : Option Instr :=
  let instr := trim line
  if instr.isEmpty then none
  else
    let cs := instr.toList
    (matchDeclareParen cs) <|>
    (matchThreeOpParen "ADD" Instr.ADD cs) <|>
    (matchThreeOpParen "SUBTRACT" Instr.SUBTRACT cs) <|>
    (matchPrintParen cs) <|>
    (matchSleepParen cs) <|>
    (matchForParen cs) <|>
    (matchReadParen cs) <|>
    (matchWriteParen cs) <|>
    (matchDeclareSpace cs) <|>
    (matchThreeOpSpace "ADD" Instr.ADD cs) <|>
    (matchThreeOpSpace "SUBTRACT" Instr.SUBTRACT cs) <|>
    (matchReadSpace cs) <|>
    (matchWriteSpace cs) <|>
    (matchSleepSpace cs)

/-! ## Instruction execution (Instruction.cpp:122-271) -/

/-- The p.pc++ at the end of a successful execute. -/
def bumpPC (procs : List Process) (idx : Nat) : List Process :=
  let p := procs.getD idx default
  procs.set idx { p with pc := p.pc + 1 }

/-- One segment loop iteration of PrintInstruction::execute
(Instruction.cpp:170-182).  Returns (stall, accumulated text, state). -/
def printLoop (tick : Nat) (idx : Nat) :
    List String → String → List Process → MM → Bool × String × List Process × MM
  | [], out, procs, mm => (false, out, procs, mm)
  | part :: rest, out, procs, mm =>
    if isSingleQuoted part then
      printLoop tick idx rest (out ++ unquoteSingle part) procs mm
    else
      match getValueFromMemory tick procs mm idx part with
      | (some v, procs1, mm1) => printLoop tick idx rest (out ++ toString v) procs1 mm1
      | (none, procs1, mm1) => (true, out, procs1, mm1)

/-- Semicolon split with std::getline semantics: a trailing empty segment
is not produced. -/
def splitOnChar (d : Char) : List Char → List (List Char)
  | [] => [[]]
  | c :: rest =>
    match splitOnChar d rest with
    | [] => [[]]
    | seg :: segs => if c = d then [] :: seg :: segs else (c :: seg) :: segs

def cppGetlineSplit (s : String) (d : Char) : List String :=
  let parts := (splitOnChar d s.toList).map String.mk
  match parts.getLast? with
  | some "" => parts.dropLast
  | _ => parts

/-- Instruction::execute dispatch (Instruction.cpp:122-271), acting on
procs[idx] (the C++ reference) and the global memory manager. -/
def executeInstr (tick : Nat) (procs : List Process) (mm : MM) (idx : Nat) :
    Instr → List Process × MM
  | .DECLARE var val =>
    let (okb, procs1, mm1) := setValueToMemory tick procs mm idx var (clampUint16 val)
    if okb then (bumpPC procs1 idx, mm1) else (procs1, mm1)
  | .ADD target op1 op2 =>
    match getValueFromMemory tick procs mm idx op1 with
    | (none, procs1, mm1) => (procs1, mm1)
    | (some v1, procs1, mm1) =>
      match getValueFromMemory tick procs1 mm1 idx op2 with
      | (none, procs2, mm2) => (procs2, mm2)
      | (some v2, procs2, mm2) =>
        let (okb, procs3, mm3) :=
          setValueToMemory tick procs2 mm2 idx target (clampUint16 (v1 + v2))
        if okb then (bumpPC procs3 idx, mm3) else (procs3, mm3)
  | .SUBTRACT target op1 op2 =>
    match getValueFromMemory tick procs mm idx op1 with
    | (none, procs1, mm1) => (procs1, mm1)
    | (some v1, procs1, mm1) =>
      match getValueFromMemory tick procs1 mm1 idx op2 with
      | (none, procs2, mm2) => (procs2, mm2)
      | (some v2, procs2, mm2) =>
        let (okb, procs3, mm3) :=
          setValueToMemory tick procs2 mm2 idx target (clampUint16 (v1 - v2))
        if okb then (bumpPC procs3 idx, mm3) else (procs3, mm3)
  | .PRINT expression =>
    let parts := splitPrintExpr expression
    match printLoop tick idx parts "" procs mm with
    | (true, _, procs1, mm1) => (procs1, mm1)
    | (false, out, procs1, mm1) =>
      let p := procs1.getD idx default
      (procs1.set idx { p with logs := p.logs ++ [out], pc := p.pc + 1 }, mm1)
  | .SLEEP duration =>
    let p := procs.getD idx default
    (procs.set idx { p with sleep_counter := duration, state := .SLEEPING, pc := p.pc + 1 },
     mm)
  | .FOR body repeats =>
    let expanded := (cppGetlineSplit body ';').filterMap parseInstruction
    let fullExpansion := (List.replicate repeats.toNat expanded).foldr (· ++ ·) []
    let p := procs.getD idx default
    if p.pc < p.instructions.length then
      (procs.set idx { p with instructions := (p.instructions.take p.pc
          ++ fullExpansion ++ p.instructions.drop (p.pc + 1)) },
       mm)
    else (procs, mm)
  | .WRITE addrStr valStr =>
    let addr := parseAddressOrValue addrStr
    match getValueFromMemory tick procs mm idx valStr with
    | (none, procs1, mm1) => (procs1, mm1)
    | (some v0, procs1, mm1) =>
      let valToWrite := clampUint16 v0
      let p := procs1.getD idx default
      if addr < 0 || addr ≥ p.memory_required then
        (procs1.set idx { p with state := .MEMORY_VIOLATED }, mm1)
      else
        match access tick procs1 mm1 p.pid addr.toNat true valToWrite with
        | (.ok _, procs2, mm2) => (bumpPC procs2 idx, mm2)
        | (_, procs2, mm2) => (procs2, mm2)
  | .READ addrStr var =>
    let addr := parseAddressOrValue addrStr
    let p := procs.getD idx default
    if addr < 0 || addr ≥ p.memory_required then
      (procs.set idx { p with state := .MEMORY_VIOLATED }, mm)
    else
      match access tick procs mm p.pid addr.toNat false 0 with
      | (.ok memVal, procs1, mm1) =>
        let (okb, procs2, mm2) := setValueToMemory tick procs1 mm1 idx var (clampUint16 memVal)
        if okb then (bumpPC procs2 idx, mm2) else (procs2, mm2)
      | (_, procs1, mm1) => (procs1, mm1)

/-! ## Scheduler (emulator.cpp:669-864, scheduler_loop_tick) -/

/-- Config (globals.h); only the fields the scheduler tick reads. -/
structure Config where
  num_cpu : Int := 0
  scheduler : String := ""
  quantum_cycles : Int := 0
  batch_process_freq : Int := 0
deriving DecidableEq, Repr

/-- CPUCore (globals.h): running is a pointer into the process table,
modelled as an index (deque pointers are stable under push_back). -/
structure CPUCore where
  id : Int := -1
  running : Option Nat := none
  quantum_left : Int := 0
deriving DecidableEq, Repr

instance : Inhabited CPUCore := ⟨{}⟩

/-- Global scheduler state: config, processTable, cpuCores, rrCursor,
global_tick and the memory manager. -/
structure Sys where
  config : Config
  procs : List Process
  cores : List CPUCore
  rrCursor : Nat := 0
  global_tick : Nat := 0
  mm : MM
deriving DecidableEq, Repr

/-- Wake-up loop (emulator.cpp:729-736): decrement each SLEEPING process
with a positive counter; on reaching zero, state becomes READY. -/
def wakeSleepers (procs : List Process) : List Process :=
  procs.map fun p =>
    if p.state = .SLEEPING && p.sleep_counter > 0 then
      let c := p.sleep_counter - 1
      { p with sleep_counter := c, state := if c = 0 then .READY else p.state }
    else p

/-- Core reaping (emulator.cpp:739-743): drop FINISHED processes from
cores. -/
def reapCores (procs : List Process) (cores : List CPUCore) : List CPUCore :=
  cores.map fun c =>
    match c.running with
    | none => c
    | some i => if (procs.getD i default).state = .FINISHED then { c with running := none } else c

/-- Round-robin scan (emulator.cpp:700-707): first READY process at or
circularly after the cursor. -/
def rrScan (procs : List Process) (cur : Nat) : Option Nat :=
  (List.range procs.length).findSome? fun offset =>
    let idx := (cur + offset) % procs.length
    if (procs.getD idx default).state = .READY then some idx else none

/-- FCFS scan (emulator.cpp:710-715): first READY process. -/
def fcfsScan (procs : List Process) : Option Nat :=
  (List.range procs.length).find? fun idx => (procs.getD idx default).state = .READY

/-- The cursor normalisation at the top of an idle-core dispatch step
(emulator.cpp:694-696). -/
def assignCur1 (cfg : Config) (procs : List Process) (cur : Nat) : Nat :=
  if cfg.scheduler = "rr" && cur ≥ procs.length then cur % procs.length else cur

/-- The policy scan an idle-core dispatch step performs
(emulator.cpp:698-716). -/
def assignChosen (cfg : Config) (procs : List Process) (cur : Nat) : Option Nat :=
  if cfg.scheduler = "rr" then rrScan procs (assignCur1 cfg procs cur) else fcfsScan procs

/-- Per-core body of assignReadyToIdleCores (emulator.cpp:682-725),
threading the process table and the cursor through the cores in order. -/
def assignCoresLoop (cfg : Config) :
    List CPUCore → List Process → Nat → List CPUCore × List Process × Nat
  | [], procs, cur => ([], procs, cur)
  | core :: rest, procs, cur =>
    if core.running.isSome then
      let (cs, ps, c) := assignCoresLoop cfg rest procs cur
      (core :: cs, ps, c)
    else
      if procs.length = 0 then
        let (cs, ps, c) := assignCoresLoop cfg rest procs 0
        ({ core with running := none } :: cs, ps, c)
      else
        match assignChosen cfg procs cur with
        | some idx =>
          let procs1 := procs.set idx { (procs.getD idx default) with state := .RUNNING }
          let cur2 := if cfg.scheduler = "rr" then (idx + 1) % procs.length
            else assignCur1 cfg procs cur
          let core1 := { core with
            running := some idx
            quantum_left := if cfg.scheduler = "rr" then cfg.quantum_cycles else 0 }
          let (cs, ps, c) := assignCoresLoop cfg rest procs1 cur2
          (core1 :: cs, ps, c)
        | none =>
          let (cs, ps, c) := assignCoresLoop cfg rest procs (assignCur1 cfg procs cur)
          (core :: cs, ps, c)

/-- assignReadyToIdleCores including the initial empty-table cursor reset
(emulator.cpp:677-680). -/
def assignReadyToIdleCores (cfg : Config) (cores : List CPUCore) (procs : List Process)
    (cur : Nat) : List CPUCore × List Process × Nat :=
  assignCoresLoop cfg cores procs (if procs.length = 0 then 0 else cur)

/-- One core of the execute phase (emulator.cpp:749-827): run one
instruction of the RUNNING process, then apply the post-execution
transitions in source order (FINISHED, MEMORY_VIOLATED, pc past the end,
SLEEPING, round-robin quantum expiry). -/
def execCore (cfg : Config) (tick : Nat) (core : CPUCore)
    (procs : List Process) (mm : MM) (cur : Nat) (resched : Bool) :
    CPUCore × List Process × MM × Nat × Bool :=
  match core.running with
  | none => (core, procs, mm, cur, true)
  | some i =>
    if (procs.getD i default).state = .RUNNING then
      let p := procs.getD i default
      if p.pc < p.instructions.length then
        let instr := p.instructions.getD p.pc default
        let (procs1, mm1) := executeInstr tick procs mm i instr
        let core1 :=
          if cfg.scheduler = "rr" then { core with quantum_left := core.quantum_left - 1 }
          else core
        let p1 := procs1.getD i default
        if p1.state = .FINISHED then
          ({ core1 with running := none }, procs1, mm1, cur, true)
        else if p1.state = .MEMORY_VIOLATED then
          ({ core1 with running := none }, procs1, mm1, cur, true)
        else if p1.pc ≥ p1.instructions.length then
          ({ core1 with running := none },
           procs1.set i { p1 with state := .FINISHED }, mm1, cur, true)
        else if p1.state = .SLEEPING then
          ({ core1 with running := none }, procs1, mm1, cur, true)
        else if cfg.scheduler = "rr" && core1.quantum_left ≤ 0 then
          let hasOtherReady := (List.range procs1.length).any fun j =>
            (procs1.getD j default).state = .READY && j ≠ i
          if hasOtherReady then
            let procs2 := procs1.set i { p1 with state := .READY }
            let cur2 := if procs1.length > 0 then (i + 1) % procs1.length else 0
            ({ core1 with running := none, quantum_left := cfg.quantum_cycles },
             procs2, mm1, cur2, true)
          else
            ({ core1 with quantum_left := cfg.quantum_cycles }, procs1, mm1, cur, resched)
        else (core1, procs1, mm1, cur, resched)
      else
        ({ core with running := none },
         procs.set i { p with state := .FINISHED }, mm, cur, true)
    else (core, procs, mm, cur, resched)

/-- The execute loop over all cores in ascending order. -/
def execPhase (cfg : Config) (tick : Nat) :
    List CPUCore → List Process → MM → Nat → Bool →
    List CPUCore × List Process × MM × Nat × Bool
  | [], procs, mm, cur, rs => ([], procs, mm, cur, rs)
  | core :: rest, procs, mm, cur, rs =>
    let (c1, procs1, mm1, cur1, rs1) := execCore cfg tick core procs mm cur rs
    let (cs, procs2, mm2, cur2, rs2) := execPhase cfg tick rest procs1 mm1 cur1 rs1
    (c1 :: cs, procs2, mm2, cur2, rs2)

/-- scheduler_loop_tick (emulator.cpp:669-864).  The wall-clock pacing
sleep is irrelevant to the state; the auto-creation branch (lines
833-863) synthesises a process from rand() under a wall-clock cooldown,
so the process it appends (if any) is supplied as the spawn parameter. -/
def schedulerTick (s : Sys) (spawn : Option Process) : Sys :=
  let tick := s.global_tick + 1
  let procs0 := wakeSleepers s.procs
  let cores0 := reapCores procs0 s.cores
  let (cores1, procs1, cur1) := assignReadyToIdleCores s.config cores0 procs0 s.rrCursor
  let (cores2, procs2, mm2, cur2, resched) :=
    execPhase s.config tick cores1 procs1 s.mm cur1 false
  let (cores3, procs3, cur3) :=
    if resched then assignReadyToIdleCores s.config cores2 procs2 cur2
    else (cores2, procs2, cur2)
  let procs4 :=
    match spawn with
    | some newP => procs3 ++ [newP]
    | none => procs3
  { s with global_tick := tick, procs := procs4, cores := cores3, rrCursor := cur3, mm := mm2 }

/-- Iterated scheduler ticks with a stream of optional auto-created
processes. -/
def schedulerRun : Sys → List (Option Process) → Sys
  | s, [] => s
  | s, sp :: rest => schedulerRun (schedulerTick s sp) rest

/-! # Theorems -/

/-! ## C4: segmentation-fault boundary of MemoryManager::access -/

theorem access_eq_noProc (tick : Nat) (procs : List Process) (mm : MM)
    (pid : Int) (addr : Nat) (w : Bool) (val : Int)
    (h : findProcPid procs pid = none) :
    access tick procs mm pid addr w val = (.noProc, procs, mm) := by
  unfold access
  rw [h]

theorem access_eq_found (tick : Nat) (procs : List Process) (mm : MM)
    (pid : Int) (addr : Nat) (w : Bool) (val : Int) (p : Process)
    (h : findProcPid procs pid = some p) :
    access tick procs mm pid addr w val = accessFound tick procs mm pid addr w val p := by
  unfold access
  rw [h]

theorem evictVictim_isSome (procs : List Process) (mm : MM) (h : 1 ≤ mm.total_frames) :
    (evictVictim procs mm).isSome := by
  unfold evictVictim
  rcases hscan : (evictScan procs mm).2 with _ | v
  · simp only []
    rw [if_neg (by omega)]
    rfl
  · rfl

theorem allocateFrame_isSome (procs : List Process) (mm : MM) (h : 1 ≤ mm.total_frames) :
    (allocateFrame procs mm).isSome := by
  unfold allocateFrame
  rcases hf : (List.range mm.total_frames).find?
      (fun i => !(mm.frame_table.getD i default).occupied) with _ | i
  · exact evictVictim_isSome procs mm h
  · rfl

theorem handlePageFault_isSome (tick : Nat) (procs : List Process) (mm : MM)
    (pid page_num : Int) (h : 1 ≤ mm.total_frames) :
    (handlePageFault tick procs mm pid page_num).isSome := by
  unfold handlePageFault
  rcases ha : allocateFrame procs mm with _ | ⟨frame_idx, procs1, mm1⟩
  · have := allocateFrame_isSome procs mm h
    rw [ha] at this
    simp at this
  · rfl

theorem accessFinish_ok (procs : List Process) (mm : MM) (pid page_num : Int)
    (offset : Nat) (w : Bool) (val : Int) (pte : PageTableEntry) :
    ∃ v procs' mm',
      accessFinish procs mm pid page_num offset w val pte = (.ok v, procs', mm') := by
  unfold accessFinish
  cases w
  · exact ⟨_, _, _, rfl⟩
  · exact ⟨_, _, _, rfl⟩

/-- On an in-bounds address with at least one frame, access succeeds. -/
theorem access_ok_of_inbounds (tick : Nat) (procs : List Process) (mm : MM)
    (pid : Int) (addr : Nat) (w : Bool) (val : Int) (p : Process)
    (hfound : findProcPid procs pid = some p)
    (hlt : (addr : Int) < p.memory_required)
    (htf : 1 ≤ mm.total_frames) :
    ∃ v procs' mm', access tick procs mm pid addr w val = (.ok v, procs', mm') := by
  rw [access_eq_found tick procs mm pid addr w val p hfound]
  simp only [accessFound]
  rw [if_neg (show ¬((addr : Int) ≥ p.memory_required) by omega)]
  set page_num : Int := ((addr / mm.frame_size : Nat) : Int) with hpn
  set pt1 :=
    if (alookup p.page_table page_num).isNone then aset p.page_table page_num {}
    else p.page_table with hpt1
  set pte : PageTableEntry :=
    { (alookup pt1 page_num).getD default with last_accessed := tick } with hpte
  by_cases hv : pte.valid
  · rw [if_neg (show ¬((!pte.valid) = true) by simp; exact hv)]
    exact accessFinish_ok _ _ _ _ _ _ _ _
  · rw [if_pos (show (!pte.valid) = true by simp; simpa using hv)]
    rcases hpf : handlePageFault tick
        (updatePid procs pid fun q => { q with page_table := aset pt1 page_num pte }) mm pid
        page_num with _ | ⟨procs3, mm1⟩
    · have := handlePageFault_isSome tick
        (updatePid procs pid fun q => { q with page_table := aset pt1 page_num pte }) mm pid
        page_num htf
      rw [hpf] at this
      simp at this
    · exact accessFinish_ok _ _ _ _ _ _ _ _

/-- C4.  An access is rejected as segmentation fault exactly when the
virtual address is at or beyond memory_required; the segfault exit leaves
the process list and the whole memory-manager state (page tables, frame
table, RAM, counters) unchanged; with at least one physical frame, the
access at memory_required - 1 succeeds (servicing any page fault) while
the access at memory_required seg-faults. -/
theorem C4_segfault_boundary (tick : Nat) (procs : List Process) (mm : MM)
    (pid : Int) (addr : Nat) (w : Bool) (val : Int) (p : Process)
    (hfound : findProcPid procs pid = some p)
    (htf : 1 ≤ mm.total_frames) :
    ((access tick procs mm pid addr w val).1 = .segFault ↔ (addr : Int) ≥ p.memory_required)
    ∧ ((addr : Int) ≥ p.memory_required →
        access tick procs mm pid addr w val = (.segFault, procs, mm))
    ∧ (1 ≤ p.memory_required →
        (∃ v procs' mm',
          access tick procs mm pid (p.memory_required - 1).toNat w val = (.ok v, procs', mm'))
        ∧ (access tick procs mm pid p.memory_required.toNat w val).1 = .segFault) := by
  have hseg : ∀ a : Nat, (a : Int) ≥ p.memory_required →
      access tick procs mm pid a w val = (.segFault, procs, mm) := by
    intro a ha
    rw [access_eq_found tick procs mm pid a w val p hfound]
    simp only [accessFound]
    rw [if_pos ha]
  refine ⟨?_, hseg addr, ?_⟩
  · constructor
    · intro hres
      by_contra hlt
      push_neg at hlt
      obtain ⟨v, procs', mm', hok⟩ :=
        access_ok_of_inbounds tick procs mm pid addr w val p hfound hlt htf
      rw [hok] at hres
      simp at hres
    · intro hge
      rw [hseg addr hge]
  · intro hmr
    constructor
    · exact access_ok_of_inbounds tick procs mm pid (p.memory_required - 1).toNat w val p
        hfound (by omega) htf
    · rw [hseg p.memory_required.toNat (by omega)]

/-- Concrete witness for C4: a one-process, one-frame state. -/
theorem C4_segfault_boundary_witness :
    ((access 0 [{ pid := 1, memory_required := 8 }] (MM.init 1 4) 1 9 false 0).1 = .segFault
      ↔ (9 : Int) ≥ (8 : Int))
    ∧ ((9 : Int) ≥ (8 : Int) →
        access 0 [{ pid := 1, memory_required := 8 }] (MM.init 1 4) 1 9 false 0
          = (.segFault, [{ pid := 1, memory_required := 8 }], MM.init 1 4))
    ∧ ((1 : Int) ≤ 8 →
        (∃ v procs' mm',
          access 0 [{ pid := 1, memory_required := 8 }] (MM.init 1 4) 1
            ((8 : Int) - 1).toNat false 0 = (.ok v, procs', mm'))
        ∧ (access 0 [{ pid := 1, memory_required := 8 }] (MM.init 1 4) 1
            (8 : Int).toNat false 0).1 = .segFault) :=
  C4_segfault_boundary 0 [{ pid := 1, memory_required := 8 }] (MM.init 1 4) 1 9 false 0
    { pid := 1, memory_required := 8 } (by decide) (by decide)

/-! ## C9: undeclared variables resolve to zero without allocation -/

/-- C9.  A token that does not parse as an integer literal and is absent
from the symbol table resolves to 0, and resolution returns the process
list and memory manager unchanged: no symbol-table entry, cursor advance,
page-table entry or memory access happens. -/
theorem C9_undeclared_token_zero (tick : Nat) (procs : List Process) (mm : MM) (idx : Nat)
    (token : String)
    (hnum : stoiOpt token = none)
    (hsym : alookup (procs.getD idx default).symbol_table token = none) :
    getValueFromMemory tick procs mm idx token = (some 0, procs, mm) := by
  simp only [getValueFromMemory, hnum, hsym]

/-- Concrete witness for C9. -/
theorem C9_undeclared_token_zero_witness :
    getValueFromMemory 3 [{ pid := 1, memory_required := 8, symbol_table := [("x", 0)] }]
      (MM.init 1 4) 0 "undeclared_var"
      = (some 0, [{ pid := 1, memory_required := 8, symbol_table := [("x", 0)] }], MM.init 1 4) :=
  C9_undeclared_token_zero 3 _ _ 0 "undeclared_var" (by decide) (by decide)

/-! ## Scheduler-facing view of a process

Memory-manager operations mutate only the page_table field of processes;
everything the scheduler and the interpreter control flow read (state,
pc, logs, symbol table, ...) is untouched.  erasePT captures that. -/

def erasePT (p : Process) : Process := { p with page_table := [] }

theorem erasePT_default : erasePT default = default := rfl

theorem getD_map_erasePT {procs' procs : List Process}
    (h : procs'.map erasePT = procs.map erasePT) (i : Nat) :
    erasePT (procs'.getD i default) = erasePT (procs.getD i default) := by
  have h1 := congrArg (fun l => l.getD i (erasePT default)) h
  simp only [List.getD_map] at h1
  exact h1

theorem updatePid_map_erasePT (procs : List Process) (pid : Int) (f : Process → Process)
    (hf : ∀ q, erasePT (f q) = erasePT q) :
    (updatePid procs pid f).map erasePT = procs.map erasePT := by
  induction procs with
  | nil => rfl
  | cons hd tl ih =>
    unfold updatePid
    by_cases h : hd.pid = pid
    · rw [if_pos h]
      simp only [List.map_cons, hf hd, ih]
    · rw [if_neg h]
      simp only [List.map_cons, ih]

theorem evictAt_map_erasePT (procs : List Process) (mm : MM) (v : Nat) :
    ((evictAt procs mm v).2.1).map erasePT = procs.map erasePT := by
  rcases hfp : findProcPid procs (mm.frame_table.getD v default).pid with _ | p
  · simp only [evictAt, hfp]
  · simp only [evictAt, hfp]
    exact updatePid_map_erasePT _ _ _ (fun q => rfl)

theorem evictVictim_map_erasePT (procs procs' : List Process) (mm mm' : MM) (v : Nat)
    (h : evictVictim procs mm = some (v, procs', mm')) :
    procs'.map erasePT = procs.map erasePT := by
  have key : ∀ w, evictAt procs mm w = (v, procs', mm') →
      procs'.map erasePT = procs.map erasePT := by
    intro w hw
    have h0 := evictAt_map_erasePT procs mm w
    rw [hw] at h0
    exact h0
  unfold evictVictim at h
  rcases hscan : (evictScan procs mm).2 with _ | w <;> simp only [hscan] at h
  · by_cases htf : mm.total_frames = 0
    · rw [if_pos htf] at h
      simp at h
    · rw [if_neg htf] at h
      exact key 0 (Option.some.inj h)
  · exact key w (Option.some.inj h)

theorem allocateFrame_map_erasePT (procs procs' : List Process) (mm mm' : MM) (i : Nat)
    (h : allocateFrame procs mm = some (i, procs', mm')) :
    procs'.map erasePT = procs.map erasePT := by
  unfold allocateFrame at h
  rcases hf : (List.range mm.total_frames).find?
      (fun i => !(mm.frame_table.getD i default).occupied) with _ | j <;> rw [hf] at h
  · exact evictVictim_map_erasePT procs procs' mm mm' i h
  · cases h
    rfl

theorem handlePageFault_map_erasePT (tick : Nat) (procs procs' : List Process)
    (mm mm' : MM) (pid page_num : Int)
    (h : handlePageFault tick procs mm pid page_num = some (procs', mm')) :
    procs'.map erasePT = procs.map erasePT := by
  unfold handlePageFault at h
  rcases ha : allocateFrame procs mm with _ | ⟨f, procs1, mm1⟩ <;> rw [ha] at h
  · simp at h
  · have h1 := allocateFrame_map_erasePT procs procs1 mm mm1 f ha
    simp only [Option.some.injEq, Prod.mk.injEq] at h
    rw [← h.1]
    refine Eq.trans (updatePid_map_erasePT procs1 pid (fun p =>
      { p with page_table := (aset p.page_table page_num
        { frame_num := (f : Int), valid := true, dirty := false,
          last_accessed := tick }) }) (fun q => rfl)) h1

theorem accessFinish_map_erasePT (procs : List Process) (mm : MM) (pid page_num : Int)
    (offset : Nat) (w : Bool) (val : Int) (pte : PageTableEntry) :
    ((accessFinish procs mm pid page_num offset w val pte).2.1).map erasePT
      = procs.map erasePT := by
  unfold accessFinish
  cases w
  · rfl
  · exact updatePid_map_erasePT _ _ _ (fun q => rfl)

/-- The master preservation fact: access never changes any process field
other than page_table (of any process, not just the one accessing). -/
theorem access_map_erasePT (tick : Nat) (procs : List Process) (mm : MM)
    (pid : Int) (addr : Nat) (w : Bool) (val : Int) :
    ((access tick procs mm pid addr w val).2.1).map erasePT = procs.map erasePT := by
  rcases hp : findProcPid procs pid with _ | p
  · rw [access_eq_noProc tick procs mm pid addr w val hp]
  · rw [access_eq_found tick procs mm pid addr w val p hp]
    simp only [accessFound]
    by_cases hge : (addr : Int) ≥ p.memory_required
    · rw [if_pos hge]
    · rw [if_neg hge]
      set page_num : Int := ((addr / mm.frame_size : Nat) : Int) with hpn
      set pt1 :=
        if (alookup p.page_table page_num).isNone then aset p.page_table page_num {}
        else p.page_table with hpt1
      set pte : PageTableEntry :=
        { (alookup pt1 page_num).getD default with last_accessed := tick } with hpte
      set procs2 := updatePid procs pid fun q =>
        { q with page_table := aset pt1 page_num pte } with hprocs2
      have h2 : procs2.map erasePT = procs.map erasePT :=
        updatePid_map_erasePT _ _ _ (fun q => rfl)
      by_cases hv : pte.valid
      · rw [if_neg (show ¬((!pte.valid) = true) by simp; exact hv)]
        rw [accessFinish_map_erasePT, h2]
      · rw [if_pos (show (!pte.valid) = true by simp; simpa using hv)]
        rcases hpf : handlePageFault tick procs2 mm pid page_num with _ | ⟨procs3, mm1⟩
        · exact h2
        · rw [accessFinish_map_erasePT,
            handlePageFault_map_erasePT tick procs2 procs3 mm mm1 pid page_num hpf, h2]

theorem getValueFromMemory_map_erasePT (tick : Nat) (procs : List Process) (mm : MM)
    (idx : Nat) (token : String) :
    ((getValueFromMemory tick procs mm idx token).2.1).map erasePT = procs.map erasePT := by
  rcases hn : stoiOpt token with _ | v
  · rcases hs : alookup (procs.getD idx default).symbol_table token with _ | addr
    · simp only [getValueFromMemory, hn, hs]
    · rcases ha : access tick procs mm (procs.getD idx default).pid addr.toNat false 0
        with ⟨r, procs1, mm1⟩
      have hm := access_map_erasePT tick procs mm (procs.getD idx default).pid addr.toNat false 0
      rw [ha] at hm
      rcases r with _ | _ | _ | v <;> simp only [getValueFromMemory, hn, hs, ha] <;> exact hm
  · simp only [getValueFromMemory, hn]

theorem map_erasePT_length {procs' procs : List Process}
    (h : procs'.map erasePT = procs.map erasePT) : procs'.length = procs.length := by
  have h1 := congrArg List.length h
  simpa using h1

theorem erasePT_fields {p q : Process} (h : erasePT p = erasePT q) :
    p.name = q.name ∧ p.pid = q.pid ∧ p.state = q.state ∧ p.instructions = q.instructions
    ∧ p.pc = q.pc ∧ p.logs = q.logs ∧ p.sleep_counter = q.sleep_counter
    ∧ p.memory_required = q.memory_required ∧ p.symbol_table = q.symbol_table
    ∧ p.symbol_cursor = q.symbol_cursor := by
  cases p
  cases q
  simp only [erasePT, Process.mk.injEq, and_true] at h
  simp only [Process.mk.injEq]
  exact h

/-! ## C10: PRINT is atomic in its log output and pc advance -/

theorem printLoop_map_erasePT (tick : Nat) (idx : Nat) (parts : List String)
    (out : String) (procs : List Process) (mm : MM) :
    ((printLoop tick idx parts out procs mm).2.2.1).map erasePT = procs.map erasePT := by
  induction parts generalizing out procs mm with
  | nil => rfl
  | cons part rest ih =>
    unfold printLoop
    by_cases hq : isSingleQuoted part
    · rw [if_pos hq]
      exact ih _ _ _
    · rw [if_neg hq]
      rcases hg : getValueFromMemory tick procs mm idx part with ⟨r, procs1, mm1⟩
      have hm := getValueFromMemory_map_erasePT tick procs mm idx part
      rw [hg] at hm
      rcases r with _ | v
      · exact hm
      · exact (ih _ _ _).trans hm

/-- C10.  PRINT is atomic with respect to its output: if resolving any
value token of the expression fails (printLoop stalls), the process logs
and pc are unchanged (the instruction retries later); if every segment
resolves, exactly one entry — the concatenated text — is appended to the
logs and pc advances by exactly one. -/
theorem C10_print_atomic (tick : Nat) (procs : List Process) (mm : MM) (idx : Nat)
    (expr : String) (hidx : idx < procs.length) :
    ((printLoop tick idx (splitPrintExpr expr) "" procs mm).1 = true →
      (((executeInstr tick procs mm idx (.PRINT expr)).1.getD idx default).logs
          = (procs.getD idx default).logs
        ∧ ((executeInstr tick procs mm idx (.PRINT expr)).1.getD idx default).pc
          = (procs.getD idx default).pc))
    ∧ ((printLoop tick idx (splitPrintExpr expr) "" procs mm).1 = false →
      (((executeInstr tick procs mm idx (.PRINT expr)).1.getD idx default).logs
          = (procs.getD idx default).logs
            ++ [(printLoop tick idx (splitPrintExpr expr) "" procs mm).2.1]
        ∧ ((executeInstr tick procs mm idx (.PRINT expr)).1.getD idx default).pc
          = (procs.getD idx default).pc + 1)) := by
  rcases hr : printLoop tick idx (splitPrintExpr expr) "" procs mm
    with ⟨stall, out, procs1, mm1⟩
  have hmapE := printLoop_map_erasePT tick idx (splitPrintExpr expr) "" procs mm
  rw [hr] at hmapE
  have hfields := erasePT_fields (getD_map_erasePT hmapE idx)
  have hlogs : (procs1.getD idx default).logs = (procs.getD idx default).logs :=
    hfields.2.2.2.2.2.1
  have hpc : (procs1.getD idx default).pc = (procs.getD idx default).pc :=
    hfields.2.2.2.2.1
  have hlen : procs1.length = procs.length := map_erasePT_length hmapE
  cases stall
  · -- no stall: one log entry appended, pc advanced
    constructor
    · intro h
      simp at h
    · intro _
      have hexec : (executeInstr tick procs mm idx (.PRINT expr)).1
          = procs1.set idx { procs1.getD idx default with
              logs := (procs1.getD idx default).logs ++ [out],
              pc := (procs1.getD idx default).pc + 1 } := by
        simp only [executeInstr, hr]
      rw [hexec, getD_set, if_pos ⟨rfl, by omega⟩]
      constructor
      · show (procs1.getD idx default).logs ++ [out] = _
        rw [hlogs]
      · show (procs1.getD idx default).pc + 1 = _
        rw [hpc]
  · -- stall: logs and pc unchanged
    constructor
    · intro _
      have hexec : (executeInstr tick procs mm idx (.PRINT expr)).1 = procs1 := by
        simp only [executeInstr, hr]
      rw [hexec]
      exact ⟨hlogs, hpc⟩
    · intro h
      simp at h

/-- Concrete witness for C10: a successful PRINT of a quoted literal plus
an undeclared variable (which resolves to 0), and field equalities checked
on the resulting state. -/
theorem C10_print_atomic_witness :
    (printLoop 1 0 (splitPrintExpr "'v=' + x") ""
        [{ pid := 1, memory_required := 8 }] (MM.init 1 4)).1 = false
    ∧ (((executeInstr 1 [{ pid := 1, memory_required := 8 }] (MM.init 1 4) 0
          (.PRINT "'v=' + x")).1.getD 0 default).logs
          = ([{ pid := 1, memory_required := 8 }].getD 0 (default : Process)).logs
            ++ [(printLoop 1 0 (splitPrintExpr "'v=' + x") ""
                  [{ pid := 1, memory_required := 8 }] (MM.init 1 4)).2.1]
        ∧ ((executeInstr 1 [{ pid := 1, memory_required := 8 }] (MM.init 1 4) 0
            (.PRINT "'v=' + x")).1.getD 0 default).pc
          = ([{ pid := 1, memory_required := 8 }].getD 0 (default : Process)).pc + 1) :=
  ⟨by decide,
    (C10_print_atomic 1 [{ pid := 1, memory_required := 8 }] (MM.init 1 4) 0 "'v=' + x"
      (by decide)).2 (by decide)⟩

/-! ## C3: LRU victim selection and dirty write-back -/

/-- The last_accessed stamp the victim scan reads for frame i: defined when
the frame's pid resolves to a process whose page table has the frame's
page. -/
def lastOf (procs : List Process) (ft : List FrameTableEntry) (i : Nat) : Option Nat :=
  match findProcPid procs (ft.getD i default).pid with
  | some p =>
    match alookup p.page_table (ft.getD i default).page_num with
    | some pte => some pte.last_accessed
    | none => none
  | none => none

theorem evictScanStep_eq (procs : List Process) (ft : List FrameTableEntry)
    (acc : Nat × Option Nat) (i : Nat) :
    evictScanStep procs ft acc i =
      match lastOf procs ft i with
      | some last => if last < acc.1 then (last, some i) else acc
      | none => acc := by
  rcases hf : findProcPid procs (ft.getD i default).pid with _ | p
  · simp only [evictScanStep, lastOf, hf]
  · rcases ha : alookup p.page_table (ft.getD i default).page_num with _ | pte
    · simp only [evictScanStep, lastOf, hf, ha]
    · simp only [evictScanStep, lastOf, hf, ha]

/-- Invariant of the victim scan over the first n frames: the accumulator
holds the first-minimal defined stamp seen so far. -/
def scanInv (procs : List Process) (ft : List FrameTableEntry) (n : Nat)
    (acc : Nat × Option Nat) : Prop :=
  match acc.2 with
  | none => acc.1 = U64MAX ∧ ∀ i < n, ∀ m, lastOf procs ft i = some m → ¬ m < U64MAX
  | some v => v < n ∧ lastOf procs ft v = some acc.1 ∧ acc.1 < U64MAX
      ∧ (∀ i < n, ∀ m, lastOf procs ft i = some m → acc.1 ≤ m)
      ∧ (∀ i < v, ∀ m, lastOf procs ft i = some m → acc.1 < m)

theorem scanStep_inv (procs : List Process) (ft : List FrameTableEntry) (n : Nat)
    (acc : Nat × Option Nat) (h : scanInv procs ft n acc) :
    scanInv procs ft (n + 1) (evictScanStep procs ft acc n) := by
  rw [evictScanStep_eq]
  rcases hl : lastOf procs ft n with _ | last
  · simp only [hl]
    rcases hacc : acc.2 with _ | v
    · rw [scanInv, hacc] at h
      rw [scanInv, hacc]
      refine ⟨h.1, ?_⟩
      intro i hi m hm
      rcases Nat.lt_succ_iff_lt_or_eq.mp hi with hi' | hi'
      · exact h.2 i hi' m hm
      · subst hi'
        rw [hl] at hm
        cases hm
    · rw [scanInv, hacc] at h
      rw [scanInv, hacc]
      obtain ⟨h1, h2, h3, h4, h5⟩ := h
      refine ⟨Nat.lt_succ_of_lt h1, h2, h3, ?_, h5⟩
      intro i hi m hm
      rcases Nat.lt_succ_iff_lt_or_eq.mp hi with hi' | hi'
      · exact h4 i hi' m hm
      · subst hi'
        rw [hl] at hm
        cases hm
  · simp only [hl]
    by_cases hcmp : last < acc.1
    · rw [if_pos hcmp]
      rcases hacc : acc.2 with _ | v
      · rw [scanInv, hacc] at h
        rw [scanInv]
        refine ⟨Nat.lt_succ_self n, hl, by have := h.1; omega, ?_, ?_⟩
        · intro i hi m hm
          rcases Nat.lt_succ_iff_lt_or_eq.mp hi with hi' | hi'
          · by_contra hcon
            have := h.1
            exact h.2 i hi' m hm (by omega)
          · subst hi'
            rw [hl] at hm
            cases hm
            omega
        · intro i hi m hm
          by_contra hcon
          have := h.1
          exact h.2 i hi m hm (by omega)
      · rw [scanInv, hacc] at h
        rw [scanInv]
        obtain ⟨h1, h2, h3, h4, h5⟩ := h
        refine ⟨Nat.lt_succ_self n, hl, by omega, ?_, ?_⟩
        · intro i hi m hm
          rcases Nat.lt_succ_iff_lt_or_eq.mp hi with hi' | hi'
          · have := h4 i hi' m hm
            omega
          · subst hi'
            rw [hl] at hm
            cases hm
            omega
        · intro i hi m hm
          have h6 := h4 i (by omega) m hm
          omega
    · rw [if_neg hcmp]
      rcases hacc : acc.2 with _ | v
      · rw [scanInv, hacc] at h
        rw [scanInv, hacc]
        refine ⟨h.1, ?_⟩
        intro i hi m hm
        rcases Nat.lt_succ_iff_lt_or_eq.mp hi with hi' | hi'
        · exact h.2 i hi' m hm
        · subst hi'
          rw [hl] at hm
          cases hm
          have := h.1
          omega
      · rw [scanInv, hacc] at h
        rw [scanInv, hacc]
        obtain ⟨h1, h2, h3, h4, h5⟩ := h
        refine ⟨Nat.lt_succ_of_lt h1, h2, h3, ?_, h5⟩
        intro i hi m hm
        rcases Nat.lt_succ_iff_lt_or_eq.mp hi with hi' | hi'
        · exact h4 i hi' m hm
        · subst hi'
          rw [hl] at hm
          cases hm
          omega

theorem evictScan_inv (procs : List Process) (mm : MM) :
    scanInv procs mm.frame_table mm.total_frames (evictScan procs mm) := by
  unfold evictScan
  have main : ∀ n : Nat,
      scanInv procs mm.frame_table n
        ((List.range n).foldl (evictScanStep procs mm.frame_table) (U64MAX, none)) := by
    intro n
    induction n with
    | zero =>
      rw [scanInv]
      exact ⟨rfl, by intro i hi; omega⟩
    | succ n ih =>
      rw [List.range_succ, List.foldl_append, List.foldl_cons, List.foldl_nil]
      exact scanStep_inv procs mm.frame_table n _ ih
  exact main mm.total_frames

/-- C3.  When eviction runs with every frame occupied and every frame's
owner present (timestamps below the u64 sentinel), the victim is the frame
whose owning page-table entry has the minimal last_accessed, ties broken
toward the smaller frame index; the backing store receives the frame bytes
and pages_paged_out is incremented exactly when that entry is dirty. -/
theorem C3_lru_eviction (procs : List Process) (mm : MM)
    (htf : 1 ≤ mm.total_frames)
    (howner : ∀ i, i < mm.total_frames →
      ∃ m, lastOf procs mm.frame_table i = some m ∧ m < U64MAX) :
    ∃ v procs' mm' mv, evictVictim procs mm = some (v, procs', mm')
    ∧ v < mm.total_frames
    ∧ lastOf procs mm.frame_table v = some mv
    ∧ (∀ i, i < mm.total_frames → ∀ m, lastOf procs mm.frame_table i = some m → mv ≤ m)
    ∧ (∀ i, i < v → ∀ m, lastOf procs mm.frame_table i = some m → mv < m)
    ∧ ((let fte := mm.frame_table.getD v default
        let pte := (alookup ((findProcPid procs fte.pid).getD default).page_table
          fte.page_num).getD default
        (pte.dirty = true →
          mm'.backing_store = aset mm.backing_store (fte.pid, fte.page_num)
              (ramSlice mm.ram (v * mm.frame_size) mm.frame_size)
          ∧ mm'.pages_paged_out = mm.pages_paged_out + 1)
        ∧ (pte.dirty = false →
          mm'.backing_store = mm.backing_store
          ∧ mm'.pages_paged_out = mm.pages_paged_out))) := by
  have hinv := evictScan_inv procs mm
  rcases hacc : (evictScan procs mm).2 with _ | v
  · -- scan found nothing: impossible, frame 0 has a defined small stamp
    rw [scanInv, hacc] at hinv
    obtain ⟨m0, hm0, hlt0⟩ := howner 0 (by omega)
    exact absurd hlt0 (hinv.2 0 (by omega) m0 hm0)
  · rw [scanInv, hacc] at hinv
    obtain ⟨hvlt, hlast, hsmall, hmin, htie⟩ := hinv
    -- the owner of the victim frame exists
    rcases hfp : findProcPid procs (mm.frame_table.getD v default).pid with _ | p
    · simp only [lastOf, hfp] at hlast
      cases hlast
    · rcases hpt : alookup p.page_table (mm.frame_table.getD v default).page_num
        with _ | pte0
      · simp only [lastOf, hfp, hpt] at hlast
        cases hlast
      · have heq : evictVictim procs mm = some (evictAt procs mm v) := by
          unfold evictVictim
          rw [hacc]
        have hfst : (evictAt procs mm v).1 = v := by
          simp only [evictAt, hfp]
        rcases hat : evictAt procs mm v with ⟨v1, procsA, mmA⟩
        have hv1 : v1 = v := by
          rw [hat] at hfst
          exact hfst
        subst hv1
        refine ⟨v1, procsA, mmA, (evictScan procs mm).1, by rw [heq, hat], hvlt, hlast,
          hmin, htie, ?_⟩
        simp only [evictAt, hfp, hpt, Option.getD_some] at hat
        simp only [hfp, Option.getD_some, hpt]
        rcases hdirty : pte0.dirty with _ | _
        · rw [hdirty] at hat
          simp only [Bool.false_eq_true, if_false, Prod.mk.injEq] at hat
          constructor
          · intro hd
            exact Bool.noConfusion hd
          · intro _
            rw [← hat.2.2]
            exact ⟨rfl, rfl⟩
        · rw [hdirty] at hat
          simp only [if_true, Prod.mk.injEq] at hat
          constructor
          · intro _
            rw [← hat.2.2]
            exact ⟨rfl, rfl⟩
          · intro hd
            exact Bool.noConfusion hd

/-- Concrete witness for C3: two frames owned by one process, pages 0 and
1, with page 1 least recently used and dirty. -/
theorem C3_lru_eviction_witness :
    ∃ v procs' mm' mv,
      evictVictim
        [{ pid := 1, memory_required := 32, page_table :=
            [((0 : Int), { frame_num := 0, valid := true, dirty := false, last_accessed := 5 }),
             ((1 : Int), { frame_num := 1, valid := true, dirty := true, last_accessed := 2 })] }]
        { total_frames := 2, frame_size := 4,
          frame_table := [{ pid := 1, page_num := 0, occupied := true },
            { pid := 1, page_num := 1, occupied := true }],
          ram := [7, 0, 0, 0, 9, 8, 0, 0], backing_store := [] }
        = some (v, procs', mm')
      ∧ v < 2
      ∧ lastOf
          [{ pid := 1, memory_required := 32, page_table :=
              [((0 : Int), { frame_num := 0, valid := true, dirty := false, last_accessed := 5 }),
               ((1 : Int), { frame_num := 1, valid := true, dirty := true, last_accessed := 2 })] }]
          [{ pid := 1, page_num := 0, occupied := true },
           { pid := 1, page_num := 1, occupied := true }] v = some mv := by
  obtain ⟨v, procs', mm', mv, h1, h2, h3, h4, h5, h6⟩ :=
    C3_lru_eviction
      [{ pid := 1, memory_required := 32, page_table :=
          [((0 : Int), { frame_num := 0, valid := true, dirty := false, last_accessed := 5 }),
           ((1 : Int), { frame_num := 1, valid := true, dirty := true, last_accessed := 2 })] }]
      { total_frames := 2, frame_size := 4,
        frame_table := [{ pid := 1, page_num := 0, occupied := true },
          { pid := 1, page_num := 1, occupied := true }],
        ram := [7, 0, 0, 0, 9, 8, 0, 0], backing_store := [] }
      (by decide)
      (by
        intro i hi
        have hi2 : i < 2 := hi
        interval_cases i
        · exact ⟨5, by decide, by decide⟩
        · exact ⟨2, by decide, by decide⟩)
  exact ⟨v, procs', mm', mv, h1, h2, h3⟩

/-! ## C8: fate of frames whose owner pid is gone

The evictVictim in force (MemoryManager.cpp:174-237) does not reclaim a
frame whose pid has no process: the scan loop simply never considers it
(the inner process loop finds no match and falls through), so the frame
stays occupied and some other frame with a live owner is evicted.  The
immediate-reclaim behaviour the claim describes exists only in the older
duplicated evictVictim further down the same file (the self-heal branch). -/

/-- C8 counterexample.  Frame 0 references pid 99, absent from the process
table; frame 1 is owned by the (present) pid 1.  Eviction picks frame 1
and leaves the orphaned frame 0 occupied — it is skipped, not reclaimed. -/
theorem C8_orphan_counterexample :
    (evictVictim
      [{ pid := 1, memory_required := 32, page_table :=
          [((0 : Int), { frame_num := 1, valid := true, dirty := false, last_accessed := 5 })] }]
      { total_frames := 2, frame_size := 4,
        frame_table := [{ pid := 99, page_num := 0, occupied := true },
          { pid := 1, page_num := 0, occupied := true }],
        ram := [0, 0, 0, 0, 0, 0, 0, 0], backing_store := [] }).map
      (fun t => (t.1, (t.2.2.frame_table.getD 0 default).occupied))
      = some (1, true) := by
  decide

theorem evictAt_frame_table (procs : List Process) (mm : MM) (v : Nat) :
    ((evictAt procs mm v).2.2).frame_table
      = mm.frame_table.set v { mm.frame_table.getD v default with occupied := false } := by
  rcases hfp : findProcPid procs (mm.frame_table.getD v default).pid with _ | p
  · simp only [evictAt, hfp]
  · simp only [evictAt, hfp]
    by_cases hd : ((alookup p.page_table (mm.frame_table.getD v default).page_num).getD
        default).dirty = true
    · rw [if_pos hd]
    · rw [if_neg hd]

/-- C8 amended.  During eviction, an occupied frame whose frame-table pid
is not present in the process table is skipped by the LRU scan: whenever
some frame has a live owner (with an in-range stamp), the victim is such
a frame — never the orphan — and the orphaned frame entry is left exactly
as it was (still occupied).  (The immediate self-healing reclaim only
exists in the second, older evictVictim variant in the file.) -/
theorem C8_orphan_skipped (procs : List Process) (mm : MM) (k : Nat)
    (hk : k < mm.total_frames)
    (horphan : findProcPid procs (mm.frame_table.getD k default).pid = none)
    (hlive : ∃ i, i < mm.total_frames ∧
      ∃ m, lastOf procs mm.frame_table i = some m ∧ m < U64MAX) :
    ∃ v procs' mm', evictVictim procs mm = some (v, procs', mm')
    ∧ v ≠ k
    ∧ (∃ m, lastOf procs mm.frame_table v = some m)
    ∧ mm'.frame_table.getD k default = mm.frame_table.getD k default := by
  have hinv := evictScan_inv procs mm
  have hlastk : lastOf procs mm.frame_table k = none := by
    simp only [lastOf, horphan]
  rcases hacc : (evictScan procs mm).2 with _ | v
  · rw [scanInv, hacc] at hinv
    obtain ⟨i, hi, m, hm, hmlt⟩ := hlive
    exact absurd hmlt (hinv.2 i hi m hm)
  · rw [scanInv, hacc] at hinv
    obtain ⟨hvlt, hlast, hsmall, hmin, htie⟩ := hinv
    have heq : evictVictim procs mm = some (evictAt procs mm v) := by
      unfold evictVictim
      rw [hacc]
    have hfst : (evictAt procs mm v).1 = v := by
      rcases hfp : findProcPid procs (mm.frame_table.getD v default).pid with _ | p <;>
        simp only [evictAt, hfp]
    rcases hat : evictAt procs mm v with ⟨v1, procsA, mmA⟩
    have hv1 : v1 = v := by
      rw [hat] at hfst
      exact hfst
    subst hv1
    have hvk : v1 ≠ k := by
      intro hcon
      rw [hcon, hlastk] at hlast
      cases hlast
    refine ⟨v1, procsA, mmA, by rw [heq, hat], hvk, ⟨_, hlast⟩, ?_⟩
    have hft := evictAt_frame_table procs mm v1
    rw [hat] at hft
    rw [hft, getD_set, if_neg (by
      intro hcon
      exact hvk hcon.1)]

/-- Witness for the amended C8 at the counterexample state: k = 0 is the
orphaned frame, frame 1 has the live owner. -/
theorem C8_orphan_skipped_witness :
    ∃ v procs' mm',
      evictVictim
        [{ pid := 1, memory_required := 32, page_table :=
            [((0 : Int), { frame_num := 1, valid := true, dirty := false, last_accessed := 5 })] }]
        { total_frames := 2, frame_size := 4,
          frame_table := [{ pid := 99, page_num := 0, occupied := true },
            { pid := 1, page_num := 0, occupied := true }],
          ram := [0, 0, 0, 0, 0, 0, 0, 0], backing_store := [] }
        = some (v, procs', mm')
      ∧ v ≠ 0
      ∧ (∃ m, lastOf
          [{ pid := 1, memory_required := 32, page_table :=
              [((0 : Int), { frame_num := 1, valid := true, dirty := false, last_accessed := 5 })] }]
          [{ pid := 99, page_num := 0, occupied := true },
           { pid := 1, page_num := 0, occupied := true }] v = some m)
      ∧ mm'.frame_table.getD 0 default = { pid := 99, page_num := 0, occupied := true } :=
  C8_orphan_skipped
    [{ pid := 1, memory_required := 32, page_table :=
        [((0 : Int), { frame_num := 1, valid := true, dirty := false, last_accessed := 5 })] }]
    { total_frames := 2, frame_size := 4,
      frame_table := [{ pid := 99, page_num := 0, occupied := true },
        { pid := 1, page_num := 0, occupied := true }],
      ram := [0, 0, 0, 0, 0, 0, 0, 0], backing_store := [] }
    0 (by decide) (by decide) ⟨1, by decide, 5, by decide, by decide⟩

/-! ## Preservation of other processes across one instruction

Executing an instruction of process j can change process j's own fields
and, through the memory manager, page tables of any process — but no other
field of any process other than j. -/

def PresExcept (j : Nat) (procs procs' : List Process) : Prop :=
  procs'.length = procs.length ∧
  ∀ i, i ≠ j → erasePT (procs'.getD i default) = erasePT (procs.getD i default)

theorem presExcept_refl (j : Nat) (procs : List Process) : PresExcept j procs procs :=
  ⟨rfl, fun _ _ => rfl⟩

theorem presExcept_trans {j : Nat} {a b c : List Process}
    (h1 : PresExcept j a b) (h2 : PresExcept j b c) : PresExcept j a c :=
  ⟨h2.1.trans h1.1, fun i hi => (h2.2 i hi).trans (h1.2 i hi)⟩

theorem presExcept_of_map {j : Nat} {procs procs' : List Process}
    (h : procs'.map erasePT = procs.map erasePT) : PresExcept j procs procs' :=
  ⟨map_erasePT_length h, fun i _ => getD_map_erasePT h i⟩

theorem presExcept_set (j : Nat) (procs : List Process) (v : Process) :
    PresExcept j procs (procs.set j v) := by
  refine ⟨procs.length_set j v, ?_⟩
  intro i hi
  rw [getD_set, if_neg (by
    intro hcon
    exact hi hcon.1.symm)]

theorem setValueToMemory_pres (tick : Nat) (procs : List Process) (mm : MM) (j : Nat)
    (varName : String) (value : Int) :
    PresExcept j procs ((setValueToMemory tick procs mm j varName value).2.1) := by
  rcases hs : alookup (procs.getD j default).symbol_table varName with _ | addr
  · rcases ha : access tick
        (procs.set j { procs.getD j default with
          symbol_table := aset (procs.getD j default).symbol_table varName
            (procs.getD j default).symbol_cursor,
          symbol_cursor := (procs.getD j default).symbol_cursor + 2 }) mm
        (procs.getD j default).pid (procs.getD j default).symbol_cursor.toNat true value
      with ⟨r, procs2, mm2⟩
    have hmap := access_map_erasePT tick
      (procs.set j { procs.getD j default with
          symbol_table := aset (procs.getD j default).symbol_table varName
            (procs.getD j default).symbol_cursor,
          symbol_cursor := (procs.getD j default).symbol_cursor + 2 }) mm
      (procs.getD j default).pid (procs.getD j default).symbol_cursor.toNat true value
    rw [ha] at hmap
    have hstep : PresExcept j procs procs2 :=
      presExcept_trans (presExcept_set j procs _) (presExcept_of_map hmap)
    rcases r with _ | _ | _ | v <;> simp only [setValueToMemory, hs, ha] <;> exact hstep
  · rcases ha : access tick procs mm (procs.getD j default).pid addr.toNat true value
      with ⟨r, procs2, mm2⟩
    have hmap := access_map_erasePT tick procs mm (procs.getD j default).pid addr.toNat
      true value
    rw [ha] at hmap
    have hstep : PresExcept j procs procs2 := presExcept_of_map hmap
    rcases r with _ | _ | _ | v <;> simp only [setValueToMemory, hs, ha] <;> exact hstep

theorem getValueFromMemory_pres (tick : Nat) (procs : List Process) (mm : MM) (j : Nat)
    (token : String) :
    PresExcept j procs ((getValueFromMemory tick procs mm j token).2.1) :=
  presExcept_of_map (getValueFromMemory_map_erasePT tick procs mm j token)

theorem bumpPC_pres (procs : List Process) (j : Nat) :
    PresExcept j procs (bumpPC procs j) :=
  presExcept_set j procs _

theorem printLoop_pres (tick : Nat) (j : Nat) (parts : List String) (out : String)
    (procs : List Process) (mm : MM) :
    PresExcept j procs ((printLoop tick j parts out procs mm).2.2.1) :=
  presExcept_of_map (printLoop_map_erasePT tick j parts out procs mm)

/-- One instruction of process j touches no scheduler-visible field of any
other process. -/
theorem executeInstr_pres (tick : Nat) (procs : List Process) (mm : MM) (j : Nat)
    (instr : Instr) :
    PresExcept j procs ((executeInstr tick procs mm j instr).1) := by
  cases instr with
  | DECLARE var val =>
    rcases hsv : setValueToMemory tick procs mm j var (clampUint16 val)
      with ⟨okb, procs1, mm1⟩
    have h1 := setValueToMemory_pres tick procs mm j var (clampUint16 val)
    rw [hsv] at h1
    cases okb <;> simp only [executeInstr, hsv]
    · exact h1
    · exact presExcept_trans h1 (bumpPC_pres procs1 j)
  | ADD target op1 op2 =>
    rcases hg1 : getValueFromMemory tick procs mm j op1 with ⟨r1, procs1, mm1⟩
    have h1 := getValueFromMemory_pres tick procs mm j op1
    rw [hg1] at h1
    rcases r1 with _ | v1
    · simp only [executeInstr, hg1]
      exact h1
    · rcases hg2 : getValueFromMemory tick procs1 mm1 j op2 with ⟨r2, procs2, mm2⟩
      have h2 := getValueFromMemory_pres tick procs1 mm1 j op2
      rw [hg2] at h2
      rcases r2 with _ | v2
      · simp only [executeInstr, hg1, hg2]
        exact presExcept_trans h1 h2
      · rcases hsv : setValueToMemory tick procs2 mm2 j target (clampUint16 (v1 + v2))
          with ⟨okb, procs3, mm3⟩
        have h3 := setValueToMemory_pres tick procs2 mm2 j target (clampUint16 (v1 + v2))
        rw [hsv] at h3
        cases okb <;> simp only [executeInstr, hg1, hg2, hsv]
        · exact presExcept_trans (presExcept_trans h1 h2) h3
        · exact presExcept_trans (presExcept_trans (presExcept_trans h1 h2) h3)
            (bumpPC_pres procs3 j)
  | SUBTRACT target op1 op2 =>
    rcases hg1 : getValueFromMemory tick procs mm j op1 with ⟨r1, procs1, mm1⟩
    have h1 := getValueFromMemory_pres tick procs mm j op1
    rw [hg1] at h1
    rcases r1 with _ | v1
    · simp only [executeInstr, hg1]
      exact h1
    · rcases hg2 : getValueFromMemory tick procs1 mm1 j op2 with ⟨r2, procs2, mm2⟩
      have h2 := getValueFromMemory_pres tick procs1 mm1 j op2
      rw [hg2] at h2
      rcases r2 with _ | v2
      · simp only [executeInstr, hg1, hg2]
        exact presExcept_trans h1 h2
      · rcases hsv : setValueToMemory tick procs2 mm2 j target (clampUint16 (v1 - v2))
          with ⟨okb, procs3, mm3⟩
        have h3 := setValueToMemory_pres tick procs2 mm2 j target (clampUint16 (v1 - v2))
        rw [hsv] at h3
        cases okb <;> simp only [executeInstr, hg1, hg2, hsv]
        · exact presExcept_trans (presExcept_trans h1 h2) h3
        · exact presExcept_trans (presExcept_trans (presExcept_trans h1 h2) h3)
            (bumpPC_pres procs3 j)
  | PRINT expression =>
    rcases hp : printLoop tick j (splitPrintExpr expression) "" procs mm
      with ⟨stall, out, procs1, mm1⟩
    have h1 := printLoop_pres tick j (splitPrintExpr expression) "" procs mm
    rw [hp] at h1
    cases stall <;> simp only [executeInstr, hp]
    · exact presExcept_trans h1 (presExcept_set j procs1 _)
    · exact h1
  | SLEEP duration =>
    simp only [executeInstr]
    exact presExcept_set j procs _
  | FOR body repeats =>
    simp only [executeInstr]
    by_cases hpc : (procs.getD j default).pc < (procs.getD j default).instructions.length
    · rw [if_pos hpc]
      exact presExcept_set j procs _
    · rw [if_neg hpc]
      exact presExcept_refl j procs
  | WRITE addrStr valStr =>
    rcases hg : getValueFromMemory tick procs mm j valStr with ⟨r, procs1, mm1⟩
    have h1 := getValueFromMemory_pres tick procs mm j valStr
    rw [hg] at h1
    rcases r with _ | v0
    · simp only [executeInstr, hg]
      exact h1
    · simp only [executeInstr, hg]
      by_cases hb : parseAddressOrValue addrStr < 0
          || parseAddressOrValue addrStr ≥ (procs1.getD j default).memory_required
      · rw [if_pos hb]
        exact presExcept_trans h1 (presExcept_set j procs1 _)
      · rw [if_neg hb]
        rcases ha : access tick procs1 mm1 (procs1.getD j default).pid
            (parseAddressOrValue addrStr).toNat true (clampUint16 v0) with ⟨r2, procs2, mm2⟩
        have h2 := access_map_erasePT tick procs1 mm1 (procs1.getD j default).pid
          (parseAddressOrValue addrStr).toNat true (clampUint16 v0)
        rw [ha] at h2
        rcases r2 with _ | _ | _ | v2 <;> simp only []
        · exact presExcept_trans h1 (presExcept_of_map h2)
        · exact presExcept_trans h1 (presExcept_of_map h2)
        · exact presExcept_trans h1 (presExcept_of_map h2)
        · exact presExcept_trans (presExcept_trans h1 (presExcept_of_map h2))
            (bumpPC_pres procs2 j)
  | READ addrStr var =>
    simp only [executeInstr]
    by_cases hb : parseAddressOrValue addrStr < 0
        || parseAddressOrValue addrStr ≥ (procs.getD j default).memory_required
    · rw [if_pos hb]
      exact presExcept_set j procs _
    · rw [if_neg hb]
      rcases ha : access tick procs mm (procs.getD j default).pid
          (parseAddressOrValue addrStr).toNat false 0 with ⟨r2, procs1, mm1⟩
      have h2 := access_map_erasePT tick procs mm (procs.getD j default).pid
        (parseAddressOrValue addrStr).toNat false 0
      rw [ha] at h2
      rcases r2 with _ | _ | _ | memVal <;> simp only []
      · exact presExcept_of_map h2
      · exact presExcept_of_map h2
      · exact presExcept_of_map h2
      · rcases hsv : setValueToMemory tick procs1 mm1 j var (clampUint16 memVal)
          with ⟨okb, procs2, mm2⟩
        have h3 := setValueToMemory_pres tick procs1 mm1 j var (clampUint16 memVal)
        rw [hsv] at h3
        cases okb <;> simp only [hsv]
        · exact presExcept_trans (presExcept_of_map h2) h3
        · exact presExcept_trans (presExcept_trans (presExcept_of_map h2) h3)
            (bumpPC_pres procs2 j)

/-! ## Scheduler phase lemmas -/

theorem findSome?_eq_some_exists {f : Nat → Option Nat} {l : List Nat} {b : Nat}
    (h : l.findSome? f = some b) : ∃ a ∈ l, f a = some b := by
  induction l with
  | nil => simp [List.findSome?] at h
  | cons hd tl ih =>
    rw [List.findSome?] at h
    rcases hf : f hd with _ | w
    · rw [hf] at h
      obtain ⟨a, ha, hfa⟩ := ih h
      exact ⟨a, List.mem_cons_of_mem _ ha, hfa⟩
    · rw [hf] at h
      exact ⟨hd, List.mem_cons_self _ _, hf.trans h⟩

theorem rrScan_ready (procs : List Process) (cur idx : Nat)
    (h : rrScan procs cur = some idx) :
    (procs.getD idx default).state = .READY ∧ idx < procs.length := by
  unfold rrScan at h
  obtain ⟨offset, hmem, hoff⟩ := findSome?_eq_some_exists h
  by_cases hready : (procs.getD ((cur + offset) % procs.length) default).state = .READY
  · rw [if_pos hready] at hoff
    have hidx : (cur + offset) % procs.length = idx := Option.some.inj hoff
    rw [← hidx]
    refine ⟨hready, Nat.mod_lt _ ?_⟩
    have := List.mem_range.mp hmem
    omega
  · rw [if_neg hready] at hoff
    cases hoff

theorem fcfsScan_ready (procs : List Process) (idx : Nat)
    (h : fcfsScan procs = some idx) :
    (procs.getD idx default).state = .READY ∧ idx < procs.length := by
  unfold fcfsScan at h
  have h1 := List.find?_some h
  have h2 := List.mem_of_find?_eq_some h
  constructor
  · simpa using h1
  · exact List.mem_range.mp h2

/-! Equation lemmas for one step of the dispatch loop. -/

theorem assignCoresLoop_busy (cfg : Config) (core : CPUCore) (rest : List CPUCore)
    (procs : List Process) (cur : Nat) (h : core.running.isSome = true) :
    assignCoresLoop cfg (core :: rest) procs cur =
      (core :: (assignCoresLoop cfg rest procs cur).1,
        (assignCoresLoop cfg rest procs cur).2) := by
  rcases hX : assignCoresLoop cfg rest procs cur with ⟨cs, ps, c⟩
  unfold assignCoresLoop
  rw [if_pos h, hX]

theorem assignCoresLoop_empty (cfg : Config) (core : CPUCore) (rest : List CPUCore)
    (procs : List Process) (cur : Nat) (h : core.running.isSome = false)
    (hlen : procs.length = 0) :
    assignCoresLoop cfg (core :: rest) procs cur =
      ({ core with running := none } :: (assignCoresLoop cfg rest procs 0).1,
        (assignCoresLoop cfg rest procs 0).2) := by
  rcases hX : assignCoresLoop cfg rest procs 0 with ⟨cs, ps, c⟩
  unfold assignCoresLoop
  rw [if_neg (by simp [h]), if_pos hlen, hX]

theorem assignCoresLoop_none (cfg : Config) (core : CPUCore) (rest : List CPUCore)
    (procs : List Process) (cur : Nat) (h : core.running.isSome = false)
    (hlen : procs.length ≠ 0) (hch : assignChosen cfg procs cur = none) :
    assignCoresLoop cfg (core :: rest) procs cur =
      (core :: (assignCoresLoop cfg rest procs (assignCur1 cfg procs cur)).1,
        (assignCoresLoop cfg rest procs (assignCur1 cfg procs cur)).2) := by
  rcases hX : assignCoresLoop cfg rest procs (assignCur1 cfg procs cur) with ⟨cs, ps, c⟩
  unfold assignCoresLoop
  rw [if_neg (by simp [h]), if_neg hlen, hch]
  simp only [hX]

theorem assignCoresLoop_some (cfg : Config) (core : CPUCore) (rest : List CPUCore)
    (procs : List Process) (cur : Nat) (idx : Nat) (h : core.running.isSome = false)
    (hlen : procs.length ≠ 0) (hch : assignChosen cfg procs cur = some idx) :
    assignCoresLoop cfg (core :: rest) procs cur =
      ({ core with
          running := some idx
          quantum_left := if cfg.scheduler = "rr" then cfg.quantum_cycles else 0 } ::
        (assignCoresLoop cfg rest
          (procs.set idx { (procs.getD idx default) with state := .RUNNING })
          (if cfg.scheduler = "rr" then (idx + 1) % procs.length
            else assignCur1 cfg procs cur)).1,
        (assignCoresLoop cfg rest
          (procs.set idx { (procs.getD idx default) with state := .RUNNING })
          (if cfg.scheduler = "rr" then (idx + 1) % procs.length
            else assignCur1 cfg procs cur)).2) := by
  rcases hX : assignCoresLoop cfg rest
      (procs.set idx { (procs.getD idx default) with state := .RUNNING })
      (if cfg.scheduler = "rr" then (idx + 1) % procs.length
        else assignCur1 cfg procs cur) with ⟨cs, ps, c⟩
  unfold assignCoresLoop
  rw [if_neg (by simp [h]), if_neg hlen, hch]
  simp only [hX]

theorem assignChosen_ready (cfg : Config) (procs : List Process) (cur : Nat) (idx : Nat)
    (h : assignChosen cfg procs cur = some idx) :
    (procs.getD idx default).state = .READY ∧ idx < procs.length := by
  unfold assignChosen at h
  by_cases hsch : cfg.scheduler = "rr"
  · rw [if_pos hsch] at h
    exact rrScan_ready procs _ idx h
  · rw [if_neg hsch] at h
    exact fcfsScan_ready procs idx h

/-- The dispatch loop never hands out a non-READY process and leaves it
untouched: if process i is not READY and no input core runs it, the same
holds of the output, and process i's record is unchanged. -/
theorem assignCoresLoop_avoid (cfg : Config) (cores : List CPUCore) (procs : List Process)
    (cur : Nat) (i : Nat)
    (hnc : ∀ c ∈ cores, c.running ≠ some i)
    (hst : (procs.getD i default).state ≠ .READY) :
    (∀ c ∈ (assignCoresLoop cfg cores procs cur).1, c.running ≠ some i)
    ∧ ((assignCoresLoop cfg cores procs cur).2.1).getD i default = procs.getD i default
    ∧ ((assignCoresLoop cfg cores procs cur).2.1).length = procs.length := by
  induction cores generalizing procs cur with
  | nil =>
    refine ⟨?_, rfl, rfl⟩
    intro c hc
    cases hc
  | cons core rest ih =>
    have hncr : ∀ c ∈ rest, c.running ≠ some i := fun c hc => hnc c (List.mem_cons_of_mem _ hc)
    have hnchd : core.running ≠ some i := hnc core (List.mem_cons_self _ _)
    rcases hrun : core.running.isSome with _ | _
    · by_cases hlen : procs.length = 0
      · rw [assignCoresLoop_empty cfg core rest procs cur hrun hlen]
        have hr := ih procs 0 hncr hst
        refine ⟨?_, hr.2.1, hr.2.2⟩
        intro c hc
        rcases List.mem_cons.mp hc with hc | hc
        · rw [hc]
          simp
        · exact hr.1 c hc
      · rcases hch : assignChosen cfg procs cur with _ | idx
        · rw [assignCoresLoop_none cfg core rest procs cur hrun hlen hch]
          have hr := ih procs (assignCur1 cfg procs cur) hncr hst
          refine ⟨?_, hr.2.1, hr.2.2⟩
          intro c hc
          rcases List.mem_cons.mp hc with hc | hc
          · rw [hc]
            exact hnchd
          · exact hr.1 c hc
        · rw [assignCoresLoop_some cfg core rest procs cur idx hrun hlen hch]
          obtain ⟨hready, hidxlt⟩ := assignChosen_ready cfg procs cur idx hch
          have hne : idx ≠ i := by
            intro hcon
            rw [hcon] at hready
            exact hst hready
          have hget : (procs.set idx
              { (procs.getD idx default) with state := .RUNNING }).getD i default
              = procs.getD i default := by
            rw [getD_set, if_neg (by intro hcon; exact hne hcon.1)]
          have hst1 : ((procs.set idx
              { (procs.getD idx default) with state := .RUNNING }).getD i default).state
              ≠ .READY := by
            rw [hget]
            exact hst
          have hr := ih (procs.set idx { (procs.getD idx default) with state := .RUNNING })
            (if cfg.scheduler = "rr" then (idx + 1) % procs.length
              else assignCur1 cfg procs cur) hncr hst1
          refine ⟨?_, by rw [hr.2.1, hget], by rw [hr.2.2, List.length_set]⟩
          intro c hc
          rcases List.mem_cons.mp hc with hc | hc
          · rw [hc]
            intro hcon
            exact hne (Option.some.inj hcon)
          · exact hr.1 c hc
    · rw [assignCoresLoop_busy cfg core rest procs cur hrun]
      have hr := ih procs cur hncr hst
      refine ⟨?_, hr.2.1, hr.2.2⟩
      intro c hc
      rcases List.mem_cons.mp hc with hc | hc
      · rw [hc]
        exact hnchd
      · exact hr.1 c hc

theorem reapCores_avoid (procs : List Process) (cores : List CPUCore) (i : Nat)
    (hnc : ∀ c ∈ cores, c.running ≠ some i) :
    ∀ c ∈ reapCores procs cores, c.running ≠ some i := by
  intro c hc
  rw [reapCores, List.mem_map] at hc
  obtain ⟨c0, hc0, hceq⟩ := hc
  have h0 := hnc c0 hc0
  subst hceq
  rcases hr : c0.running with _ | j <;> simp only [hr]
  · rw [← hr]
    exact h0
  · by_cases hf : (procs.getD j default).state = .FINISHED
    · rw [if_pos hf]
      simp
    · rw [if_neg hf]
      exact h0

theorem getD_map_self {f : Process → Process} (hfd : f default = default)
    (procs : List Process) (i : Nat) :
    (procs.map f).getD i default = f (procs.getD i default) := by
  induction procs generalizing i with
  | nil => simp [hfd]
  | cons hd tl ih =>
    cases i with
    | zero => simp
    | succ i => simpa using ih i

theorem wakeSleepers_getD (procs : List Process) (i : Nat)
    (h : (procs.getD i default).state ≠ .SLEEPING) :
    (wakeSleepers procs).getD i default = procs.getD i default := by
  have hcond : ((procs.getD i default).state = PState.SLEEPING
      && (procs.getD i default).sleep_counter > 0) ≠ true := by
    intro hcon
    rw [Bool.and_eq_true] at hcon
    exact h (by simpa using hcon.1)
  unfold wakeSleepers
  rw [getD_map_self rfl procs i, if_neg hcond]

theorem wakeSleepers_length (procs : List Process) :
    (wakeSleepers procs).length = procs.length := List.length_map _ _

/-! ## Execute-phase preservation -/

/-- A core that does not run process i cannot start running it during the
execute phase, and process i's scheduler-visible fields survive. -/
theorem execCore_avoid (cfg : Config) (tick : Nat) (core : CPUCore)
    (procs : List Process) (mm : MM) (cur : Nat) (rs : Bool) (i : Nat)
    (hnc : core.running ≠ some i) :
    (execCore cfg tick core procs mm cur rs).1.running ≠ some i
    ∧ ((execCore cfg tick core procs mm cur rs).2.1).length = procs.length
    ∧ erasePT (((execCore cfg tick core procs mm cur rs).2.1).getD i default)
      = erasePT (procs.getD i default) := by
  rcases hr : core.running with _ | j
  · simp [execCore, hr]
  · have hji : j ≠ i := by
      intro hcon
      rw [hr, hcon] at hnc
      exact hnc rfl
    have hji' : i ≠ j := fun hcon => hji hcon.symm
    by_cases hst : (procs.getD j default).state = .RUNNING
    · by_cases hpc : (procs.getD j default).pc < (procs.getD j default).instructions.length
      · rcases hexec : executeInstr tick procs mm j
            ((procs.getD j default).instructions.getD (procs.getD j default).pc default)
          with ⟨procs1, mm1⟩
        have hpres := executeInstr_pres tick procs mm j
          ((procs.getD j default).instructions.getD (procs.getD j default).pc default)
        rw [hexec] at hpres
        have hset : ∀ v : Process,
            (procs1.set j v).length = procs.length
            ∧ erasePT ((procs1.set j v).getD i default) = erasePT (procs.getD i default) := by
          intro v
          have h2 := presExcept_trans hpres (presExcept_set j procs1 v)
          exact ⟨h2.1, h2.2 i hji'⟩
        simp only [execCore, hr, if_pos hst, if_pos hpc, hexec]
        repeat' split
        all_goals
          refine ⟨?_, ?_, ?_⟩ <;>
            first
              | exact hji
              | exact hnc
              | exact hpres.1
              | exact hpres.2 i hji'
              | exact (hset _).1
              | exact (hset _).2
              | simp [hr, hji]
              | (split <;> simp [hr, hji])
      · simp only [execCore, hr, if_pos hst, if_neg hpc]
        have h2 := presExcept_set j procs
          { procs.getD j default with state := PState.FINISHED }
        refine ⟨?_, ?_, ?_⟩ <;> first | exact h2.1 | exact h2.2 i hji' | simp
    · simp only [execCore, hr, if_neg hst]
      refine ⟨?_, ?_, ?_⟩ <;> simp [hr, hji]

theorem execPhase_cons (cfg : Config) (tick : Nat) (core : CPUCore) (rest : List CPUCore)
    (procs : List Process) (mm : MM) (cur : Nat) (rs : Bool) :
    execPhase cfg tick (core :: rest) procs mm cur rs =
      ((execCore cfg tick core procs mm cur rs).1 ::
        (execPhase cfg tick rest (execCore cfg tick core procs mm cur rs).2.1
          (execCore cfg tick core procs mm cur rs).2.2.1
          (execCore cfg tick core procs mm cur rs).2.2.2.1
          (execCore cfg tick core procs mm cur rs).2.2.2.2).1,
        (execPhase cfg tick rest (execCore cfg tick core procs mm cur rs).2.1
          (execCore cfg tick core procs mm cur rs).2.2.1
          (execCore cfg tick core procs mm cur rs).2.2.2.1
          (execCore cfg tick core procs mm cur rs).2.2.2.2).2) := by
  rcases hc : execCore cfg tick core procs mm cur rs with ⟨c1, procs1, mm1, cur1, rs1⟩
  rcases hp : execPhase cfg tick rest procs1 mm1 cur1 rs1 with ⟨cs, st⟩
  simp only [execPhase, hc, hp]

theorem execPhase_avoid (cfg : Config) (tick : Nat) (cores : List CPUCore)
    (procs : List Process) (mm : MM) (cur : Nat) (rs : Bool) (i : Nat)
    (hnc : ∀ c ∈ cores, c.running ≠ some i) :
    (∀ c ∈ (execPhase cfg tick cores procs mm cur rs).1, c.running ≠ some i)
    ∧ ((execPhase cfg tick cores procs mm cur rs).2.1).length = procs.length
    ∧ erasePT (((execPhase cfg tick cores procs mm cur rs).2.1).getD i default)
      = erasePT (procs.getD i default) := by
  induction cores generalizing procs mm cur rs with
  | nil =>
    refine ⟨?_, rfl, rfl⟩
    intro c hc
    cases hc
  | cons core rest ih =>
    have hnchd := hnc core (List.mem_cons_self _ _)
    have hncr : ∀ c ∈ rest, c.running ≠ some i :=
      fun c hc => hnc c (List.mem_cons_of_mem _ hc)
    obtain ⟨h1, h2, h3⟩ := execCore_avoid cfg tick core procs mm cur rs i hnchd
    rw [execPhase_cons]
    obtain ⟨g1, g2, g3⟩ := ih (execCore cfg tick core procs mm cur rs).2.1
      (execCore cfg tick core procs mm cur rs).2.2.1
      (execCore cfg tick core procs mm cur rs).2.2.2.1
      (execCore cfg tick core procs mm cur rs).2.2.2.2 hncr
    refine ⟨?_, g2.trans h2, g3.trans h3⟩
    intro c hc
    rcases List.mem_cons.mp hc with hc | hc
    · rw [hc]
      exact h1
    · exact g1 c hc

/-- One scheduler tick preserves a terminal MEMORY_VIOLATED process: its
scheduler-visible fields are untouched and no core acquires it. -/
theorem schedulerTick_preserves_MV (s : Sys) (spawn : Option Process) (i : Nat)
    (hi : i < s.procs.length)
    (hmv : (s.procs.getD i default).state = .MEMORY_VIOLATED)
    (hnc : ∀ c ∈ s.cores, c.running ≠ some i) :
    i < (schedulerTick s spawn).procs.length
    ∧ erasePT ((schedulerTick s spawn).procs.getD i default)
      = erasePT (s.procs.getD i default)
    ∧ (∀ c ∈ (schedulerTick s spawn).cores, c.running ≠ some i) := by
  unfold schedulerTick
  set procs0 := wakeSleepers s.procs with hprocs0
  have hw : procs0.getD i default = s.procs.getD i default :=
    wakeSleepers_getD s.procs i (by rw [hmv]; intro hcon; cases hcon)
  have hwlen : procs0.length = s.procs.length := wakeSleepers_length s.procs
  set cores0 := reapCores procs0 s.cores with hcores0
  have hr : ∀ c ∈ cores0, c.running ≠ some i := reapCores_avoid procs0 s.cores i hnc
  have hst0 : (procs0.getD i default).state ≠ .READY := by
    rw [hw, hmv]
    intro hcon
    cases hcon
  rcases ha1 : assignReadyToIdleCores s.config cores0 procs0 s.rrCursor
    with ⟨cores1, procs1, cur1⟩
  have ha1' := assignCoresLoop_avoid s.config cores0 procs0
    (if procs0.length = 0 then 0 else s.rrCursor) i hr hst0
  rw [show assignCoresLoop s.config cores0 procs0
      (if procs0.length = 0 then 0 else s.rrCursor)
      = assignReadyToIdleCores s.config cores0 procs0 s.rrCursor from rfl, ha1] at ha1'
  obtain ⟨hb1, hb2, hb3⟩ := ha1'
  rcases he : execPhase s.config (s.global_tick + 1) cores1 procs1 s.mm cur1 false
    with ⟨cores2, procs2, mm2, cur2, resched⟩
  have he' := execPhase_avoid s.config (s.global_tick + 1) cores1 procs1 s.mm cur1 false i hb1
  rw [he] at he'
  obtain ⟨hc1, hc2, hc3⟩ := he'
  have hget2 : erasePT (procs2.getD i default) = erasePT (s.procs.getD i default) := by
    rw [hc3, hb2, hw]
  have hlen2 : procs2.length = s.procs.length := by
    rw [hc2, hb3, hwlen]
  have hst2 : (procs2.getD i default).state ≠ .READY := by
    have := (erasePT_fields hget2).2.2.1
    rw [this, hmv]
    intro hcon
    cases hcon
  rcases ha2 : assignReadyToIdleCores s.config cores2 procs2 cur2
    with ⟨cores3, procs3, cur3⟩
  have ha2' := assignCoresLoop_avoid s.config cores2 procs2
    (if procs2.length = 0 then 0 else cur2) i hc1 hst2
  rw [show assignCoresLoop s.config cores2 procs2 (if procs2.length = 0 then 0 else cur2)
      = assignReadyToIdleCores s.config cores2 procs2 cur2 from rfl, ha2] at ha2'
  obtain ⟨hd1, hd2, hd3⟩ := ha2'
  have hd2' : procs3.getD i default = procs2.getD i default := hd2
  have hd3' : procs3.length = procs2.length := hd3
  by_cases hres : resched = true
  · subst hres
    simp only [ha1, he, if_true, ha2]
    rcases spawn with _ | newP
    · refine ⟨?_, ?_, hd1⟩
      · show i < procs3.length
        omega
      · show erasePT (procs3.getD i default) = _
        rw [hd2']
        exact hget2
    · refine ⟨?_, ?_, hd1⟩
      · show i < (procs3 ++ [newP]).length
        rw [List.length_append]
        simp only [List.length_cons, List.length_nil]
        omega
      · show erasePT ((procs3 ++ [newP]).getD i default) = _
        rw [getD_append_left _ _ _ _ (by omega), hd2']
        exact hget2
  · have hres' : resched = false := by
      rcases resched with _ | _
      · rfl
      · exact absurd rfl hres
    subst hres'
    simp only [ha1, he, Bool.false_eq_true, if_false]
    rcases spawn with _ | newP
    · refine ⟨?_, ?_, hc1⟩
      · show i < procs2.length
        omega
      · exact hget2
    · refine ⟨?_, ?_, hc1⟩
      · show i < (procs2 ++ [newP]).length
        rw [List.length_append]
        simp only [List.length_cons, List.length_nil]
        omega
      · show erasePT ((procs2 ++ [newP]).getD i default) = _
        rw [getD_append_left _ _ _ _ (by omega)]
        exact hget2

theorem schedulerRun_preserves_MV (s : Sys) (spawns : List (Option Process)) (i : Nat)
    (hi : i < s.procs.length)
    (hmv : (s.procs.getD i default).state = .MEMORY_VIOLATED)
    (hnc : ∀ c ∈ s.cores, c.running ≠ some i) :
    i < (schedulerRun s spawns).procs.length
    ∧ erasePT ((schedulerRun s spawns).procs.getD i default)
      = erasePT (s.procs.getD i default)
    ∧ ∀ c ∈ (schedulerRun s spawns).cores, c.running ≠ some i := by
  induction spawns generalizing s with
  | nil => exact ⟨hi, rfl, hnc⟩
  | cons sp rest ih =>
    obtain ⟨h1, h2, h3⟩ := schedulerTick_preserves_MV s sp i hi hmv hnc
    have hmv2 : ((schedulerTick s sp).procs.getD i default).state = .MEMORY_VIOLATED := by
      rw [(erasePT_fields h2).2.2.1, hmv]
    obtain ⟨g1, g2, g3⟩ := ih (schedulerTick s sp) h1 hmv2 h3
    exact ⟨g1, g2.trans h2, g3⟩

/-! ## C5: WRITE past the segment boundary is a terminal memory violation -/

/-- C5.  If the RUNNING process on a core executes a WRITE whose address
operand is at or past its memory_required (and the value operand
resolves), then after the execute step the process state is
MEMORY_VIOLATED, its pc is unchanged, and the core has been released;
moreover from any scheduler state in which the process is
MEMORY_VIOLATED and held by no core, any number of further ticks leaves
its state and pc unchanged and never assigns it a core, so none of its
instructions ever executes again. -/
theorem C5_write_violation (cfg : Config) (tick : Nat) (core : CPUCore)
    (procs : List Process) (mm : MM) (cur : Nat) (rs : Bool) (i : Nat)
    (addrStr valStr : String) (v0 : Int) (procs1 : List Process) (mm1 : MM)
    (hi : i < procs.length)
    (hrun : core.running = some i)
    (hst : (procs.getD i default).state = .RUNNING)
    (hpc0 : (procs.getD i default).pc < (procs.getD i default).instructions.length)
    (hinstr : (procs.getD i default).instructions.getD (procs.getD i default).pc default
      = .WRITE addrStr valStr)
    (hval : getValueFromMemory tick procs mm i valStr = (some v0, procs1, mm1))
    (haddr : parseAddressOrValue addrStr ≥ (procs1.getD i default).memory_required) :
    (execCore cfg tick core procs mm cur rs).1.running = none
    ∧ (((execCore cfg tick core procs mm cur rs).2.1).getD i default).state
        = .MEMORY_VIOLATED
    ∧ (((execCore cfg tick core procs mm cur rs).2.1).getD i default).pc
        = (procs.getD i default).pc
    ∧ ∀ (s : Sys) (spawns : List (Option Process)),
        i < s.procs.length →
        (s.procs.getD i default).state = .MEMORY_VIOLATED →
        (∀ c ∈ s.cores, c.running ≠ some i) →
        ((schedulerRun s spawns).procs.getD i default).state = .MEMORY_VIOLATED
        ∧ ((schedulerRun s spawns).procs.getD i default).pc = (s.procs.getD i default).pc
        ∧ ∀ c ∈ (schedulerRun s spawns).cores, c.running ≠ some i := by
  have hmap := getValueFromMemory_map_erasePT tick procs mm i valStr
  rw [hval] at hmap
  have hlen1 : procs1.length = procs.length := map_erasePT_length hmap
  have hera : erasePT (procs1.getD i default) = erasePT (procs.getD i default) :=
    getD_map_erasePT hmap i
  have hcond : (decide (parseAddressOrValue addrStr < 0)
      || decide (parseAddressOrValue addrStr ≥ (procs1.getD i default).memory_required))
      = true := by
    rw [Bool.or_eq_true]
    right
    exact decide_eq_true haddr
  have hexec : executeInstr tick procs mm i (.WRITE addrStr valStr)
      = (procs1.set i { procs1.getD i default with state := .MEMORY_VIOLATED }, mm1) := by
    simp only [executeInstr, hval]
    rw [if_pos hcond]
  have hrest : ∀ (s : Sys) (spawns : List (Option Process)),
      i < s.procs.length →
      (s.procs.getD i default).state = .MEMORY_VIOLATED →
      (∀ c ∈ s.cores, c.running ≠ some i) →
      ((schedulerRun s spawns).procs.getD i default).state = .MEMORY_VIOLATED
      ∧ ((schedulerRun s spawns).procs.getD i default).pc = (s.procs.getD i default).pc
      ∧ ∀ c ∈ (schedulerRun s spawns).cores, c.running ≠ some i := by
    intro s spawns h1 h2 h3
    obtain ⟨g1, g2, g3⟩ := schedulerRun_preserves_MV s spawns i h1 h2 h3
    exact ⟨((erasePT_fields g2).2.2.1).trans h2, (erasePT_fields g2).2.2.2.2.1, g3⟩
  have hcond2 : i = i ∧ i < procs1.length := ⟨rfl, by omega⟩
  have hcond3 : True ∧ i < procs1.length := ⟨trivial, by omega⟩
  have hpc1 : (procs1.getD i default).pc = (procs.getD i default).pc :=
    (erasePT_fields hera).2.2.2.2.1
  refine ⟨?_, ?_, ?_, hrest⟩
  · simp only [execCore, hrun, if_pos hst, if_pos hpc0, hinstr, hexec, getD_set, if_pos hcond2, if_pos hcond3]
    rw [if_neg (show PState.MEMORY_VIOLATED ≠ PState.FINISHED by decide), if_pos True.intro]
  · simp only [execCore, hrun, if_pos hst, if_pos hpc0, hinstr, hexec, getD_set, if_pos hcond2, if_pos hcond3]
    rw [if_neg (show PState.MEMORY_VIOLATED ≠ PState.FINISHED by decide), if_pos True.intro,
      getD_set, if_pos hcond2]
  · simp only [execCore, hrun, if_pos hst, if_pos hpc0, hinstr, hexec, getD_set, if_pos hcond2, if_pos hcond3]
    rw [if_neg (show PState.MEMORY_VIOLATED ≠ PState.FINISHED by decide), if_pos True.intro,
      getD_set, if_pos hcond2]
    exact hpc1

def C5procW : Process :=
  { name := "p", pid := 1, state := .RUNNING, instructions := [.WRITE "0x20" "5"],
    pc := 0, logs := [], sleep_counter := 0, memory_required := 16,
    symbol_table := [], symbol_cursor := 64, page_table := [] }

theorem C5_write_violation_witness :
    (execCore { scheduler := "fcfs" } 1 { id := 0, running := some 0, quantum_left := 0 }
        [C5procW] (MM.init 1 16) 0 false).1.running = none
    ∧ (((execCore { scheduler := "fcfs" } 1 { id := 0, running := some 0, quantum_left := 0 }
        [C5procW] (MM.init 1 16) 0 false).2.1).getD 0 default).state = .MEMORY_VIOLATED
    ∧ (((execCore { scheduler := "fcfs" } 1 { id := 0, running := some 0, quantum_left := 0 }
        [C5procW] (MM.init 1 16) 0 false).2.1).getD 0 default).pc
      = ([C5procW].getD 0 default).pc := by
  have h := C5_write_violation { scheduler := "fcfs" } 1
    { id := 0, running := some 0, quantum_left := 0 } [C5procW] (MM.init 1 16) 0 false 0
    "0x20" "5" 5 [C5procW] (MM.init 1 16) (by decide) rfl rfl (by decide) rfl rfl (by decide)
  exact ⟨h.1, h.2.1, h.2.2.1⟩

/-! ## C6: round-robin quantum expiry -/

/-- C6.  Under the round-robin policy, after a core runs one instruction
of its RUNNING process and its decremented quantum has reached zero or
less: if another process is READY the running process is set back to
READY, the core is released with a fresh quantum, and the RR cursor is
set just past the preempted process's index; if no other process is
READY the quantum is refreshed and the same process keeps the core with
the process table untouched. -/
theorem C6_rr_quantum (cfg : Config) (tick : Nat) (core : CPUCore)
    (procs : List Process) (mm : MM) (cur : Nat) (rs : Bool) (i : Nat)
    (procs1 : List Process) (mm1 : MM)
    (hsch : cfg.scheduler = "rr")
    (hrun : core.running = some i)
    (hst : (procs.getD i default).state = .RUNNING)
    (hpc0 : (procs.getD i default).pc < (procs.getD i default).instructions.length)
    (hexec : executeInstr tick procs mm i
        ((procs.getD i default).instructions.getD (procs.getD i default).pc default)
      = (procs1, mm1))
    (hp1run : (procs1.getD i default).state = .RUNNING)
    (hp1pc : (procs1.getD i default).pc < (procs1.getD i default).instructions.length)
    (hq : core.quantum_left - 1 ≤ 0)
    (hi1 : i < procs1.length) :
    ((∃ j, j < procs1.length ∧ j ≠ i ∧ (procs1.getD j default).state = .READY) →
      (execCore cfg tick core procs mm cur rs).1.running = none
      ∧ (execCore cfg tick core procs mm cur rs).1.quantum_left = cfg.quantum_cycles
      ∧ (((execCore cfg tick core procs mm cur rs).2.1).getD i default).state = .READY
      ∧ (execCore cfg tick core procs mm cur rs).2.2.2.1 = (i + 1) % procs1.length)
    ∧ ((∀ j, j < procs1.length → j ≠ i → (procs1.getD j default).state ≠ .READY) →
      (execCore cfg tick core procs mm cur rs).1.running = some i
      ∧ (execCore cfg tick core procs mm cur rs).1.quantum_left = cfg.quantum_cycles
      ∧ (execCore cfg tick core procs mm cur rs).2.1 = procs1) := by
  have hne1 : ¬((procs1.getD i default).state = .FINISHED) := by
    rw [hp1run]
    intro hcon
    cases hcon
  have hne2 : ¬((procs1.getD i default).state = .MEMORY_VIOLATED) := by
    rw [hp1run]
    intro hcon
    cases hcon
  have hne3 : ¬((procs1.getD i default).state = .SLEEPING) := by
    rw [hp1run]
    intro hcon
    cases hcon
  have hpcge : ¬((procs1.getD i default).pc ≥ (procs1.getD i default).instructions.length) :=
    by omega
  have hqrec : ({ id := core.id, running := some i, quantum_left := core.quantum_left - 1 } : CPUCore).quantum_left ≤ 0 := hq
  have hqc : (decide (cfg.scheduler = "rr") && decide (({ id := core.id, running := some i, quantum_left := core.quantum_left - 1 } : CPUCore).quantum_left ≤ 0)) = true := by
    rw [decide_eq_true hsch, decide_eq_true hqrec]
    rfl
  constructor
  · intro hex
    obtain ⟨j, hjlen, hjne, hjready⟩ := hex
    have hany : ((List.range procs1.length).any fun j =>
        decide ((procs1.getD j default).state = PState.READY) && decide (j ≠ i)) = true := by
      rw [List.any_eq_true]
      refine ⟨j, List.mem_range.mpr hjlen, ?_⟩
      rw [decide_eq_true hjready, decide_eq_true hjne]
      rfl
    have hlpos : procs1.length > 0 := by omega
    simp only [execCore, hrun, if_pos hst, if_pos hpc0, hexec, if_pos hsch, if_neg hne1,
      if_neg hne2, if_neg hpcge, if_neg hne3, if_pos hqc, hany, if_true, if_pos hlpos]
    refine ⟨by trivial, by trivial, ?_, by trivial⟩
    rw [getD_set, if_pos ⟨rfl, hi1⟩]
  · intro hnone
    have hany : ((List.range procs1.length).any fun j =>
        decide ((procs1.getD j default).state = PState.READY) && decide (j ≠ i)) = false := by
      rw [List.any_eq_false]
      intro j hj
      rw [List.mem_range] at hj
      intro hcon
      rw [Bool.and_eq_true, decide_eq_true_eq, decide_eq_true_eq] at hcon
      exact hnone j hj hcon.2 hcon.1
    simp only [execCore, hrun, if_pos hst, if_pos hpc0, hexec, if_pos hsch, if_neg hne1,
      if_neg hne2, if_neg hpcge, if_neg hne3, if_pos hqc, hany, Bool.false_eq_true, if_false]
    refine ⟨?_, ?_, ?_⟩ <;> trivial

def C6p0W : Process :=
  { name := "a", pid := 1, state := .RUNNING,
    instructions := [.PRINT "\'x\'", .PRINT "\'y\'"], pc := 0, logs := [],
    sleep_counter := 0, memory_required := 16, symbol_table := [], symbol_cursor := 64,
    page_table := [] }

def C6p1W : Process :=
  { name := "b", pid := 2, state := .READY, instructions := [.PRINT "\'z\'"], pc := 0,
    logs := [], sleep_counter := 0, memory_required := 16, symbol_table := [],
    symbol_cursor := 64, page_table := [] }

def C6procs1W : List Process :=
  [{ C6p0W with logs := ["x"], pc := 1 }, C6p1W]

theorem C6_rr_quantum_witness :
    (execCore { scheduler := "rr", quantum_cycles := 3 } 1
        { id := 0, running := some 0, quantum_left := 1 } [C6p0W, C6p1W]
        (MM.init 1 16) 0 false).1.running = none
    ∧ (execCore { scheduler := "rr", quantum_cycles := 3 } 1
        { id := 0, running := some 0, quantum_left := 1 } [C6p0W, C6p1W]
        (MM.init 1 16) 0 false).1.quantum_left = 3
    ∧ (((execCore { scheduler := "rr", quantum_cycles := 3 } 1
        { id := 0, running := some 0, quantum_left := 1 } [C6p0W, C6p1W]
        (MM.init 1 16) 0 false).2.1).getD 0 default).state = .READY
    ∧ (execCore { scheduler := "rr", quantum_cycles := 3 } 1
        { id := 0, running := some 0, quantum_left := 1 } [C6p0W, C6p1W]
        (MM.init 1 16) 0 false).2.2.2.1 = 1 := by
  have h := C6_rr_quantum { scheduler := "rr", quantum_cycles := 3 } 1
    { id := 0, running := some 0, quantum_left := 1 } [C6p0W, C6p1W] (MM.init 1 16) 0 false 0
    C6procs1W (MM.init 1 16) rfl rfl rfl (by decide) (by decide) (by decide) (by decide)
    (by decide) (by decide)
  have h2 := h.1 ⟨1, by decide, by decide, by decide⟩
  exact ⟨h2.1, h2.2.1, h2.2.2.1, h2.2.2.2⟩

/-! ## C7: sleep counter / SLEEPING state (SLEEP 0 never wakes) -/

def C7procW : Process :=
  { name := "s", pid := 1, state := .READY,
    instructions := [.SLEEP 0, .PRINT "\'a\'"], pc := 0, logs := [],
    sleep_counter := 0, memory_required := 16, symbol_table := [], symbol_cursor := 64,
    page_table := [] }

def C7cfgW : Config := { num_cpu := 1, scheduler := "fcfs", quantum_cycles := 0, batch_process_freq := 0 }

def C7sys0 : Sys :=
  { config := C7cfgW,
    procs := [C7procW], cores := [{ id := 0, running := none, quantum_left := 0 }],
    rrCursor := 0, global_tick := 0, mm := MM.init 1 16 }

/-- C7.  Counterexample to the claimed invariant: a process that executes
SLEEP(0) (not as its last instruction) is left SLEEPING with
sleep_counter = 0 after the tick that runs the instruction
(SleepInstruction::execute sets the state unconditionally), and because
the wake-up loop only decrements counters that are strictly positive it
is still SLEEPING six ticks later, with its pc stuck after the SLEEP --
so SLEEPING does not imply sleep_counter > 0. -/
theorem C7_sleep_zero_stuck :
    (((schedulerTick C7sys0 none).procs.getD 0 default).state = PState.SLEEPING
      ∧ ((schedulerTick C7sys0 none).procs.getD 0 default).sleep_counter = 0)
    ∧ ((schedulerRun C7sys0 (List.replicate 6 none)).procs.getD 0 default).state
        = PState.SLEEPING
    ∧ ((schedulerRun C7sys0 (List.replicate 6 none)).procs.getD 0 default).sleep_counter = 0
    ∧ ((schedulerRun C7sys0 (List.replicate 6 none)).procs.getD 0 default).pc = 1 := by
  decide

/-! ## Process-table scan lemmas (for the memory-manager invariant) -/

theorem findProcPid_mem {procs : List Process} {pid : Int} {p : Process}
    (h : findProcPid procs pid = some p) : p ∈ procs ∧ p.pid = pid := by
  induction procs with
  | nil => cases h
  | cons q rest ih =>
    by_cases hq : q.pid = pid
    · simp only [findProcPid, if_pos hq] at h
      injection h with h
      subst h
      exact ⟨List.mem_cons_self _ _, hq⟩
    · simp only [findProcPid, if_neg hq] at h
      obtain ⟨h1, h2⟩ := ih h
      exact ⟨List.mem_cons_of_mem _ h1, h2⟩

theorem findProcPid_of_mem {procs : List Process} {p : Process}
    (hnd : (procs.map Process.pid).Nodup) (hmem : p ∈ procs) :
    findProcPid procs p.pid = some p := by
  induction procs with
  | nil => cases hmem
  | cons q rest ih =>
    rw [List.map_cons, List.nodup_cons] at hnd
    rcases List.mem_cons.mp hmem with h | h
    · subst h
      simp [findProcPid]
    · have hne : q.pid ≠ p.pid := by
        intro hcon
        exact hnd.1 (hcon ▸ List.mem_map_of_mem Process.pid h)
      simp only [findProcPid, if_neg hne]
      exact ih hnd.2 h

theorem findProcPid_append {procs : List Process} {pid : Int} {p : Process}
    (l : List Process) (h : findProcPid procs pid = some p) :
    findProcPid (procs ++ l) pid = some p := by
  induction procs with
  | nil => cases h
  | cons q rest ih =>
    by_cases hq : q.pid = pid
    · simp only [findProcPid, if_pos hq] at h ⊢
      exact h
    · simp only [findProcPid, if_neg hq] at h ⊢
      exact ih h

theorem updatePid_map_pid (procs : List Process) (pid : Int) (f : Process → Process)
    (hf : ∀ q, (f q).pid = q.pid) :
    (updatePid procs pid f).map Process.pid = procs.map Process.pid := by
  induction procs with
  | nil => rfl
  | cons q rest ih =>
    by_cases hq : q.pid = pid
    · simp only [updatePid, if_pos hq, List.map_cons, hf]
    · simp only [updatePid, if_neg hq, List.map_cons, ih]

theorem findProcPid_updatePid_self {procs : List Process} {pid : Int} {p : Process}
    (f : Process → Process) (hf : ∀ q, (f q).pid = q.pid)
    (h : findProcPid procs pid = some p) :
    findProcPid (updatePid procs pid f) pid = some (f p) := by
  induction procs with
  | nil => cases h
  | cons q rest ih =>
    by_cases hq : q.pid = pid
    · simp only [findProcPid, if_pos hq] at h
      injection h with h
      subst h
      simp only [updatePid, if_pos hq, findProcPid, hf, if_pos hq]
    · simp only [findProcPid, if_neg hq] at h
      simp only [updatePid, if_neg hq, findProcPid, if_neg hq]
      exact ih h

theorem updatePid_of_none {procs : List Process} {pid : Int} (f : Process → Process)
    (h : findProcPid procs pid = none) : updatePid procs pid f = procs := by
  induction procs with
  | nil => rfl
  | cons q rest ih =>
    by_cases hq : q.pid = pid
    · simp only [findProcPid, if_pos hq] at h
      cases h
    · simp only [findProcPid, if_neg hq] at h
      simp only [updatePid, if_neg hq, ih h]

theorem findProcPid_updatePid_ne {procs : List Process} {pid pid2 : Int}
    (f : Process → Process) (hf : ∀ q, (f q).pid = q.pid) (hne : pid2 ≠ pid) :
    findProcPid (updatePid procs pid f) pid2 = findProcPid procs pid2 := by
  induction procs with
  | nil => rfl
  | cons q rest ih =>
    by_cases hq : q.pid = pid
    · have hq2 : q.pid ≠ pid2 := by
        rw [hq]
        exact fun hcon => hne hcon.symm
      simp only [updatePid, if_pos hq, findProcPid, hf, if_neg hq2]
    · by_cases hq2 : q.pid = pid2
      · simp only [updatePid, if_neg hq, findProcPid, if_pos hq2]
      · simp only [updatePid, if_neg hq, findProcPid, if_neg hq2]
        exact ih

theorem mem_updatePid {procs : List Process} {pid : Int} {f : Process → Process}
    {q' : Process} (h : q' ∈ updatePid procs pid f) :
    q' ∈ procs ∨ ∃ q, q ∈ procs ∧ q.pid = pid ∧ q' = f q := by
  induction procs with
  | nil => cases h
  | cons q rest ih =>
    by_cases hq : q.pid = pid
    · simp only [updatePid, if_pos hq] at h
      rcases List.mem_cons.mp h with h | h
      · exact Or.inr ⟨q, List.mem_cons_self _ _, hq, h⟩
      · exact Or.inl (List.mem_cons_of_mem _ h)
    · simp only [updatePid, if_neg hq] at h
      rcases List.mem_cons.mp h with h | h
      · exact Or.inl (h ▸ List.mem_cons_self _ _)
      · rcases ih h with h1 | ⟨r, hr1, hr2, hr3⟩
        · exact Or.inl (List.mem_cons_of_mem _ h1)
        · exact Or.inr ⟨r, List.mem_cons_of_mem _ hr1, hr2, hr3⟩

/-! ## RAM / frame arithmetic lemmas -/

theorem frame_cell_inj {fs f1 f2 o1 o2 : Nat} (hfs : 0 < fs) (h1 : o1 < fs) (h2 : o2 < fs)
    (he : f1 * fs + o1 = f2 * fs + o2) : f1 = f2 ∧ o1 = o2 := by
  have hd1 : (f1 * fs + o1) / fs = f1 := by
    rw [Nat.mul_comm f1 fs, Nat.mul_add_div hfs, Nat.div_eq_of_lt h1, Nat.add_zero]
  have hd2 : (f2 * fs + o2) / fs = f2 := by
    rw [Nat.mul_comm f2 fs, Nat.mul_add_div hfs, Nat.div_eq_of_lt h2, Nat.add_zero]
  have hf : f1 = f2 := by rw [← hd1, ← hd2, he]
  refine ⟨hf, ?_⟩
  subst hf
  omega

theorem setRange_length (ram : List Int) (start : Nat) (data : List Int) (n : Nat) :
    ((List.range n).foldl (fun r i => r.set (start + i) (data.getD i 0)) ram).length
      = ram.length := by
  induction n generalizing ram with
  | zero => rfl
  | succ n ih =>
    rw [List.range_succ, List.foldl_append]
    simp only [List.foldl_cons, List.foldl_nil]
    rw [List.length_set, ih]

theorem setRange_getD (ram : List Int) (start : Nat) (data : List Int) (n : Nat) (j : Nat) :
    ((List.range n).foldl (fun r i => r.set (start + i) (data.getD i 0)) ram).getD j 0
    = if start ≤ j ∧ j < start + n ∧ j < ram.length then data.getD (j - start) 0
      else ram.getD j 0 := by
  induction n generalizing ram with
  | zero =>
    rw [if_neg]
    · rfl
    · intro hcon
      omega
  | succ n ih =>
    rw [List.range_succ, List.foldl_append]
    simp only [List.foldl_cons, List.foldl_nil]
    rw [getD_set, setRange_length, ih]
    by_cases hj : start + n = j
    · subst hj
      by_cases hlen : start + n < ram.length
      · rw [if_pos ⟨rfl, hlen⟩, if_pos (by omega)]
        congr 1
        omega
      · rw [if_neg (by intro hcon; exact hlen hcon.2), if_neg (by omega),
          if_neg (by omega)]
    · rw [if_neg (by intro hcon; exact hj hcon.1)]
      by_cases hin : start ≤ j ∧ j < start + n ∧ j < ram.length
      · rw [if_pos hin, if_pos (by omega)]
      · rw [if_neg hin, if_neg (by omega)]

theorem loadFrame_length (ram : List Int) (start fs : Nat) (data : List Int) :
    (loadFrame ram start fs data).length = ram.length := setRange_length ram start data fs

theorem loadFrame_getD (ram : List Int) (start fs : Nat) (data : List Int) (j : Nat) :
    (loadFrame ram start fs data).getD j 0
    = if start ≤ j ∧ j < start + fs ∧ j < ram.length then data.getD (j - start) 0
      else ram.getD j 0 := setRange_getD ram start data fs j

theorem ramSlice_length (ram : List Int) (s fs : Nat) : (ramSlice ram s fs).length = fs := by
  simp [ramSlice]

theorem ramSlice_getD (ram : List Int) (s fs k : Nat) (h : k < fs) :
    (ramSlice ram s fs).getD k 0 = ramGet ram (s + k) := by
  rw [ramSlice, List.getD_eq_getElem?_getD]
  rw [List.getElem?_map]
  rw [List.getElem?_range h]
  rfl

theorem ramSlice_congr {ram1 ram2 : List Int} (s fs : Nat)
    (h : ∀ k, k < fs → ramGet ram1 (s + k) = ramGet ram2 (s + k)) :
    ramSlice ram1 s fs = ramSlice ram2 s fs := by
  unfold ramSlice
  refine List.map_congr_left ?_
  intro k hk
  exact h k (List.mem_range.mp hk)

/-! ## The memory-manager consistency invariant (C1 / C2) -/

/-- The state invariant of the memory manager: well-formed sizes, unique
pids, per-table key uniqueness, backing-store entries of frame size, and
the frame-table / page-table correspondence (occupied frames are backed
by the owning valid page-table entry, valid entries point to matching
occupied frames, resident clean pages agree with their backing-store
copy). -/
structure Inv (procs : List Process) (mm : MM) : Prop where
  hfs : 0 < mm.frame_size
  hft : mm.frame_table.length = mm.total_frames
  hram : mm.ram.length = mm.total_frames * mm.frame_size
  hpid : (procs.map Process.pid).Nodup
  hptnd : ∀ p ∈ procs, (akeys p.page_table).Nodup
  hbsnd : (akeys mm.backing_store).Nodup
  hbs : ∀ e ∈ mm.backing_store, (e.2).length = mm.frame_size
  hocc : ∀ i, i < mm.total_frames → (mm.frame_table.getD i default).occupied = true →
    ∃ p, findProcPid procs (mm.frame_table.getD i default).pid = some p ∧
      ∃ pte, alookup p.page_table (mm.frame_table.getD i default).page_num = some pte
        ∧ pte.valid = true ∧ pte.frame_num = (i : Int)
  hvalid : ∀ p ∈ procs, ∀ e ∈ p.page_table, (e.2).valid = true →
    (e.2).frame_num.toNat < mm.total_frames ∧
    mm.frame_table.getD (e.2).frame_num.toNat default
      = { pid := p.pid, page_num := e.1, occupied := true }
  hclean : ∀ p ∈ procs, ∀ e ∈ p.page_table, (e.2).valid = true → (e.2).dirty = false →
    alookup mm.backing_store (p.pid, e.1)
      = some (ramSlice mm.ram ((e.2).frame_num.toNat * mm.frame_size) mm.frame_size)

/-- The value the virtual memory of process pid holds at virtual address
addr: the RAM cell of the mapped frame when the page is resident, else
the backing-store copy (zeros when the page was never materialised). -/
def vcontent (procs : List Process) (mm : MM) (pid : Int) (addr : Nat) : Int :=
  let page : Int := ((addr / mm.frame_size : Nat) : Int)
  let offset := addr % mm.frame_size
  match findProcPid procs pid with
  | none => 0
  | some p =>
    match alookup p.page_table page with
    | some pte =>
      if pte.valid then ramGet mm.ram (pte.frame_num.toNat * mm.frame_size + offset)
      else ((alookup mm.backing_store (pid, page)).getD
        (List.replicate mm.frame_size 0)).getD offset 0
    | none =>
      ((alookup mm.backing_store (pid, page)).getD
        (List.replicate mm.frame_size 0)).getD offset 0

/-- States reachable by memory-manager operations: the freshly
constructed manager, process creation (initializePageTable on a process
with an unused pid, as screen -s / the batch creator do via nextPID++),
and MemoryManager::access, which internally services page faults and
evictions. -/
inductive Reachable : List Process → MM → Prop where
  | init (tf fs : Nat) (hfs : 0 < fs) : Reachable [] (MM.init tf fs)
  | create {procs : List Process} {mm : MM} (p : Process) (n : Nat)
      (h : Reachable procs mm) (hfresh : p.pid ∉ procs.map Process.pid) :
      Reachable (procs ++ [initializePageTable p n]) mm
  | step {procs : List Process} {mm : MM} (tick : Nat) (pid : Int) (addr : Nat)
      (w : Bool) (v : Int) (h : Reachable procs mm) :
      Reachable (access tick procs mm pid addr w v).2.1
        (access tick procs mm pid addr w v).2.2

theorem Inv_init (tf fs : Nat) (hfs : 0 < fs) : Inv [] (MM.init tf fs) := by
  refine ⟨hfs, by simp [MM.init], by simp [MM.init], by simp, ?_, by simp [MM.init, akeys],
    ?_, ?_, ?_, ?_⟩
  · intro p hp
    cases hp
  · intro e he
    simp [MM.init] at he
  · intro i hi hocc
    exfalso
    rw [show (MM.init tf fs).frame_table = List.replicate tf {} from rfl,
      List.getD_eq_getElem?_getD, List.getElem?_replicate,
      if_pos (show i < tf from hi)] at hocc
    cases hocc
  · intro p hp
    cases hp
  · intro p hp
    cases hp

theorem int_ofNat_inj : Function.Injective (fun n : Nat => (n : Int)) := by
  intro a b h
  exact Int.ofNat.inj h

theorem Inv_create {procs : List Process} {mm : MM} (hI : Inv procs mm) (p : Process)
    (n : Nat) (hfresh : p.pid ∉ procs.map Process.pid) :
    Inv (procs ++ [initializePageTable p n]) mm := by
  obtain ⟨hfs, hft, hram, hpid, hptnd, hbsnd, hbs, hocc, hvalid, hclean⟩ := hI
  have hq0 : (initializePageTable p n).pid = p.pid := rfl
  refine ⟨hfs, hft, hram, ?_, ?_, hbsnd, hbs, ?_, ?_, ?_⟩
  · rw [List.map_append]
    rw [List.nodup_append]
    refine ⟨hpid, by simp, ?_⟩
    intro a ha hb
    simp only [List.map_cons, List.map_nil, List.mem_singleton, hq0] at hb
    exact hfresh (hb ▸ ha)
  · intro q hq
    rcases List.mem_append.mp hq with hq | hq
    · exact hptnd q hq
    · rw [List.mem_singleton] at hq
      subst hq
      have hk : ∀ l : List Nat, akeys (l.map fun (i : Nat) => ((i : Int), ({} : PageTableEntry)))
          = l.map (fun i : Nat => (i : Int)) := by
        intro l
        induction l with
        | nil => rfl
        | cons a t ih =>
          simp only [akeys, List.map_cons] at ih ⊢
          rw [ih]
      show (akeys (initializePageTable p n).page_table).Nodup
      rw [show (initializePageTable p n).page_table
          = (List.range n).map fun (i : Nat) => ((i : Int), ({} : PageTableEntry)) by rfl]
      rw [hk]
      exact (List.nodup_range n).map int_ofNat_inj
  · intro i hi ho
    obtain ⟨q, hq1, rest⟩ := hocc i hi ho
    exact ⟨q, findProcPid_append _ hq1, rest⟩
  · intro q hq e he hv
    rcases List.mem_append.mp hq with hq | hq
    · exact hvalid q hq e he hv
    · rw [List.mem_singleton] at hq
      subst hq
      simp only [initializePageTable, List.mem_map] at he
      obtain ⟨k, _, hk⟩ := he
      rw [← hk] at hv
      cases hv
  · intro q hq e he hv
    rcases List.mem_append.mp hq with hq | hq
    · exact hclean q hq e he hv
    · rw [List.mem_singleton] at hq
      subst hq
      simp only [initializePageTable, List.mem_map] at he
      obtain ⟨k, _, hk⟩ := he
      rw [← hk] at hv
      cases hv

theorem vcontent_create {procs : List Process} {mm : MM} {pid : Int} {q : Process}
    (hfound : findProcPid procs pid = some q) (p : Process) (n : Nat) (addr : Nat) :
    vcontent (procs ++ [initializePageTable p n]) mm pid addr = vcontent procs mm pid addr := by
  unfold vcontent
  rw [findProcPid_append _ hfound, hfound]

theorem alookup_of_mem_nodup {α β : Type} [DecidableEq α] {l : List (α × β)} {k : α}
    {v : β} (hn : (akeys l).Nodup) (h : (k, v) ∈ l) : alookup l k = some v := by
  induction l with
  | nil => cases h
  | cons hd tl ih =>
    obtain ⟨a, b⟩ := hd
    rw [show akeys ((a, b) :: tl) = a :: akeys tl from rfl, List.nodup_cons] at hn
    rcases List.mem_cons.mp h with h | h
    · injection h with h1 h2
      subst h1
      subst h2
      simp [alookup]
    · have hne : a ≠ k := by
        intro hcon
        subst hcon
        exact hn.1 (List.mem_map_of_mem Prod.fst h)
      rw [show alookup ((a, b) :: tl) k = if a = k then some b else alookup tl k from rfl,
        if_neg hne]
      exact ih hn.2 h

theorem ensure_alookup (pt : List (Int × PageTableEntry)) (page : Int) :
    alookup (if (alookup pt page).isNone then aset pt page ({} : PageTableEntry) else pt) page
      = some ((alookup pt page).getD default) := by
  rcases h : alookup pt page with _ | e
  · rw [if_pos (show (none : Option PageTableEntry).isNone = true from rfl), alookup_aset_self]
    rfl
  · rw [if_neg (by simp)]
    rw [h]
    rfl

theorem ensure_alookup_ne (pt : List (Int × PageTableEntry)) (page k : Int) (hne : k ≠ page) :
    alookup (if (alookup pt page).isNone then aset pt page ({} : PageTableEntry) else pt) k
      = alookup pt k := by
  rcases h : alookup pt page with _ | e
  · rw [if_pos (show (none : Option PageTableEntry).isNone = true from rfl), alookup_aset_ne _ _ _ _ hne]
  · rw [if_neg (by simp)]

theorem ensure_nodup (pt : List (Int × PageTableEntry)) (page : Int)
    (hn : (akeys pt).Nodup) :
    (akeys (if (alookup pt page).isNone then aset pt page ({} : PageTableEntry) else pt)).Nodup := by
  rcases h : alookup pt page with _ | e
  · rw [if_pos (show (none : Option PageTableEntry).isNone = true from rfl)]
    exact akeys_nodup_aset _ _ _ hn
  · rw [if_neg (by simp)]
    exact hn

theorem cell_lt {tf fs f o : Nat} (hf : f < tf) (ho : o < fs) : f * fs + o < tf * fs := by
  have h1 : f * fs + o < (f + 1) * fs := by
    rw [Nat.add_mul, Nat.one_mul]
    omega
  have h2 : (f + 1) * fs ≤ tf * fs := Nat.mul_le_mul_right fs hf
  omega

theorem toNat_ofNat_eq (i : Nat) : ((i : Int)).toNat = i := Int.toNat_ofNat i

/-- Two valid page-table entries mapping to the same frame belong to the
same (pid, page): immediate from the frame-table record the invariant
assigns to that frame. -/
theorem valid_frame_inj {procs : List Process} {mm : MM} (hI : Inv procs mm)
    {p q : Process} {e1 e2 : Int × PageTableEntry}
    (hp : p ∈ procs) (hq : q ∈ procs) (he1 : e1 ∈ p.page_table) (he2 : e2 ∈ q.page_table)
    (hv1 : (e1.2).valid = true) (hv2 : (e2.2).valid = true)
    (hfr : (e1.2).frame_num.toNat = (e2.2).frame_num.toNat) :
    p.pid = q.pid ∧ e1.1 = e2.1 := by
  have h1 := hI.hvalid p hp e1 he1 hv1
  have h2 := hI.hvalid q hq e2 he2 hv2
  rw [hfr] at h1
  have heq := h1.2.symm.trans h2.2
  rw [FrameTableEntry.mk.injEq] at heq
  exact ⟨heq.1, heq.2.1⟩

/-! ## Replacing one page table while keeping the resident map -/

theorem ptEdit_inv {procs : List Process} {mm : MM} {pid : Int} {proc : Process}
    (hI : Inv procs mm) (hf : findProcPid procs pid = some proc)
    (pt2 : List (Int × PageTableEntry)) (hnd : (akeys pt2).Nodup)
    (h1 : ∀ k e1, alookup proc.page_table k = some e1 →
      ∃ e2, alookup pt2 k = some e2 ∧ e2.valid = e1.valid ∧ e2.dirty = e1.dirty
        ∧ e2.frame_num = e1.frame_num)
    (h2 : ∀ k e2, alookup pt2 k = some e2 → alookup proc.page_table k = none →
      e2.valid = false) :
    Inv (updatePid procs pid fun p => { p with page_table := pt2 }) mm := by
  have hfp : ∀ q : Process, ((fun p : Process => { p with page_table := pt2 }) q).pid = q.pid :=
    fun _ => rfl
  have hprocmem := findProcPid_mem hf
  obtain ⟨hfs, hft, hram, hpid, hptnd, hbsnd, hbs, hocc, hvalid, hclean⟩ := hI
  have hmemchar : ∀ q', q' ∈ updatePid procs pid (fun p => { p with page_table := pt2 }) →
      q' ∈ procs ∨ q' = { proc with page_table := pt2 } := by
    intro q' hq'
    rcases mem_updatePid hq' with h | ⟨r, hr1, hr2, hr3⟩
    · exact Or.inl h
    · have hfr : findProcPid procs pid = some r := by
        rw [← hr2]
        exact findProcPid_of_mem hpid hr1
      rw [hf] at hfr
      injection hfr with hfr
      subst hfr
      exact Or.inr hr3
  refine ⟨hfs, hft, hram, ?_, ?_, hbsnd, hbs, ?_, ?_, ?_⟩
  · rw [updatePid_map_pid _ _ _ hfp]
    exact hpid
  · intro q hq
    rcases hmemchar q hq with h | h
    · exact hptnd q h
    · rw [h]
      exact hnd
  · intro i hi ho
    obtain ⟨q, hq1, pte, hq2, hq3, hq4⟩ := hocc i hi ho
    by_cases hp : (mm.frame_table.getD i default).pid = pid
    · rw [hp] at hq1
      rw [hf] at hq1
      injection hq1 with hq1
      subst hq1
      obtain ⟨e2, he2, hv2, _, hfr2⟩ := h1 _ pte hq2
      refine ⟨{ proc with page_table := pt2 }, ?_, e2, he2, ?_, ?_⟩
      · rw [hp]
        exact findProcPid_updatePid_self _ hfp hf
      · rw [hv2, hq3]
      · rw [hfr2, hq4]
    · rw [findProcPid_updatePid_ne _ hfp hp]
      exact ⟨q, hq1, pte, hq2, hq3, hq4⟩
  · intro q hq e he hv
    rcases hmemchar q hq with h | h
    · exact hvalid q h e he hv
    · subst h
      have he' : alookup pt2 e.1 = some e.2 := by
        refine alookup_of_mem_nodup hnd ?_
        rw [Prod.mk.eta]
        exact he
      rcases hlk : alookup proc.page_table e.1 with _ | e1
      · rw [h2 e.1 e.2 he' hlk] at hv
        cases hv
      · obtain ⟨e2, he2, hv2, hd2, hfr2⟩ := h1 e.1 e1 hlk
        rw [he'] at he2
        injection he2 with he2
        subst he2
        have hmem1 : (e.1, e1) ∈ proc.page_table := alookup_mem hlk
        have := hvalid proc hprocmem.1 (e.1, e1) hmem1 (by rw [← hv2]; exact hv)
        rw [← hfr2] at this
        exact this
  · intro q hq e he hv hd
    rcases hmemchar q hq with h | h
    · exact hclean q h e he hv hd
    · subst h
      have he' : alookup pt2 e.1 = some e.2 := by
        refine alookup_of_mem_nodup hnd ?_
        rw [Prod.mk.eta]
        exact he
      rcases hlk : alookup proc.page_table e.1 with _ | e1
      · rw [h2 e.1 e.2 he' hlk] at hv
        cases hv
      · obtain ⟨e2, he2, hv2, hd2, hfr2⟩ := h1 e.1 e1 hlk
        rw [he'] at he2
        injection he2 with he2
        subst he2
        have hmem1 : (e.1, e1) ∈ proc.page_table := alookup_mem hlk
        have := hclean proc hprocmem.1 (e.1, e1) hmem1 (by rw [← hv2]; exact hv)
          (by rw [← hd2]; exact hd)
        rw [← hfr2] at this
        exact this

theorem ptEdit_vcontent {procs : List Process} {mm : MM} {pid : Int} {proc : Process}
    (hf : findProcPid procs pid = some proc)
    (pt2 : List (Int × PageTableEntry))
    (h1 : ∀ k e1, alookup proc.page_table k = some e1 →
      ∃ e2, alookup pt2 k = some e2 ∧ e2.valid = e1.valid ∧ e2.dirty = e1.dirty
        ∧ e2.frame_num = e1.frame_num)
    (h2 : ∀ k e2, alookup pt2 k = some e2 → alookup proc.page_table k = none →
      e2.valid = false)
    (pid0 : Int) (addr0 : Nat) :
    vcontent (updatePid procs pid fun p => { p with page_table := pt2 }) mm pid0 addr0
      = vcontent procs mm pid0 addr0 := by
  have hfp : ∀ q : Process, ((fun p : Process => { p with page_table := pt2 }) q).pid = q.pid :=
    fun _ => rfl
  unfold vcontent
  by_cases hp : pid0 = pid
  · subst hp
    rw [findProcPid_updatePid_self _ hfp hf, hf]
    rcases hlk : alookup proc.page_table ((addr0 / mm.frame_size : Nat) : Int) with _ | e1
    · rcases hlk2 : alookup pt2 ((addr0 / mm.frame_size : Nat) : Int) with _ | e2
      · simp only [hlk, hlk2]
      · simp only [hlk, hlk2]
        rw [if_neg (by rw [h2 _ _ hlk2 hlk]; intro hcon; cases hcon)]
    · obtain ⟨e2, he2, hv2, hd2, hfr2⟩ := h1 _ e1 hlk
      simp only [hlk, he2, hv2, hfr2]
  · rw [findProcPid_updatePid_ne _ hfp hp]

theorem mem_updatePid_char {procs : List Process} {pid : Int} {f : Process → Process}
    {q' p : Process} (hnd : (procs.map Process.pid).Nodup)
    (hf : findProcPid procs pid = some p) (h : q' ∈ updatePid procs pid f) :
    (q' ∈ procs ∧ q'.pid ≠ pid) ∨ q' = f p := by
  induction procs with
  | nil => cases h
  | cons r rest ih =>
    rw [List.map_cons, List.nodup_cons] at hnd
    by_cases hr : r.pid = pid
    · simp only [findProcPid, if_pos hr] at hf
      injection hf with hf
      subst hf
      simp only [updatePid, if_pos hr] at h
      rcases List.mem_cons.mp h with h | h
      · exact Or.inr h
      · refine Or.inl ⟨List.mem_cons_of_mem _ h, ?_⟩
        intro hcon
        rw [← hr] at hcon
        exact hnd.1 (hcon ▸ List.mem_map_of_mem Process.pid h)
    · simp only [findProcPid, if_neg hr] at hf
      simp only [updatePid, if_neg hr] at h
      rcases List.mem_cons.mp h with h | h
      · subst h
        exact Or.inl ⟨List.mem_cons_self _ _, hr⟩
      · rcases ih hnd.2 hf h with ⟨h1, h2⟩ | h1
        · exact Or.inl ⟨List.mem_cons_of_mem _ h1, h2⟩
        · exact Or.inr h1

theorem evictScanStep_snd (procs : List Process) (ft : List FrameTableEntry)
    (acc : Nat × Option Nat) (i : Nat) :
    (evictScanStep procs ft acc i).2 = acc.2 ∨ (evictScanStep procs ft acc i).2 = some i := by
  unfold evictScanStep
  rcases h1 : findProcPid procs (ft.getD i default).pid with _ | p
  · simp only [h1]
    exact Or.inl trivial
  · rcases h2 : alookup p.page_table (ft.getD i default).page_num with _ | pte
    · simp only [h1, h2]
      exact Or.inl trivial
    · by_cases h3 : pte.last_accessed < acc.1
      · simp only [h1, h2, if_pos h3]
        exact Or.inr trivial
      · simp only [h1, h2, if_neg h3]
        exact Or.inl trivial

theorem foldl_scan_mem (procs : List Process) (ft : List FrameTableEntry)
    (l : List Nat) (acc : Nat × Option Nat) (j : Nat)
    (h : ((l.foldl (evictScanStep procs ft) acc)).2 = some j) :
    acc.2 = some j ∨ j ∈ l := by
  induction l generalizing acc with
  | nil => exact Or.inl h
  | cons a t ih =>
    rw [List.foldl_cons] at h
    rcases ih (evictScanStep procs ft acc a) h with h1 | h1
    · rcases evictScanStep_snd procs ft acc a with h2 | h2
      · exact Or.inl (h2 ▸ h1)
      · rw [h2] at h1
        injection h1 with h1
        exact Or.inr (h1 ▸ List.mem_cons_self _ _)
    · exact Or.inr (List.mem_cons_of_mem _ h1)

theorem evictScan_lt {procs : List Process} {mm : MM} {v : Nat}
    (h : (evictScan procs mm).2 = some v) : v < mm.total_frames := by
  rcases foldl_scan_mem procs mm.frame_table (List.range mm.total_frames) (U64MAX, none) v h
    with h1 | h1
  · cases h1
  · exact List.mem_range.mp h1

/-- The page of the given process is not resident (invalid or absent
page-table entry).  Holds for a page being faulted in, and is preserved
by the operations that run before the fault is serviced. -/
def PageInvalid (procs : List Process) (pid page : Int) : Prop :=
  ∀ p, findProcPid procs pid = some p → ∀ e, alookup p.page_table page = some e →
    e.valid = false

/-- Core of evictVictim preservation: invalidating the victim frame's
owning page-table entry and freeing the frame keeps the invariant and
the virtual memory contents, provided the backing store now holds the
victim frame's bytes under the victim's (pid, page) key (it does: either
the write-back just stored them, or the page was clean and the invariant
already gave it). -/
theorem evictAt_common {procs : List Process} {mm : MM} (hI : Inv procs mm)
    {victim : Nat} (hv : victim < mm.total_frames)
    {p : Process} {pteq : PageTableEntry}
    (hp1 : findProcPid procs (mm.frame_table.getD victim default).pid = some p)
    (hp2 : alookup p.page_table (mm.frame_table.getD victim default).page_num = some pteq)
    (hp3 : pteq.valid = true)
    (hp4 : pteq.frame_num = (victim : Int))
    (mmr : MM)
    (hr1 : mmr.total_frames = mm.total_frames)
    (hr2 : mmr.frame_size = mm.frame_size)
    (hr3 : mmr.ram = mm.ram)
    (hr4 : mmr.frame_table = mm.frame_table.set victim
      { mm.frame_table.getD victim default with occupied := false })
    (hnd1 : (akeys mmr.backing_store).Nodup)
    (hlen1 : ∀ e ∈ mmr.backing_store, (e.2).length = mmr.frame_size)
    (hkey : alookup mmr.backing_store
        ((mm.frame_table.getD victim default).pid, (mm.frame_table.getD victim default).page_num)
      = some (ramSlice mm.ram (victim * mm.frame_size) mm.frame_size))
    (hother : ∀ k, k ≠ ((mm.frame_table.getD victim default).pid,
        (mm.frame_table.getD victim default).page_num) →
      alookup mmr.backing_store k = alookup mm.backing_store k) :
    Inv (updatePid procs (mm.frame_table.getD victim default).pid fun q =>
      { q with page_table := (aset q.page_table (mm.frame_table.getD victim default).page_num
          { pteq with valid := false, frame_num := -1, dirty := false }) }) mmr
    ∧ ∀ pid0 addr0,
        vcontent (updatePid procs (mm.frame_table.getD victim default).pid fun q =>
          { q with page_table := (aset q.page_table (mm.frame_table.getD victim default).page_num
              { pteq with valid := false, frame_num := -1, dirty := false }) }) mmr pid0 addr0
        = vcontent procs mm pid0 addr0 := by
  obtain ⟨hfs, hft, hram, hpid, hptnd, hbsnd, hbs, hocc, hvalid, hclean⟩ := hI
  set vpid := (mm.frame_table.getD victim default).pid with hvpid
  set vpage := (mm.frame_table.getD victim default).page_num with hvpage
  set ipte : PageTableEntry :=
    { pteq with valid := false, frame_num := -1, dirty := false } with hipte
  set f : Process → Process :=
    (fun q => { q with page_table := aset q.page_table vpage ipte }) with hfdef
  have hfp : ∀ q : Process, (f q).pid = q.pid := fun _ => rfl
  have hpmem := findProcPid_mem hp1
  have hfrT : pteq.frame_num.toNat = victim := by rw [hp4]; exact toNat_ofNat_eq victim
  have hmemchar : ∀ q', q' ∈ updatePid procs vpid f →
      (q' ∈ procs ∧ q'.pid ≠ vpid) ∨ q' = f p :=
    fun q' hq' => mem_updatePid_char hpid hp1 hq'
  have hftlen : mmr.frame_table.length = mm.frame_table.length := by
    rw [hr4, List.length_set]
  have hgetD : ∀ i, mmr.frame_table.getD i default
      = if victim = i then { mm.frame_table.getD victim default with occupied := false }
        else mm.frame_table.getD i default := by
    intro i
    rw [hr4, getD_set]
    by_cases h : victim = i
    · rw [if_pos ⟨h, by omega⟩, if_pos h]
    · rw [if_neg (by intro hcon; exact h hcon.1), if_neg h]
  constructor
  · refine ⟨by rw [hr2]; exact hfs, by rw [hftlen, hr1]; exact hft,
      by rw [hr3, hr1, hr2]; exact hram, ?_, ?_, hnd1, hlen1, ?_, ?_, ?_⟩
    · rw [updatePid_map_pid _ _ _ hfp]
      exact hpid
    · intro q' hq'
      rcases hmemchar q' hq' with ⟨h1, _⟩ | h1
      · exact hptnd q' h1
      · rw [h1]
        exact akeys_nodup_aset _ _ _ (hptnd p hpmem.1)
    · -- hocc
      intro i hi' ho'
      rw [hr1] at hi'
      rw [hgetD i] at ho' ⊢
      by_cases hvi : victim = i
      · rw [if_pos hvi] at ho'
        cases ho'
      · rw [if_neg hvi] at ho' ⊢
        obtain ⟨q2, hq21, pte2, hq22, hq23, hq24⟩ := hocc i hi' ho'
        by_cases hqp : (mm.frame_table.getD i default).pid = vpid
        · rw [hqp] at hq21
          rw [hp1] at hq21
          injection hq21 with hq21
          subst hq21
          have hkne : (mm.frame_table.getD i default).page_num ≠ vpage := by
            intro hcon
            rw [hcon] at hq22
            rw [hp2] at hq22
            injection hq22 with hq22
            subst hq22
            rw [hp4] at hq24
            have : i = victim := Int.natCast_inj.mp hq24.symm
            exact hvi this.symm
          refine ⟨f p, ?_, pte2, ?_, hq23, hq24⟩
          · rw [hqp]
            exact findProcPid_updatePid_self _ hfp hp1
          · show alookup (aset p.page_table vpage ipte)
              (mm.frame_table.getD i default).page_num = some pte2
            rw [alookup_aset_ne _ _ _ _ hkne]
            exact hq22
        · rw [findProcPid_updatePid_ne _ hfp hqp]
          exact ⟨q2, hq21, pte2, hq22, hq23, hq24⟩
    · -- hvalid
      intro q' hq' e he hv'
      rcases hmemchar q' hq' with ⟨h1, h2⟩ | h1
      · obtain ⟨hb, hrec⟩ := hvalid q' h1 e he hv'
        have hne : (e.2).frame_num.toNat ≠ victim := by
          intro hcon
          rw [hcon] at hrec
          have := congrArg FrameTableEntry.pid hrec
          exact h2 (show q'.pid = vpid by rw [hvpid]; exact this.symm)
        refine ⟨by rw [hr1]; exact hb, ?_⟩
        rw [hgetD, if_neg (fun hcon => hne hcon.symm)]
        exact hrec
      · subst h1
        have hept : (f p).page_table = aset p.page_table vpage ipte := rfl
        rw [hept] at he
        rcases (mem_aset_iff (hptnd p hpmem.1) _ _ _).mp he with h3 | ⟨h3, h4⟩
        · rw [h3] at hv'
          cases hv'
        · obtain ⟨hb, hrec⟩ := hvalid p hpmem.1 e h3 hv'
          have hne : (e.2).frame_num.toNat ≠ victim := by
            intro hcon
            rw [hcon] at hrec
            have := congrArg FrameTableEntry.page_num hrec
            exact h4 (show e.1 = vpage by rw [hvpage]; exact this.symm)
          refine ⟨by rw [hr1]; exact hb, ?_⟩
          rw [hgetD, if_neg (fun hcon => hne hcon.symm)]
          rw [show (f p).pid = p.pid from rfl]
          exact hrec
    · -- hclean
      intro q' hq' e he hv' hd'
      rcases hmemchar q' hq' with ⟨h1, h2⟩ | h1
      · have hkne : (q'.pid, e.1) ≠ (vpid, vpage) := by
          intro hcon
          injection hcon with hc1 hc2
          exact h2 hc1
        rw [hother _ hkne, hr3, hr2]
        exact hclean q' h1 e he hv' hd'
      · subst h1
        have hept : (f p).page_table = aset p.page_table vpage ipte := rfl
        rw [hept] at he
        rcases (mem_aset_iff (hptnd p hpmem.1) _ _ _).mp he with h3 | ⟨h3, h4⟩
        · rw [h3] at hv'
          cases hv'
        · have hkne : ((f p).pid, e.1) ≠ (vpid, vpage) := by
            intro hcon
            injection hcon with hc1 hc2
            exact h4 hc2
          rw [hother _ hkne, hr3, hr2]
          rw [show (f p).pid = p.pid from rfl]
          exact hclean p hpmem.1 e h3 hv' hd'
  · -- vcontent preservation
    intro pid0 addr0
    unfold vcontent
    simp only [hr2, hr3]
    have hoff : addr0 % mm.frame_size < mm.frame_size := Nat.mod_lt _ hfs
    by_cases hpid0 : pid0 = vpid
    · subst hpid0
      rw [findProcPid_updatePid_self _ hfp hp1, hp1]
      simp only []
      by_cases hpg : ((addr0 / mm.frame_size : Nat) : Int) = vpage
      · rw [hpg, alookup_aset_self]
        rw [hp2]
        simp only []
        rw [if_neg (by intro hcon; cases hcon), if_pos hp3]
        rw [hkey]
        rw [show (some (ramSlice mm.ram (victim * mm.frame_size) mm.frame_size)).getD
            (List.replicate mm.frame_size 0) = ramSlice mm.ram (victim * mm.frame_size)
            mm.frame_size from rfl]
        rw [ramSlice_getD _ _ _ _ hoff, hfrT]
      · rw [alookup_aset_ne _ _ _ _ hpg]
        rcases hlk : alookup p.page_table ((addr0 / mm.frame_size : Nat) : Int) with _ | e0
        · simp only []
          rw [hother _ (by intro hcon; injection hcon with hc1 hc2; exact hpg hc2)]
        · simp only []
          by_cases hval0 : e0.valid = true
          · rw [if_pos hval0, if_pos hval0]
          · rw [if_neg hval0, if_neg hval0]
            rw [hother _ (by intro hcon; injection hcon with hc1 hc2; exact hpg hc2)]
    · rw [findProcPid_updatePid_ne _ hfp hpid0]
      rcases hq0 : findProcPid procs pid0 with _ | q0
      · simp only []
      · simp only []
        rcases hlk : alookup q0.page_table ((addr0 / mm.frame_size : Nat) : Int) with _ | e0
        · simp only []
          rw [hother _ (by intro hcon; injection hcon with hc1 hc2; exact hpid0 ((findProcPid_mem hq0).2 ▸ hc1))]
        · simp only []
          by_cases hval0 : e0.valid = true
          · rw [if_pos hval0, if_pos hval0]
          · rw [if_neg hval0, if_neg hval0]
            rw [hother _ (by intro hcon; injection hcon with hc1 hc2; exact hpid0 ((findProcPid_mem hq0).2 ▸ hc1))]

theorem evictAt_master {procs : List Process} {mm : MM} (hI : Inv procs mm)
    {victim : Nat} (hv : victim < mm.total_frames)
    (ho : (mm.frame_table.getD victim default).occupied = true) :
    Inv (evictAt procs mm victim).2.1 (evictAt procs mm victim).2.2
    ∧ (∀ pid0 addr0, vcontent (evictAt procs mm victim).2.1 (evictAt procs mm victim).2.2
        pid0 addr0 = vcontent procs mm pid0 addr0)
    ∧ (evictAt procs mm victim).2.2.total_frames = mm.total_frames
    ∧ (evictAt procs mm victim).2.2.frame_size = mm.frame_size
    ∧ (evictAt procs mm victim).2.2.ram = mm.ram
    ∧ (evictAt procs mm victim).2.2.frame_table
        = mm.frame_table.set victim { mm.frame_table.getD victim default with occupied := false }
    ∧ ((evictAt procs mm victim).2.1.map Process.pid = procs.map Process.pid)
    ∧ (∀ pid0 page0, PageInvalid procs pid0 page0 →
        PageInvalid (evictAt procs mm victim).2.1 pid0 page0) := by
  obtain ⟨p, hp1, pteq, hp2, hp3, hp4⟩ := hI.hocc victim hv ho
  have hpmem := findProcPid_mem hp1
  have hfrT : pteq.frame_num.toNat = victim := by rw [hp4]; exact toNat_ofNat_eq victim
  have hfp : ∀ q : Process, ((fun q : Process =>
      { q with page_table := (aset q.page_table (mm.frame_table.getD victim default).page_num
        { pteq with valid := false, frame_num := -1, dirty := false }) }) q).pid = q.pid :=
    fun _ => rfl
  have hPIpres : ∀ pid0 page0, PageInvalid procs pid0 page0 →
      PageInvalid (updatePid procs (mm.frame_table.getD victim default).pid fun q =>
        { q with page_table := (aset q.page_table (mm.frame_table.getD victim default).page_num
          { pteq with valid := false, frame_num := -1, dirty := false }) }) pid0 page0 := by
    intro pid0 page0 hPI q' hfind e he
    by_cases hp0 : pid0 = (mm.frame_table.getD victim default).pid
    · subst hp0
      rw [findProcPid_updatePid_self _ hfp hp1] at hfind
      injection hfind with hfind
      subst hfind
      have he2 : alookup (aset p.page_table (mm.frame_table.getD victim default).page_num
          { pteq with valid := false, frame_num := -1, dirty := false }) page0 = some e := he
      by_cases hpg : page0 = (mm.frame_table.getD victim default).page_num
      · subst hpg
        rw [alookup_aset_self] at he2
        injection he2 with he2
        rw [← he2]
      · rw [alookup_aset_ne _ _ _ _ hpg] at he2
        exact hPI p hp1 e he2
    · rw [findProcPid_updatePid_ne _ hfp hp0] at hfind
      exact hPI q' hfind e he
  by_cases hd : pteq.dirty = true
  · have heq : evictAt procs mm victim
        = (victim,
           updatePid procs (mm.frame_table.getD victim default).pid fun q =>
             { q with page_table := (aset q.page_table
               (mm.frame_table.getD victim default).page_num
               { pteq with valid := false, frame_num := -1, dirty := false }) },
           { mm with
               backing_store := (aset mm.backing_store
                 ((mm.frame_table.getD victim default).pid,
                  (mm.frame_table.getD victim default).page_num)
                 (ramSlice mm.ram (victim * mm.frame_size) mm.frame_size)),
               pages_paged_out := mm.pages_paged_out + 1,
               frame_table := (mm.frame_table.set victim
                 { mm.frame_table.getD victim default with occupied := false }) }) := by
      simp only [evictAt, hp1, hp2, Option.getD_some, if_pos hd]
    obtain ⟨hInv, hvc⟩ := evictAt_common ⟨hI.hfs, hI.hft, hI.hram, hI.hpid, hI.hptnd,
      hI.hbsnd, hI.hbs, hI.hocc, hI.hvalid, hI.hclean⟩ hv hp1 hp2 hp3 hp4
      { mm with
          backing_store := (aset mm.backing_store
            ((mm.frame_table.getD victim default).pid,
             (mm.frame_table.getD victim default).page_num)
            (ramSlice mm.ram (victim * mm.frame_size) mm.frame_size)),
          pages_paged_out := mm.pages_paged_out + 1,
          frame_table := (mm.frame_table.set victim
            { mm.frame_table.getD victim default with occupied := false }) }
      rfl rfl rfl rfl
      (akeys_nodup_aset _ _ _ hI.hbsnd)
      (by
        intro e he
        rcases (mem_aset_iff hI.hbsnd _ _ _).mp he with h | ⟨h, _⟩
        · rw [h]
          exact ramSlice_length _ _ _
        · exact hI.hbs e h)
      (alookup_aset_self _ _ _)
      (fun k hk => alookup_aset_ne _ _ _ _ hk)
    rw [heq]
    exact ⟨hInv, hvc, rfl, rfl, rfl, rfl,
      updatePid_map_pid _ _ _ hfp, hPIpres⟩
  · have hd' : pteq.dirty = false := by
      cases hx : pteq.dirty
      · rfl
      · exact absurd hx hd
    have heq : evictAt procs mm victim
        = (victim,
           updatePid procs (mm.frame_table.getD victim default).pid fun q =>
             { q with page_table := (aset q.page_table
               (mm.frame_table.getD victim default).page_num
               { pteq with valid := false, frame_num := -1, dirty := false }) },
           { mm with
               frame_table := (mm.frame_table.set victim
                 { mm.frame_table.getD victim default with occupied := false }) }) := by
      simp only [evictAt, hp1, hp2, Option.getD_some, if_neg hd]
    obtain ⟨hInv, hvc⟩ := evictAt_common ⟨hI.hfs, hI.hft, hI.hram, hI.hpid, hI.hptnd,
      hI.hbsnd, hI.hbs, hI.hocc, hI.hvalid, hI.hclean⟩ hv hp1 hp2 hp3 hp4
      { mm with
          frame_table := (mm.frame_table.set victim
            { mm.frame_table.getD victim default with occupied := false }) }
      rfl rfl rfl rfl hI.hbsnd hI.hbs
      (by
        have := hI.hclean p hpmem.1
          ((mm.frame_table.getD victim default).page_num, pteq) (alookup_mem hp2) hp3 hd'
        rw [hfrT] at this
        rw [← hpmem.2]
        exact this)
      (fun _ _ => rfl)
    rw [heq]
    exact ⟨hInv, hvc, rfl, rfl, rfl, rfl,
      updatePid_map_pid _ _ _ hfp, hPIpres⟩

theorem evictAt_fst (procs : List Process) (mm : MM) (victim : Nat) :
    (evictAt procs mm victim).1 = victim := by
  unfold evictAt
  rcases h : findProcPid procs (mm.frame_table.getD victim default).pid with _ | p
  · simp only [h]
  · simp only [h]

theorem allocateFrame_master {procs : List Process} {mm : MM} (hI : Inv procs mm)
    (htf : 0 < mm.total_frames) :
    ∃ fidx procs1 mm1, allocateFrame procs mm = some (fidx, procs1, mm1)
    ∧ Inv procs1 mm1
    ∧ (∀ pid0 addr0, vcontent procs1 mm1 pid0 addr0 = vcontent procs mm pid0 addr0)
    ∧ mm1.total_frames = mm.total_frames
    ∧ mm1.frame_size = mm.frame_size
    ∧ fidx < mm.total_frames
    ∧ (mm1.frame_table.getD fidx default).occupied = false
    ∧ procs1.map Process.pid = procs.map Process.pid
    ∧ (∀ pid0 page0, PageInvalid procs pid0 page0 → PageInvalid procs1 pid0 page0) := by
  rcases hfind : (List.range mm.total_frames).find?
      (fun i => !(mm.frame_table.getD i default).occupied) with _ | i
  · -- no free frame: evict
    have halloc : ∀ x ∈ List.range mm.total_frames,
        ¬((fun i => !(mm.frame_table.getD i default).occupied) x = true) :=
      List.find?_eq_none.mp hfind
    have hallocc : ∀ j, j < mm.total_frames →
        (mm.frame_table.getD j default).occupied = true := by
      intro j hj
      have := halloc j (List.mem_range.mpr hj)
      simp only [Bool.not_eq_true'] at this
      simpa using this
    have hpack : ∀ v : Nat, v < mm.total_frames →
        Inv (evictAt procs mm v).2.1 (evictAt procs mm v).2.2
        ∧ (∀ pid0 addr0, vcontent (evictAt procs mm v).2.1 (evictAt procs mm v).2.2
            pid0 addr0 = vcontent procs mm pid0 addr0)
        ∧ (evictAt procs mm v).2.2.total_frames = mm.total_frames
        ∧ (evictAt procs mm v).2.2.frame_size = mm.frame_size
        ∧ ((evictAt procs mm v).2.2.frame_table.getD v default).occupied = false
        ∧ ((evictAt procs mm v).2.1.map Process.pid = procs.map Process.pid)
        ∧ (∀ pid0 page0, PageInvalid procs pid0 page0 →
            PageInvalid (evictAt procs mm v).2.1 pid0 page0) := by
      intro v hvlt
      obtain ⟨h1, h2, h3, h4, h5, h6, h7, h8⟩ := evictAt_master hI hvlt (hallocc v hvlt)
      refine ⟨h1, h2, h3, h4, ?_, h7, h8⟩
      rw [h6, getD_set, if_pos ⟨rfl, by rw [hI.hft]; exact hvlt⟩]
    rcases hscan : (evictScan procs mm).2 with _ | v
    · refine ⟨(evictAt procs mm 0).1, (evictAt procs mm 0).2.1, (evictAt procs mm 0).2.2,
        ?_, ?_⟩
      · simp only [allocateFrame, hfind, evictVictim, hscan,
          if_neg (show ¬(mm.total_frames = 0) by omega)]
      · rw [evictAt_fst]
        obtain ⟨h1, h2, h3, h4, h5, h6, h7⟩ := hpack 0 htf
        exact ⟨h1, h2, h3, h4, htf, h5, h6, h7⟩
    · have hvlt : v < mm.total_frames := evictScan_lt hscan
      refine ⟨(evictAt procs mm v).1, (evictAt procs mm v).2.1, (evictAt procs mm v).2.2,
        ?_, ?_⟩
      · simp only [allocateFrame, hfind, evictVictim, hscan]
      · rw [evictAt_fst]
        obtain ⟨h1, h2, h3, h4, h5, h6, h7⟩ := hpack v hvlt
        exact ⟨h1, h2, h3, h4, hvlt, h5, h6, h7⟩
  · -- free frame i
    have hmem := List.mem_range.mp (List.mem_of_find?_eq_some hfind)
    have hpred := List.find?_some hfind
    have hoccf : (mm.frame_table.getD i default).occupied = false := by
      simp only [Bool.not_eq_true'] at hpred
      simpa using hpred
    exact ⟨i, procs, mm, by simp only [allocateFrame, hfind], hI, fun _ _ => rfl, rfl, rfl,
      hmem, hoccf, rfl, fun _ _ h => h⟩

theorem findProcPid_isSome_iff (procs : List Process) (pid : Int) :
    (findProcPid procs pid).isSome ↔ pid ∈ procs.map Process.pid := by
  induction procs with
  | nil => simp [findProcPid]
  | cons q rest ih =>
    by_cases hq : q.pid = pid
    · simp only [findProcPid, if_pos hq, List.map_cons]
      constructor
      · intro _
        rw [hq] at *
        exact List.mem_cons_self _ _
      · intro _
        rfl
    · simp only [findProcPid, if_neg hq, List.map_cons]
      rw [List.mem_cons]
      constructor
      · intro h
        exact Or.inr (ih.mp h)
      · intro h
        rcases h with h | h
        · exact absurd h.symm hq
        · exact ih.mpr h

theorem getD_replicate {α : Type} (n i : Nat) (a d : α) (h : i < n) :
    (List.replicate n a).getD i d = a := by
  rw [List.getD_eq_getElem?_getD, List.getElem?_replicate, if_pos h]
  rfl

theorem cell_addr_page (fs pageN off : Nat) (hfs : 0 < fs) (ho : off < fs) :
    (pageN * fs + off) / fs = pageN ∧ (pageN * fs + off) % fs = off := by
  constructor
  · rw [Nat.mul_comm, Nat.mul_add_div hfs, Nat.div_eq_of_lt ho, Nat.add_zero]
  · rw [Nat.mul_comm, Nat.mul_add_mod]
    exact Nat.mod_eq_of_lt ho

theorem map_range_getD {α : Type} (data : List α) (d : α) :
    (List.range data.length).map (fun k => data.getD k d) = data := by
  refine List.ext_getElem (by simp) ?_
  intro k h1 h2
  rw [List.getElem_map, List.getElem_range]
  rw [List.getD_eq_getElem?_getD, List.getElem?_eq_getElem h2]
  rfl

theorem ramSlice_loadFrame (ram : List Int) (start fs : Nat) (data : List Int)
    (hlen : data.length = fs) (hbound : start + fs ≤ ram.length) :
    ramSlice (loadFrame ram start fs data) start fs = data := by
  have h1 : ramSlice (loadFrame ram start fs data) start fs
      = (List.range fs).map (fun k => data.getD k 0) := by
    unfold ramSlice
    refine List.map_congr_left ?_
    intro k hk
    rw [List.mem_range] at hk
    show ramGet (loadFrame ram start fs data) (start + k) = data.getD k 0
    rw [ramGet, loadFrame_getD, if_pos ⟨by omega, by omega, by omega⟩]
    congr 1
    omega
  rw [h1, ← hlen, map_range_getD]

theorem ramSlice_loadFrame_out (ram : List Int) (start fs : Nat) (data : List Int)
    (s2 : Nat) (hdis : s2 + fs ≤ start ∨ start + fs ≤ s2) :
    ramSlice (loadFrame ram start fs data) s2 fs = ramSlice ram s2 fs := by
  refine ramSlice_congr _ _ ?_
  intro k hk
  rw [ramGet, ramGet, loadFrame_getD, if_neg]
  intro hcon
  omega

/-- Core of handlePageFault preservation: loading the page into a free
frame, claiming the frame and validating the owner's page-table entry
keeps the invariant and the virtual memory contents, when the loaded
bytes pd are exactly the page's backing-store content (zeros if never
materialised). -/
theorem handleFault_common {procs1 : List Process} {mm1 : MM} (hI1 : Inv procs1 mm1)
    {pid : Int} {pageN fidx : Nat} {p1 : Process}
    (hfp1 : findProcPid procs1 pid = some p1)
    (hPIp1 : PageInvalid procs1 pid (pageN : Int))
    (hflt : fidx < mm1.total_frames)
    (hfocc : (mm1.frame_table.getD fidx default).occupied = false)
    (tick : Nat)
    (bs2 : List ((Int × Int) × List Int)) (pd : List Int)
    (hnd2 : (akeys bs2).Nodup)
    (hlen2 : ∀ e ∈ bs2, (e.2).length = mm1.frame_size)
    (hkey2 : alookup bs2 (pid, (pageN : Int)) = some pd)
    (hother2 : ∀ k, k ≠ (pid, (pageN : Int)) → alookup bs2 k = alookup mm1.backing_store k)
    (hpdlen : pd.length = mm1.frame_size)
    (hpdfall : ∀ off, off < mm1.frame_size → pd.getD off 0
      = ((alookup mm1.backing_store (pid, (pageN : Int))).getD
          (List.replicate mm1.frame_size 0)).getD off 0) :
    Inv (updatePid procs1 pid fun q => { q with page_table := (aset q.page_table (pageN : Int)
        { frame_num := (fidx : Int), valid := true, dirty := false, last_accessed := tick }) })
      { mm1 with
          backing_store := bs2,
          ram := loadFrame mm1.ram (fidx * mm1.frame_size) mm1.frame_size pd,
          pages_paged_in := mm1.pages_paged_in + 1,
          frame_table := (mm1.frame_table.set fidx
            { pid := pid, page_num := (pageN : Int), occupied := true }) }
    ∧ (∀ pid0 addr0,
        vcontent (updatePid procs1 pid fun q => { q with page_table := (aset q.page_table
            (pageN : Int)
            { frame_num := (fidx : Int), valid := true, dirty := false, last_accessed := tick }) })
          { mm1 with
              backing_store := bs2,
              ram := loadFrame mm1.ram (fidx * mm1.frame_size) mm1.frame_size pd,
              pages_paged_in := mm1.pages_paged_in + 1,
              frame_table := (mm1.frame_table.set fidx
                { pid := pid, page_num := (pageN : Int), occupied := true }) } pid0 addr0
        = vcontent procs1 mm1 pid0 addr0)
    ∧ (∀ off, off < mm1.frame_size →
        ramGet (loadFrame mm1.ram (fidx * mm1.frame_size) mm1.frame_size pd)
          (fidx * mm1.frame_size + off) = pd.getD off 0) := by
  obtain ⟨hfs, hft, hram, hpid, hptnd, hbsnd, hbs, hocc, hvalid, hclean⟩ := hI1
  set npte : PageTableEntry :=
    { frame_num := (fidx : Int), valid := true, dirty := false, last_accessed := tick }
    with hnpte
  set nfte : FrameTableEntry :=
    { pid := pid, page_num := (pageN : Int), occupied := true } with hnfte
  set f2 : Process → Process :=
    (fun q => { q with page_table := (aset q.page_table (pageN : Int) npte) }) with hf2
  set ram1 : List Int := loadFrame mm1.ram (fidx * mm1.frame_size) mm1.frame_size pd
    with hram1
  have hfp : ∀ q : Process, (f2 q).pid = q.pid := fun _ => rfl
  have hp1pid : p1.pid = pid := (findProcPid_mem hfp1).2
  have hp1mem : p1 ∈ procs1 := (findProcPid_mem hfp1).1
  have hmemchar : ∀ q', q' ∈ updatePid procs1 pid f2 →
      (q' ∈ procs1 ∧ q'.pid ≠ pid) ∨ q' = f2 p1 :=
    fun q' hq' => mem_updatePid_char hpid hfp1 hq'
  have hbound : fidx * mm1.frame_size + mm1.frame_size ≤ mm1.ram.length := by
    have h1 : (fidx + 1) * mm1.frame_size ≤ mm1.total_frames * mm1.frame_size :=
      Nat.mul_le_mul_right _ (by omega)
    rw [Nat.add_mul, Nat.one_mul] at h1
    omega
  have hfr_ne : ∀ (q : Process) (e : Int × PageTableEntry), q ∈ procs1 → e ∈ q.page_table →
      (e.2).valid = true → (e.2).frame_num.toNat ≠ fidx := by
    intro q e hq he hv hcon
    have hrec := (hvalid q hq e he hv).2
    rw [hcon] at hrec
    have := congrArg FrameTableEntry.occupied hrec
    rw [hfocc] at this
    cases this
  have hftlen2 : (mm1.frame_table.set fidx nfte).length = mm1.frame_table.length :=
    List.length_set _ _ _
  have hgetD2 : ∀ i, (mm1.frame_table.set fidx nfte).getD i default
      = if fidx = i then nfte else mm1.frame_table.getD i default := by
    intro i
    rw [getD_set]
    by_cases h : fidx = i
    · rw [if_pos ⟨h, by rw [hft]; omega⟩, if_pos h]
    · rw [if_neg (by intro hcon; exact h hcon.1), if_neg h]
  have hramget_in : ∀ off, off < mm1.frame_size →
      ramGet ram1 (fidx * mm1.frame_size + off) = pd.getD off 0 := by
    intro off hoff
    rw [hram1, ramGet, loadFrame_getD, if_pos ⟨by omega, by omega, by omega⟩]
    congr 1
    omega
  have hramget_out : ∀ g off, g ≠ fidx → off < mm1.frame_size →
      ramGet ram1 (g * mm1.frame_size + off) = ramGet mm1.ram (g * mm1.frame_size + off) := by
    intro g off hg hoff
    rw [hram1, ramGet, loadFrame_getD, if_neg]
    · rfl
    · intro hcon
      obtain ⟨c1, c2, _⟩ := hcon
      have hr : g * mm1.frame_size + off
          = fidx * mm1.frame_size + (g * mm1.frame_size + off - fidx * mm1.frame_size) := by
        omega
      have := frame_cell_inj hfs hoff
        (show g * mm1.frame_size + off - fidx * mm1.frame_size < mm1.frame_size by omega) hr
      exact hg this.1
  have hslice_out : ∀ g, g ≠ fidx →
      ramSlice ram1 (g * mm1.frame_size) mm1.frame_size
        = ramSlice mm1.ram (g * mm1.frame_size) mm1.frame_size := by
    intro g hg
    rw [hram1]
    refine ramSlice_loadFrame_out _ _ _ _ _ ?_
    rcases Nat.lt_or_ge g fidx with h | h
    · left
      have : (g + 1) * mm1.frame_size ≤ fidx * mm1.frame_size :=
        Nat.mul_le_mul_right _ (by omega)
      rw [Nat.add_mul, Nat.one_mul] at this
      omega
    · right
      have hgf : fidx < g := by omega
      have : (fidx + 1) * mm1.frame_size ≤ g * mm1.frame_size :=
        Nat.mul_le_mul_right _ (by omega)
      rw [Nat.add_mul, Nat.one_mul] at this
      omega
  refine ⟨⟨hfs, ?_, ?_, ?_, ?_, hnd2, hlen2, ?_, ?_, ?_⟩, ?_, hramget_in⟩
  · show (mm1.frame_table.set fidx nfte).length = mm1.total_frames
    rw [hftlen2, hft]
  · show ram1.length = mm1.total_frames * mm1.frame_size
    rw [hram1, loadFrame_length, hram]
  · rw [updatePid_map_pid _ _ _ hfp]
    exact hpid
  · intro q' hq'
    rcases hmemchar q' hq' with ⟨h1, _⟩ | h1
    · exact hptnd q' h1
    · rw [h1]
      exact akeys_nodup_aset _ _ _ (hptnd p1 hp1mem)
  · -- hocc
    intro i hi' ho'
    rw [show ({ mm1 with
        backing_store := bs2, ram := ram1,
        pages_paged_in := mm1.pages_paged_in + 1,
        frame_table := (mm1.frame_table.set fidx nfte) } : MM).frame_table
      = mm1.frame_table.set fidx nfte from rfl, hgetD2 i] at ho' ⊢
    by_cases hvi : fidx = i
    · rw [if_pos hvi] at ho' ⊢
      refine ⟨f2 p1, ?_, npte, ?_, rfl, ?_⟩
      · show findProcPid (updatePid procs1 pid f2) nfte.pid = some (f2 p1)
        rw [show nfte.pid = pid from rfl]
        exact findProcPid_updatePid_self _ hfp hfp1
      · show alookup (aset p1.page_table (pageN : Int) npte) nfte.page_num = some npte
        rw [show nfte.page_num = (pageN : Int) from rfl]
        exact alookup_aset_self _ _ _
      · show npte.frame_num = (i : Int)
        rw [hnpte, ← hvi]
    · rw [if_neg hvi] at ho' ⊢
      obtain ⟨q2, hq21, pte2, hq22, hq23, hq24⟩ := hocc i
        (show i < mm1.total_frames from hi') ho'
      by_cases hqp : (mm1.frame_table.getD i default).pid = pid
      · rw [hqp] at hq21
        rw [hfp1] at hq21
        injection hq21 with hq21
        subst hq21
        have hkne : (mm1.frame_table.getD i default).page_num ≠ (pageN : Int) := by
          intro hcon
          rw [hcon] at hq22
          exact absurd hq23 (by rw [hPIp1 p1 hfp1 pte2 hq22]; intro hc; cases hc)
        refine ⟨f2 p1, ?_, pte2, ?_, hq23, hq24⟩
        · rw [hqp]
          exact findProcPid_updatePid_self _ hfp hfp1
        · show alookup (aset p1.page_table (pageN : Int) npte)
            (mm1.frame_table.getD i default).page_num = some pte2
          rw [alookup_aset_ne _ _ _ _ hkne]
          exact hq22
      · rw [findProcPid_updatePid_ne _ hfp hqp]
        exact ⟨q2, hq21, pte2, hq22, hq23, hq24⟩
  · -- hvalid
    intro q' hq' e he hv'
    rw [show ({ mm1 with
        backing_store := bs2, ram := ram1,
        pages_paged_in := mm1.pages_paged_in + 1,
        frame_table := (mm1.frame_table.set fidx nfte) } : MM).frame_table
      = mm1.frame_table.set fidx nfte from rfl]
    rw [show ({ mm1 with
        backing_store := bs2, ram := ram1,
        pages_paged_in := mm1.pages_paged_in + 1,
        frame_table := (mm1.frame_table.set fidx nfte) } : MM).total_frames
      = mm1.total_frames from rfl]
    rcases hmemchar q' hq' with ⟨h1, h2⟩ | h1
    · obtain ⟨hb, hrec⟩ := hvalid q' h1 e he hv'
      have hne := hfr_ne q' e h1 he hv'
      refine ⟨hb, ?_⟩
      rw [hgetD2, if_neg (fun hcon => hne hcon.symm)]
      exact hrec
    · subst h1
      have he2 : e ∈ aset p1.page_table (pageN : Int) npte := he
      rcases (mem_aset_iff (hptnd p1 hp1mem) _ _ _).mp he2 with h3 | ⟨h3, h4⟩
      · rw [h3]
        refine ⟨?_, ?_⟩
        · show ((pageN : Int), npte).2.frame_num.toNat < mm1.total_frames
          rw [hnpte]
          show ((fidx : Int)).toNat < mm1.total_frames
          rw [toNat_ofNat_eq]
          omega
        rw [hnpte]
        show (mm1.frame_table.set fidx nfte).getD ((fidx : Int)).toNat default
          = { pid := (f2 p1).pid, page_num := ((pageN : Int), npte).1, occupied := true }
        rw [toNat_ofNat_eq, hgetD2, if_pos rfl, hnfte]
        rw [show (f2 p1).pid = p1.pid from rfl, hp1pid]
      · obtain ⟨hb, hrec⟩ := hvalid p1 hp1mem e h3 hv'
        have hne := hfr_ne p1 e hp1mem h3 hv'
        refine ⟨hb, ?_⟩
        rw [hgetD2, if_neg (fun hcon => hne hcon.symm)]
        rw [show (f2 p1).pid = p1.pid from rfl]
        exact hrec
  · -- hclean
    intro q' hq' e he hv' hd'
    rw [show ({ mm1 with
        backing_store := bs2, ram := ram1,
        pages_paged_in := mm1.pages_paged_in + 1,
        frame_table := (mm1.frame_table.set fidx nfte) } : MM).backing_store = bs2 from rfl]
    rw [show ({ mm1 with
        backing_store := bs2, ram := ram1,
        pages_paged_in := mm1.pages_paged_in + 1,
        frame_table := (mm1.frame_table.set fidx nfte) } : MM).ram = ram1 from rfl]
    rw [show ({ mm1 with
        backing_store := bs2, ram := ram1,
        pages_paged_in := mm1.pages_paged_in + 1,
        frame_table := (mm1.frame_table.set fidx nfte) } : MM).frame_size
      = mm1.frame_size from rfl]
    rcases hmemchar q' hq' with ⟨h1, h2⟩ | h1
    · have hkne : (q'.pid, e.1) ≠ (pid, (pageN : Int)) := by
        intro hcon
        injection hcon with hc1 hc2
        exact h2 hc1
      rw [hother2 _ hkne]
      rw [hslice_out _ (hfr_ne q' e h1 he hv')]
      exact hclean q' h1 e he hv' hd'
    · subst h1
      have he2 : e ∈ aset p1.page_table (pageN : Int) npte := he
      rcases (mem_aset_iff (hptnd p1 hp1mem) _ _ _).mp he2 with h3 | ⟨h3, h4⟩
      · rw [h3]
        show alookup bs2 ((f2 p1).pid, (pageN : Int)) = some (ramSlice ram1
          (npte.frame_num.toNat * mm1.frame_size) mm1.frame_size)
        rw [show (f2 p1).pid = p1.pid from rfl, hp1pid, hkey2, hnpte]
        show some pd = some (ramSlice ram1 (((fidx : Int)).toNat * mm1.frame_size)
          mm1.frame_size)
        rw [toNat_ofNat_eq, hram1, ramSlice_loadFrame _ _ _ _ hpdlen hbound]
      · have hkne : ((f2 p1).pid, e.1) ≠ (pid, (pageN : Int)) := by
          intro hcon
          injection hcon with hc1 hc2
          exact h4 hc2
        rw [hother2 _ hkne]
        rw [hslice_out _ (hfr_ne p1 e hp1mem h3 hv')]
        rw [show (f2 p1).pid = p1.pid from rfl]
        exact hclean p1 hp1mem e h3 hv' hd'
  · -- vcontent
    intro pid0 addr0
    unfold vcontent
    simp only []
    have hoff : addr0 % mm1.frame_size < mm1.frame_size := Nat.mod_lt _ hfs
    by_cases hpid0 : pid0 = pid
    · subst hpid0
      rw [findProcPid_updatePid_self _ hfp hfp1, hfp1]
      simp only []
      by_cases hpg : ((addr0 / mm1.frame_size : Nat) : Int) = (pageN : Int)
      · rw [hpg, alookup_aset_self]
        simp only []
        rw [if_pos trivial]
        rcases hlk : alookup p1.page_table (pageN : Int) with _ | e0
        · simp only []
          rw [toNat_ofNat_eq fidx]
          rw [hramget_in _ hoff, hpdfall _ hoff]
        · simp only []
          rw [if_neg (by rw [hPIp1 p1 hfp1 e0 hlk]; intro hcon; cases hcon)]
          rw [toNat_ofNat_eq fidx]
          rw [hramget_in _ hoff, hpdfall _ hoff]
      · rw [alookup_aset_ne _ _ _ _ hpg]
        rcases hlk : alookup p1.page_table ((addr0 / mm1.frame_size : Nat) : Int) with _ | e0
        · simp only []
          rw [hother2 _ (fun hcon => hpg (congrArg Prod.snd hcon))]
        · simp only []
          by_cases hval0 : e0.valid = true
          · rw [if_pos hval0, if_pos hval0]
            rw [hramget_out _ _ (hfr_ne p1 (_, e0) hp1mem (alookup_mem hlk) hval0) hoff]
          · rw [if_neg hval0, if_neg hval0]
            rw [hother2 _ (fun hcon => hpg (congrArg Prod.snd hcon))]
    · rw [findProcPid_updatePid_ne _ hfp hpid0]
      rcases hq0 : findProcPid procs1 pid0 with _ | q0
      · simp only []
      · simp only []
        rcases hlk : alookup q0.page_table ((addr0 / mm1.frame_size : Nat) : Int) with _ | e0
        · simp only []
          rw [hother2 _ (fun hcon => hpid0 (congrArg Prod.fst hcon))]
        · simp only []
          by_cases hval0 : e0.valid = true
          · rw [if_pos hval0, if_pos hval0]
            rw [hramget_out _ _
              (hfr_ne q0 (_, e0) (findProcPid_mem hq0).1 (alookup_mem hlk) hval0) hoff]
          · rw [if_neg hval0, if_neg hval0]
            rw [hother2 _ (fun hcon => hpid0 (congrArg Prod.fst hcon))]

theorem handlePageFault_master {procs : List Process} {mm : MM} (hI : Inv procs mm)
    (htf : 0 < mm.total_frames) (tick : Nat) (pid : Int) (pageN : Nat)
    (hfp0 : (findProcPid procs pid).isSome)
    (hPI : PageInvalid procs pid (pageN : Int)) :
    ∃ procs3 mm2, handlePageFault tick procs mm pid (pageN : Int) = some (procs3, mm2)
    ∧ Inv procs3 mm2
    ∧ (∀ pid0 addr0, vcontent procs3 mm2 pid0 addr0 = vcontent procs mm pid0 addr0)
    ∧ mm2.total_frames = mm.total_frames
    ∧ mm2.frame_size = mm.frame_size
    ∧ procs3.map Process.pid = procs.map Process.pid
    ∧ ∃ p3, findProcPid procs3 pid = some p3
        ∧ ∃ pteF, alookup p3.page_table (pageN : Int) = some pteF
          ∧ pteF.valid = true ∧ pteF.dirty = false
          ∧ ∀ off, off < mm.frame_size →
              ramGet mm2.ram (pteF.frame_num.toNat * mm.frame_size + off)
                = vcontent procs mm pid (pageN * mm.frame_size + off) := by
  obtain ⟨fidx, procs1, mm1, ha, hI1, hvc1, htf1, hfs1, hflt0, hfocc, hmap1, hPI1⟩ :=
    allocateFrame_master hI htf
  have hflt : fidx < mm1.total_frames := by rw [htf1]; exact hflt0
  have hfp1s : (findProcPid procs1 pid).isSome := by
    rw [findProcPid_isSome_iff, hmap1]
    exact (findProcPid_isSome_iff procs pid).mp hfp0
  rcases hfp1 : findProcPid procs1 pid with _ | p1
  · rw [hfp1] at hfp1s
    simp at hfp1s
  · have hPIp1 : PageInvalid procs1 pid (pageN : Int) := hPI1 _ _ hPI
    have hfs1p : 0 < mm1.frame_size := by rw [hfs1]; exact hI.hfs
    have hvred : ∀ off, off < mm1.frame_size →
        vcontent procs1 mm1 pid (pageN * mm1.frame_size + off)
          = ((alookup mm1.backing_store (pid, (pageN : Int))).getD
              (List.replicate mm1.frame_size 0)).getD off 0 := by
      intro off hoff
      obtain ⟨hdivv, hmodv⟩ := cell_addr_page mm1.frame_size pageN off hfs1p hoff
      unfold vcontent
      rw [hfp1]
      simp only [hdivv, hmodv]
      rcases hlk : alookup p1.page_table ((pageN : Nat) : Int) with _ | e0
      · simp only []
      · simp only []
        rw [if_neg (by rw [hPIp1 p1 hfp1 e0 hlk]; intro hcon; cases hcon)]
    have hassemble : ∀ (bs2 : List ((Int × Int) × List Int)) (pd : List Int),
        (akeys bs2).Nodup →
        (∀ e ∈ bs2, (e.2).length = mm1.frame_size) →
        alookup bs2 (pid, (pageN : Int)) = some pd →
        (∀ k, k ≠ (pid, (pageN : Int)) → alookup bs2 k = alookup mm1.backing_store k) →
        pd.length = mm1.frame_size →
        (∀ off, off < mm1.frame_size → pd.getD off 0
          = ((alookup mm1.backing_store (pid, (pageN : Int))).getD
              (List.replicate mm1.frame_size 0)).getD off 0) →
        handlePageFault tick procs mm pid (pageN : Int)
          = some (updatePid procs1 pid fun q => { q with page_table := (aset q.page_table
              (pageN : Int)
              { frame_num := (fidx : Int), valid := true, dirty := false, last_accessed := tick }) },
            { mm1 with
                backing_store := bs2,
                ram := loadFrame mm1.ram (fidx * mm1.frame_size) mm1.frame_size pd,
                pages_paged_in := mm1.pages_paged_in + 1,
                frame_table := (mm1.frame_table.set fidx
                  { pid := pid, page_num := (pageN : Int), occupied := true }) }) →
        (∃ procs3 mm2, handlePageFault tick procs mm pid (pageN : Int) = some (procs3, mm2)
          ∧ Inv procs3 mm2
          ∧ (∀ pid0 addr0, vcontent procs3 mm2 pid0 addr0 = vcontent procs mm pid0 addr0)
          ∧ mm2.total_frames = mm.total_frames
          ∧ mm2.frame_size = mm.frame_size
          ∧ procs3.map Process.pid = procs.map Process.pid
          ∧ ∃ p3, findProcPid procs3 pid = some p3
              ∧ ∃ pteF, alookup p3.page_table (pageN : Int) = some pteF
                ∧ pteF.valid = true ∧ pteF.dirty = false
                ∧ ∀ off, off < mm.frame_size →
                    ramGet mm2.ram (pteF.frame_num.toNat * mm.frame_size + off)
                      = vcontent procs mm pid (pageN * mm.frame_size + off)) := by
      intro bs2 pd hnd2 hlen2 hkey2 hother2 hpdlen hpdfall heq
      obtain ⟨hInv2, hvc2, hcell2⟩ := handleFault_common hI1 hfp1 hPIp1 hflt hfocc tick
        bs2 pd hnd2 hlen2 hkey2 hother2 hpdlen hpdfall
      refine ⟨_, _, heq, hInv2,
        (fun pid0 addr0 => (hvc2 pid0 addr0).trans (hvc1 pid0 addr0)), htf1, hfs1,
        ?_, ?_⟩
      · exact (updatePid_map_pid procs1 pid
          (fun q => { q with page_table := (aset q.page_table (pageN : Int)
            { frame_num := (fidx : Int), valid := true, dirty := false, last_accessed := tick }) })
          (fun _ => rfl)).trans hmap1
      refine ⟨_, findProcPid_updatePid_self _ (fun _ => rfl) hfp1, _,
        alookup_aset_self _ _ _, rfl, rfl, ?_⟩
      intro off hoffm
      have hoff1 : off < mm1.frame_size := by rw [hfs1]; exact hoffm
      show ramGet (loadFrame mm1.ram (fidx * mm1.frame_size) mm1.frame_size pd)
        (((fidx : Int)).toNat * mm.frame_size + off)
        = vcontent procs mm pid (pageN * mm.frame_size + off)
      rw [toNat_ofNat_eq, ← hfs1]
      rw [← hvc1 pid (pageN * mm1.frame_size + off)]
      rw [hvred off hoff1]
      rw [hcell2 off hoff1]
      exact hpdfall off hoff1
    rcases hbs0 : alookup mm1.backing_store (pid, (pageN : Int)) with _ | D
    · have hkey2 : alookup (aset mm1.backing_store (pid, (pageN : Int))
          (List.replicate mm1.frame_size 0)) (pid, (pageN : Int))
          = some (List.replicate mm1.frame_size 0) := alookup_aset_self _ _ _
      refine hassemble _ _ (akeys_nodup_aset _ _ _ hI1.hbsnd) ?_ hkey2
        (fun k hk => alookup_aset_ne _ _ _ _ hk) (List.length_replicate _ _) ?_ ?_
      · intro e he
        rcases (mem_aset_iff hI1.hbsnd _ _ _).mp he with h | ⟨h, _⟩
        · rw [h]
          exact List.length_replicate _ _
        · exact hI1.hbs e h
      · intro off hoff
        rw [hbs0]
        rfl
      · simp only [handlePageFault, ha, hbs0, hkey2, Option.getD_some]
    · have hDlen : D.length = mm1.frame_size := hI1.hbs _ (alookup_mem hbs0)
      refine hassemble _ _ hI1.hbsnd hI1.hbs hbs0 (fun _ _ => rfl) hDlen ?_ ?_
      · intro off hoff
        rw [hbs0]
        rfl
      · simp only [handlePageFault, ha, hbs0, Option.getD_some]

/-- Preservation and result characterisation of the final read/write step
of access, entered with a resident (valid) page-table entry. -/
theorem accessFinish_master {procs : List Process} {mm : MM} (hI : Inv procs mm)
    {pid : Int} {pageN : Nat} {p : Process} {pte : PageTableEntry}
    (hfp : findProcPid procs pid = some p)
    (hpte : alookup p.page_table ((pageN : Nat) : Int) = some pte)
    (hval : pte.valid = true)
    (offset : Nat) (hoff : offset < mm.frame_size) (w : Bool) (value : Int) :
    Inv (accessFinish procs mm pid (pageN : Int) offset w value pte).2.1
      (accessFinish procs mm pid (pageN : Int) offset w value pte).2.2
    ∧ (accessFinish procs mm pid (pageN : Int) offset w value pte).2.2.total_frames
        = mm.total_frames
    ∧ (accessFinish procs mm pid (pageN : Int) offset w value pte).2.2.frame_size
        = mm.frame_size
    ∧ ((accessFinish procs mm pid (pageN : Int) offset w value pte).2.1.map Process.pid
        = procs.map Process.pid)
    ∧ (w = false → accessFinish procs mm pid (pageN : Int) offset w value pte
        = (.ok (ramGet mm.ram (pte.frame_num.toNat * mm.frame_size + offset)), procs, mm))
    ∧ (w = true →
        (accessFinish procs mm pid (pageN : Int) offset w value pte).1 = .ok value
        ∧ vcontent (accessFinish procs mm pid (pageN : Int) offset w value pte).2.1
            (accessFinish procs mm pid (pageN : Int) offset w value pte).2.2 pid
            (pageN * mm.frame_size + offset) = value
        ∧ (∀ pid0 addr0, (pid0 ≠ pid ∨ addr0 ≠ pageN * mm.frame_size + offset) →
            vcontent (accessFinish procs mm pid (pageN : Int) offset w value pte).2.1
              (accessFinish procs mm pid (pageN : Int) offset w value pte).2.2 pid0 addr0
              = vcontent procs mm pid0 addr0)) := by
  obtain ⟨hfs, hft, hram, hpid, hptnd, hbsnd, hbs, hocc, hvalid, hclean⟩ := hI
  rcases w with _ | _
  · refine ⟨⟨hfs, hft, hram, hpid, hptnd, hbsnd, hbs, hocc, hvalid, hclean⟩, rfl, rfl, rfl,
      fun _ => rfl, ?_⟩
    intro hcon
    cases hcon
  · have hpmem := findProcPid_mem hfp
    have hmem0 : ((pageN : Int), pte) ∈ p.page_table := alookup_mem hpte
    obtain ⟨hfb, hrec⟩ := hvalid p hpmem.1 _ hmem0 hval
    set fr : Nat := pte.frame_num.toNat with hfr
    set dpte : PageTableEntry := { pte with dirty := true } with hdpte
    set fw : Process → Process :=
      (fun q => { q with page_table := (aset q.page_table (pageN : Int) dpte) }) with hfw
    set ram2 : List Int := mm.ram.set (fr * mm.frame_size + offset) value with hram2
    have hfpw : ∀ q : Process, (fw q).pid = q.pid := fun _ => rfl
    have hphys : fr * mm.frame_size + offset < mm.ram.length := by
      rw [hram]
      exact cell_lt hfb hoff
    have heq : accessFinish procs mm pid (pageN : Int) offset true value pte
        = (.ok value, updatePid procs pid fw, { mm with ram := ram2 }) := rfl
    have hmemchar : ∀ q', q' ∈ updatePid procs pid fw →
        (q' ∈ procs ∧ q'.pid ≠ pid) ∨ q' = fw p :=
      fun q' hq' => mem_updatePid_char hpid hfp hq'
    have hfr_ne : ∀ (q : Process) (e : Int × PageTableEntry), q ∈ procs → e ∈ q.page_table →
        (e.2).valid = true → (q.pid ≠ pid ∨ e.1 ≠ (pageN : Int)) →
        (e.2).frame_num.toNat ≠ fr := by
      intro q e hq he hv hne hcon
      obtain ⟨_, hrec2⟩ := hvalid q hq e he hv
      rw [hcon] at hrec2
      have hrr := hrec2.symm.trans hrec
      rw [FrameTableEntry.mk.injEq] at hrr
      rcases hne with hne | hne
      · exact hne (hrr.1.trans hpmem.2)
      · exact hne hrr.2.1
    have hcell_ne : ∀ f2 off2, off2 < mm.frame_size →
        (f2 ≠ fr ∨ off2 ≠ offset) →
        f2 * mm.frame_size + off2 ≠ fr * mm.frame_size + offset := by
      intro f2 off2 hoff2 hne hcon
      obtain ⟨h1, h2⟩ := frame_cell_inj hfs hoff2 hoff hcon
      rcases hne with hne | hne
      · exact hne h1
      · exact hne h2
    have hget2 : ∀ j, j ≠ fr * mm.frame_size + offset → ramGet ram2 j = ramGet mm.ram j := by
      intro j hj
      rw [hram2, ramGet, ramGet, getD_set, if_neg]
      intro hcon
      exact hj hcon.1.symm
    have hslice_ne : ∀ f2, f2 ≠ fr →
        ramSlice ram2 (f2 * mm.frame_size) mm.frame_size
          = ramSlice mm.ram (f2 * mm.frame_size) mm.frame_size := by
      intro f2 hf2
      refine ramSlice_congr _ _ ?_
      intro k hk
      exact hget2 _ (hcell_ne f2 k hk (Or.inl hf2))
    rw [heq]
    refine ⟨⟨hfs, hft, by rw [show ({ mm with ram := ram2 } : MM).ram = ram2 from rfl,
        hram2, List.length_set]; exact hram, ?_, ?_, hbsnd, hbs, ?_, ?_, ?_⟩, rfl, rfl, ?_,
      (fun hcon => by cases hcon), ?_⟩
    · rw [updatePid_map_pid _ _ _ hfpw]
      exact hpid
    · intro q' hq'
      rcases hmemchar q' hq' with ⟨h1, _⟩ | h1
      · exact hptnd q' h1
      · rw [h1]
        exact akeys_nodup_aset _ _ _ (hptnd p hpmem.1)
    · -- hocc
      intro i hi ho
      obtain ⟨q2, hq21, pte2, hq22, hq23, hq24⟩ := hocc i hi ho
      by_cases hqp : (mm.frame_table.getD i default).pid = pid
      · rw [hqp] at hq21
        rw [hfp] at hq21
        injection hq21 with hq21
        subst hq21
        refine ⟨fw p, by rw [hqp]; exact findProcPid_updatePid_self _ hfpw hfp, ?_⟩
        by_cases hk : (mm.frame_table.getD i default).page_num = (pageN : Int)
        · refine ⟨dpte, ?_, by rw [hdpte]; exact hval, ?_⟩
          · show alookup (aset p.page_table (pageN : Int) dpte)
              (mm.frame_table.getD i default).page_num = some dpte
            rw [hk]
            exact alookup_aset_self _ _ _
          · rw [hk] at hq22
            rw [hpte] at hq22
            injection hq22 with hq22
            rw [hdpte, hq22]
            exact hq24
        · refine ⟨pte2, ?_, hq23, hq24⟩
          show alookup (aset p.page_table (pageN : Int) dpte)
            (mm.frame_table.getD i default).page_num = some pte2
          rw [alookup_aset_ne _ _ _ _ hk]
          exact hq22
      · rw [findProcPid_updatePid_ne _ hfpw hqp]
        exact ⟨q2, hq21, pte2, hq22, hq23, hq24⟩
    · -- hvalid
      intro q' hq' e he hv'
      rcases hmemchar q' hq' with ⟨h1, _⟩ | h1
      · exact hvalid q' h1 e he hv'
      · subst h1
        have he2 : e ∈ aset p.page_table (pageN : Int) dpte := he
        rcases (mem_aset_iff (hptnd p hpmem.1) _ _ _).mp he2 with h3 | ⟨h3, h4⟩
        · rw [h3]
          show dpte.frame_num.toNat < mm.total_frames
            ∧ mm.frame_table.getD dpte.frame_num.toNat default
              = { pid := (fw p).pid, page_num := (pageN : Int), occupied := true }
          rw [hdpte]
          exact ⟨hfb, hrec⟩
        · exact hvalid p hpmem.1 e h3 hv'
    · -- hclean
      intro q' hq' e he hv' hd'
      show alookup mm.backing_store (q'.pid, e.1)
        = some (ramSlice ram2 ((e.2).frame_num.toNat * mm.frame_size) mm.frame_size)
      rcases hmemchar q' hq' with ⟨h1, h2⟩ | h1
      · rw [hslice_ne _ (hfr_ne q' e h1 he hv' (Or.inl h2))]
        exact hclean q' h1 e he hv' hd'
      · subst h1
        have he2 : e ∈ aset p.page_table (pageN : Int) dpte := he
        rcases (mem_aset_iff (hptnd p hpmem.1) _ _ _).mp he2 with h3 | ⟨h3, h4⟩
        · rw [h3] at hd'
          rw [hdpte] at hd'
          cases hd'
        · rw [hslice_ne _ (hfr_ne p e hpmem.1 h3 hv' (Or.inr h4))]
          exact hclean p hpmem.1 e h3 hv' hd'
    · -- map pid of the result
      show (updatePid procs pid fw).map Process.pid = procs.map Process.pid
      rw [updatePid_map_pid _ _ _ hfpw]
    · -- written cell
      intro _
      refine ⟨rfl, ?_, ?_⟩
      · -- value at the written address
        unfold vcontent
        obtain ⟨hdiv, hmod⟩ := cell_addr_page mm.frame_size pageN offset hfs hoff
        rw [findProcPid_updatePid_self _ hfpw hfp]
        simp only [hdiv, hmod]
        rw [show alookup (fw p).page_table ((pageN : Nat) : Int) = some dpte from
          alookup_aset_self _ _ _]
        simp only []
        rw [if_pos (show dpte.valid = true by rw [hdpte]; exact hval)]
        rw [show dpte.frame_num.toNat = fr by rw [hdpte]]
        rw [hram2, ramGet, getD_set, if_pos ⟨rfl, hphys⟩]
      · -- all other cells
        intro pid0 addr0 hne
        unfold vcontent
        have hoff0 : addr0 % mm.frame_size < mm.frame_size := Nat.mod_lt _ hfs
        by_cases hpid0 : pid0 = pid
        · subst hpid0
          rw [findProcPid_updatePid_self _ hfpw hfp, hfp]
          simp only []
          by_cases hpg : ((addr0 / mm.frame_size : Nat) : Int) = (pageN : Int)
          · have hpgN : addr0 / mm.frame_size = pageN := by
              exact Int.natCast_inj.mp hpg
            have hoffne : addr0 % mm.frame_size ≠ offset := by
              intro hcon
              rcases hne with hne | hne
              · exact hne rfl
              · apply hne
                rw [← hpgN, ← hcon, Nat.mul_comm]
                exact (Nat.div_add_mod addr0 mm.frame_size).symm
            rw [hpg, show alookup (fw p).page_table ((pageN : Nat) : Int) = some dpte from
              alookup_aset_self _ _ _, hpte]
            simp only []
            rw [if_pos (show dpte.valid = true by rw [hdpte]; exact hval), if_pos hval]
            rw [show dpte.frame_num.toNat = fr by rw [hdpte]]
            rw [hget2 _ (hcell_ne fr (addr0 % mm.frame_size) hoff0 (Or.inr hoffne))]
          · rw [show alookup (fw p).page_table ((addr0 / mm.frame_size : Nat) : Int)
              = alookup p.page_table ((addr0 / mm.frame_size : Nat) : Int) from
              alookup_aset_ne _ _ _ _ hpg]
            rcases hlk : alookup p.page_table ((addr0 / mm.frame_size : Nat) : Int)
              with _ | e0
            · simp only []
            · simp only []
              by_cases hval0 : e0.valid = true
              · rw [if_pos hval0, if_pos hval0]
                rw [hget2 _ (hcell_ne _ _ hoff0
                  (Or.inl (hfr_ne p (_, e0) hpmem.1 (alookup_mem hlk) hval0 (Or.inr hpg))))]
              · rw [if_neg hval0, if_neg hval0]
        · rw [findProcPid_updatePid_ne _ hfpw hpid0]
          rcases hq0 : findProcPid procs pid0 with _ | q0
          · simp only []
          · simp only []
            rcases hlk : alookup q0.page_table ((addr0 / mm.frame_size : Nat) : Int)
              with _ | e0
            · simp only []
            · simp only []
              by_cases hval0 : e0.valid = true
              · rw [if_pos hval0, if_pos hval0]
                have hq0pid : q0.pid ≠ pid := by
                  rw [(findProcPid_mem hq0).2]
                  exact hpid0
                rw [hget2 _ (hcell_ne _ _ hoff0
                  (Or.inl (hfr_ne q0 (_, e0) (findProcPid_mem hq0).1 (alookup_mem hlk)
                    hval0 (Or.inl hq0pid))))]
              · rw [if_neg hval0, if_neg hval0]

theorem handlePageFault_none_of_tf0 (tick : Nat) (procs : List Process) (mm : MM)
    (pid page : Int) (h : mm.total_frames = 0) :
    handlePageFault tick procs mm pid page = none := by
  unfold handlePageFault allocateFrame evictVictim evictScan
  rw [h]
  simp only [List.range_zero, List.find?_nil, List.foldl_nil]
  rw [if_pos trivial]

theorem accessFinish_getD_eq (procs3 : List Process) (pid pg : Int) (p3 : Process)
    (pteF : PageTableEntry) (hfp3 : findProcPid procs3 pid = some p3)
    (hpteF : alookup p3.page_table pg = some pteF) :
    (alookup ((findProcPid procs3 pid).getD default).page_table pg).getD default = pteF := by
  rw [hfp3]
  show (alookup p3.page_table pg).getD default = pteF
  rw [hpteF]
  rfl

/-- Master lemma for MemoryManager::access: it preserves the invariant,
the manager's geometry and the pid layout; it changes no virtual memory
cell other than the one a successful write targets; a successful write
stores exactly the given value there, and a successful read returns the
cell's prior content. -/
theorem access_master (tick : Nat) (procs : List Process) (mm : MM) (pid : Int)
    (addr : Nat) (w : Bool) (v : Int) (hI : Inv procs mm) :
    Inv (access tick procs mm pid addr w v).2.1 (access tick procs mm pid addr w v).2.2
    ∧ (access tick procs mm pid addr w v).2.2.total_frames = mm.total_frames
    ∧ (access tick procs mm pid addr w v).2.2.frame_size = mm.frame_size
    ∧ ((access tick procs mm pid addr w v).2.1.map Process.pid = procs.map Process.pid)
    ∧ (∀ pid0 addr0, (pid0 ≠ pid ∨ addr0 ≠ addr ∨ w = false) →
        vcontent (access tick procs mm pid addr w v).2.1
          (access tick procs mm pid addr w v).2.2 pid0 addr0 = vcontent procs mm pid0 addr0)
    ∧ (∀ r, (access tick procs mm pid addr w v).1 = .ok r →
        (w = true → r = v ∧ vcontent (access tick procs mm pid addr w v).2.1
            (access tick procs mm pid addr w v).2.2 pid addr = v)
        ∧ (w = false → r = vcontent procs mm pid addr)) := by
  have hoff : addr % mm.frame_size < mm.frame_size := Nat.mod_lt _ hI.hfs
  have haddr : (addr / mm.frame_size) * mm.frame_size + addr % mm.frame_size = addr := by
    rw [Nat.mul_comm]
    exact Nat.div_add_mod addr mm.frame_size
  rcases hfp : findProcPid procs pid with _ | proc
  · rw [access_eq_noProc tick procs mm pid addr w v hfp]
    exact ⟨hI, rfl, rfl, rfl, fun _ _ _ => rfl, fun r hr => by cases hr⟩
  · have hpmem := findProcPid_mem hfp
    rw [access_eq_found tick procs mm pid addr w v proc hfp]
    simp only [accessFound]
    by_cases hsg : (addr : Int) ≥ proc.memory_required
    · rw [if_pos hsg]
      exact ⟨hI, rfl, rfl, rfl, fun _ _ _ => rfl, fun r hr => by cases hr⟩
    · rw [if_neg hsg]
      set pageI : Int := ((addr / mm.frame_size : Nat) : Int) with hpageI
      set pt1 := if (alookup proc.page_table pageI).isNone then aset proc.page_table pageI {}
        else proc.page_table with hpt1
      set pte : PageTableEntry :=
        { (alookup pt1 pageI).getD default with last_accessed := tick } with hpte
      set pt2 := aset pt1 pageI pte with hpt2
      set procs2 := updatePid procs pid (fun q => { q with page_table := pt2 }) with hprocs2
      have heff : alookup pt1 pageI = some ((alookup proc.page_table pageI).getD default) := by
        rw [hpt1]
        exact ensure_alookup _ _
      have hself : alookup pt2 pageI = some pte := by
        rw [hpt2]
        exact alookup_aset_self _ _ _
      have hne' : ∀ k, k ≠ pageI → alookup pt2 k = alookup proc.page_table k := by
        intro k hk
        rw [hpt2, alookup_aset_ne _ _ _ _ hk, hpt1]
        exact ensure_alookup_ne _ _ _ hk
      have hnd2 : (akeys pt2).Nodup := by
        rw [hpt2]
        refine akeys_nodup_aset _ _ _ ?_
        rw [hpt1]
        exact ensure_nodup _ _ (hI.hptnd proc hpmem.1)
      have hagg : pte.valid = ((alookup proc.page_table pageI).getD default).valid
          ∧ pte.dirty = ((alookup proc.page_table pageI).getD default).dirty
          ∧ pte.frame_num = ((alookup proc.page_table pageI).getD default).frame_num := by
        rw [hpte, heff]
        exact ⟨rfl, rfl, rfl⟩
      have h1 : ∀ k e1, alookup proc.page_table k = some e1 →
          ∃ e2, alookup pt2 k = some e2 ∧ e2.valid = e1.valid ∧ e2.dirty = e1.dirty
            ∧ e2.frame_num = e1.frame_num := by
        intro k e1 hk
        by_cases hkp : k = pageI
        · subst hkp
          refine ⟨pte, hself, ?_, ?_, ?_⟩ <;> (rw [hpte, heff, hk]; rfl)
        · exact ⟨e1, (hne' k hkp).trans hk, rfl, rfl, rfl⟩
      have h2 : ∀ k e2, alookup pt2 k = some e2 → alookup proc.page_table k = none →
          e2.valid = false := by
        intro k e2 hk2 hk0
        by_cases hkp : k = pageI
        · subst hkp
          rw [hself] at hk2
          injection hk2 with hk2
          subst hk2
          rw [hpte, heff, hk0]
          rfl
        · rw [hne' k hkp, hk0] at hk2
          cases hk2
      have hI2 : Inv procs2 mm := by
        rw [hprocs2]
        exact ptEdit_inv hI hfp pt2 hnd2 h1 h2
      have hvc2 : ∀ pid0 addr0, vcontent procs2 mm pid0 addr0 = vcontent procs mm pid0 addr0 := by
        intro pid0 addr0
        rw [hprocs2]
        exact ptEdit_vcontent hfp pt2 h1 h2 pid0 addr0
      have hmap2 : procs2.map Process.pid = procs.map Process.pid := by
        rw [hprocs2]
        exact updatePid_map_pid _ _ _ (fun _ => rfl)
      have hfp2 : findProcPid procs2 pid = some { proc with page_table := pt2 } := by
        rw [hprocs2]
        exact findProcPid_updatePid_self _ (fun _ => rfl) hfp
      by_cases hvld : pte.valid = true
      · -- resident page
        rw [if_neg (show ¬((!pte.valid) = true) by rw [hvld]; decide)]
        rw [hpageI]
        have hpteX : alookup ({ proc with page_table := pt2 } : Process).page_table
            ((((addr / mm.frame_size : Nat)) : Nat) : Int) = some pte := hself
        obtain ⟨hInvF, htfF, hfsF, hmapF, hreadF, hwriteF⟩ :=
          accessFinish_master hI2 hfp2 hpteX hvld (addr % mm.frame_size) hoff w v
        have hvread : ramGet mm.ram (pte.frame_num.toNat * mm.frame_size + addr % mm.frame_size)
            = vcontent procs mm pid addr := by
          rcases hlk : alookup proc.page_table pageI with _ | e0
          · exfalso
            rw [hlk] at hagg
            rw [hagg.1] at hvld
            cases hvld
          · rw [hlk] at hagg
            simp only [Option.getD_some] at hagg
            unfold vcontent
            rw [hfp]
            rw [hpageI] at hlk
            simp only [hlk]
            rw [if_pos (hagg.1.symm.trans hvld)]
            rw [hagg.2.2]
        refine ⟨hInvF, htfF, hfsF, hmapF.trans hmap2, ?_, ?_⟩
        · intro pid0 addr0 hne
          by_cases hw : w = true
          · have hne2 : pid0 ≠ pid ∨ addr0 ≠ (addr / mm.frame_size) * mm.frame_size
                + addr % mm.frame_size := by
              rw [haddr]
              rcases hne with h | h | h
              · exact Or.inl h
              · exact Or.inr h
              · rw [hw] at h
                cases h
            exact ((hwriteF hw).2.2 pid0 addr0 hne2).trans (hvc2 pid0 addr0)
          · have hw2 : w = false := by
              cases w
              · rfl
              · exact absurd rfl hw
            rw [hreadF hw2]
            exact hvc2 pid0 addr0
        · intro r hr
          constructor
          · intro hw
            subst hw
            obtain ⟨hok, hcell, _⟩ := hwriteF rfl
            rw [hok] at hr
            injection hr with hr
            refine ⟨hr.symm, ?_⟩
            rw [haddr] at hcell
            exact hcell
          · intro hw
            subst hw
            rw [hreadF rfl] at hr
            injection hr with hr
            rw [← hr]
            exact hvread
      · -- page fault
        have hfalse : pte.valid = false := by
          cases hx : pte.valid
          · rfl
          · exact absurd hx hvld
        rw [if_pos (show (!pte.valid) = true by rw [hfalse]; decide)]
        have hPI2 : PageInvalid procs2 pid pageI := by
          intro q hq e he
          rw [hfp2] at hq
          injection hq with hq
          subst hq
          rw [show ({ proc with page_table := pt2 } : Process).page_table = pt2 from rfl] at he
          rw [hself] at he
          injection he with he
          subst he
          exact hfalse
        rcases hpf : handlePageFault tick procs2 mm pid pageI with _ | ⟨procs3, mm1⟩
        · refine ⟨hI2, rfl, rfl, hmap2, fun pid0 addr0 _ => hvc2 pid0 addr0,
            fun r hr => by cases hr⟩
        · have htfpos : 0 < mm.total_frames := by
            by_contra hcon
            rw [handlePageFault_none_of_tf0 tick procs2 mm pid pageI (by omega)] at hpf
            cases hpf
          obtain ⟨procs3x, mm1x, hpfx, hInv3, hvc3, htf3, hfs3, hmap3, p3, hfp3, pteF,
              hpteF, hvalF, hdirF, hcellF⟩ :=
            handlePageFault_master hI2 htfpos tick pid (addr / mm.frame_size)
              (by rw [hfp2]; rfl) hPI2
          rw [hpageI] at hpf
          rw [hpfx] at hpf
          injection hpf with h12
          injection h12 with ha hb
          subst ha
          subst hb
          simp only [hpageI]
          rw [accessFinish_getD_eq procs3x pid (((addr / mm.frame_size : Nat)) : Int) p3 pteF
            hfp3 hpteF]
          have hoff1 : addr % mm.frame_size < mm1x.frame_size := by
            rw [hfs3]
            exact hoff
          obtain ⟨hInvF, htfF, hfsF, hmapF, hreadF, hwriteF⟩ :=
            accessFinish_master hInv3 hfp3 hpteF hvalF (addr % mm.frame_size) hoff1 w v
          refine ⟨hInvF, htfF.trans htf3, hfsF.trans hfs3,
            hmapF.trans (hmap3.trans hmap2), ?_, ?_⟩
          · intro pid0 addr0 hne
            by_cases hw : w = true
            · have hne2 : pid0 ≠ pid ∨ addr0 ≠ (addr / mm.frame_size) * mm1x.frame_size
                  + addr % mm.frame_size := by
                rw [hfs3, haddr]
                rcases hne with h | h | h
                · exact Or.inl h
                · exact Or.inr h
                · rw [hw] at h
                  cases h
              exact ((hwriteF hw).2.2 pid0 addr0 hne2).trans
                ((hvc3 pid0 addr0).trans (hvc2 pid0 addr0))
            · have hw2 : w = false := by
                cases w
                · rfl
                · exact absurd rfl hw
              rw [hreadF hw2]
              exact (hvc3 pid0 addr0).trans (hvc2 pid0 addr0)
          · intro r hr
            constructor
            · intro hw
              subst hw
              obtain ⟨hok, hcell, _⟩ := hwriteF rfl
              rw [hok] at hr
              injection hr with hr
              refine ⟨hr.symm, ?_⟩
              rw [hfs3, haddr] at hcell
              exact hcell
            · intro hw
              subst hw
              rw [hreadF rfl] at hr
              injection hr with hr
              rw [← hr]
              have hcc := hcellF (addr % mm.frame_size) hoff
              rw [haddr] at hcc
              rw [hfs3]
              rw [hcc]
              exact hvc2 pid addr

theorem reachable_inv {procs : List Process} {mm : MM} (h : Reachable procs mm) :
    Inv procs mm := by
  induction h with
  | init tf fs hfs => exact Inv_init tf fs hfs
  | create p n h hfresh ih => exact Inv_create ih p n hfresh
  | step tick pid addr w v h ih => exact (access_master tick _ _ pid addr w v ih).1

/-- C2.  In every state reachable by memory-manager operations, frame
table and page tables are mutually consistent: frame i is occupied
exactly when the process recorded in frame_table[i] has a valid
page-table entry for the recorded page whose frame_num is i, and every
valid page-table entry of every process points to an in-range frame
whose frame-table record names exactly that pid and page. -/
theorem C2_frame_page_consistency {procs : List Process} {mm : MM}
    (hreach : Reachable procs mm) :
    (∀ i, i < mm.total_frames →
      ((mm.frame_table.getD i default).occupied = true ↔
        ∃ p, findProcPid procs (mm.frame_table.getD i default).pid = some p ∧
          ∃ pte, alookup p.page_table (mm.frame_table.getD i default).page_num = some pte
            ∧ pte.valid = true ∧ pte.frame_num = (i : Int)))
    ∧ (∀ p ∈ procs, ∀ e ∈ p.page_table, (e.2).valid = true →
        (e.2).frame_num.toNat < mm.total_frames
        ∧ mm.frame_table.getD (e.2).frame_num.toNat default
          = { pid := p.pid, page_num := e.1, occupied := true }) := by
  have hI := reachable_inv hreach
  refine ⟨?_, hI.hvalid⟩
  intro i hi
  constructor
  · exact hI.hocc i hi
  · rintro ⟨p, hp, pte, hpte, hval, hfn⟩
    have hmem := findProcPid_mem hp
    have hmem2 : ((mm.frame_table.getD i default).page_num, pte) ∈ p.page_table :=
      alookup_mem hpte
    obtain ⟨hlt, hfteq⟩ := hI.hvalid p hmem.1 _ hmem2 hval
    have htn : pte.frame_num.toNat = i := by rw [hfn]; exact Int.toNat_ofNat i
    rw [htn] at hfteq
    rw [hfteq]

/-- Concrete witness for C2: one frame, one process, one write access. -/
theorem C2_frame_page_consistency_witness :
    Reachable (access 0 [initializePageTable { pid := 1, memory_required := 8 } 2]
        (MM.init 1 4) 1 0 true 7).2.1
      (access 0 [initializePageTable { pid := 1, memory_required := 8 } 2]
        (MM.init 1 4) 1 0 true 7).2.2
    ∧ ((∀ i, i < (access 0 [initializePageTable { pid := 1, memory_required := 8 } 2]
          (MM.init 1 4) 1 0 true 7).2.2.total_frames →
        ((((access 0 [initializePageTable { pid := 1, memory_required := 8 } 2]
            (MM.init 1 4) 1 0 true 7).2.2.frame_table.getD i default).occupied = true ↔
          ∃ p, findProcPid (access 0 [initializePageTable { pid := 1, memory_required := 8 } 2]
              (MM.init 1 4) 1 0 true 7).2.1
              (((access 0 [initializePageTable { pid := 1, memory_required := 8 } 2]
                (MM.init 1 4) 1 0 true 7).2.2.frame_table.getD i default).pid) = some p ∧
            ∃ pte, alookup p.page_table
                (((access 0 [initializePageTable { pid := 1, memory_required := 8 } 2]
                  (MM.init 1 4) 1 0 true 7).2.2.frame_table.getD i default).page_num)
                = some pte ∧ pte.valid = true ∧ pte.frame_num = (i : Int))))
      ∧ (∀ p ∈ (access 0 [initializePageTable { pid := 1, memory_required := 8 } 2]
            (MM.init 1 4) 1 0 true 7).2.1, ∀ e ∈ p.page_table, (e.2).valid = true →
          (e.2).frame_num.toNat < (access 0 [initializePageTable
              { pid := 1, memory_required := 8 } 2] (MM.init 1 4) 1 0 true 7).2.2.total_frames
          ∧ (access 0 [initializePageTable { pid := 1, memory_required := 8 } 2]
              (MM.init 1 4) 1 0 true 7).2.2.frame_table.getD (e.2).frame_num.toNat default
            = { pid := p.pid, page_num := e.1, occupied := true })) :=
  ⟨Reachable.step 0 1 0 true 7 (Reachable.create { pid := 1, memory_required := 8 } 2
      (Reachable.init 1 4 (by decide)) (by decide)),
    C2_frame_page_consistency (Reachable.step 0 1 0 true 7
      (Reachable.create { pid := 1, memory_required := 8 } 2
        (Reachable.init 1 4 (by decide)) (by decide)))⟩

/-! ## C1: write/read roundtrip across arbitrary intervening operations -/

/-- A memory-manager operation: an access on behalf of any process, or
the creation of a process (initializePageTable on a fresh pid, as
screen -s and the batch generator do). -/
inductive MOp where
  | acc (tick : Nat) (pid : Int) (addr : Nat) (w : Bool) (v : Int)
  | create (p : Process) (n : Nat)

/-- Run one operation on a (process list, memory manager) state.  A
create whose pid already exists is a no-op, matching the emulator where
pids are handed out by nextPID++ and never repeat. -/
def runOp (s : List Process × MM) : MOp → List Process × MM
  | .acc tick pid addr w v => (access tick s.1 s.2 pid addr w v).2
  | .create p n =>
      if p.pid ∈ s.1.map Process.pid then s else (s.1 ++ [initializePageTable p n], s.2)

def runOps (s : List Process × MM) (ops : List MOp) : List Process × MM :=
  ops.foldl runOp s

/-- Does the operation write to virtual cell (pid, addr)? -/
def MOp.writesCell (pid : Int) (addr : Nat) : MOp → Bool
  | .acc _ pid0 addr0 w _ => w && pid0 == pid && addr0 == addr
  | .create _ _ => false

theorem runOps_preserve {pid : Int} {addr : Nat} {B : Int} : ∀ (ops : List MOp),
    (∀ op ∈ ops, MOp.writesCell pid addr op = false) →
    ∀ s : List Process × MM, Inv s.1 s.2 → pid ∈ s.1.map Process.pid →
      vcontent s.1 s.2 pid addr = B →
      Inv (runOps s ops).1 (runOps s ops).2 ∧ pid ∈ (runOps s ops).1.map Process.pid
        ∧ vcontent (runOps s ops).1 (runOps s ops).2 pid addr = B := by
  intro ops
  induction ops with
  | nil =>
    intro _ s h1 h2 h3
    exact ⟨h1, h2, h3⟩
  | cons op rest ih =>
    intro hops s h1 h2 h3
    have hop := hops op (List.mem_cons_self _ _)
    have hrest : ∀ op ∈ rest, MOp.writesCell pid addr op = false :=
      fun o ho => hops o (List.mem_cons_of_mem _ ho)
    have hstep : Inv (runOp s op).1 (runOp s op).2 ∧ pid ∈ (runOp s op).1.map Process.pid
        ∧ vcontent (runOp s op).1 (runOp s op).2 pid addr = B := by
      rcases op with ⟨tick0, pid0, addr0, w0, v0⟩ | ⟨p, n⟩
      · obtain ⟨hIn, _, _, hmapn, hvcn, _⟩ := access_master tick0 s.1 s.2 pid0 addr0 w0 v0 h1
        have hcase : pid ≠ pid0 ∨ addr ≠ addr0 ∨ w0 = false := by
          by_cases hw : w0 = true
          · by_cases hp : pid0 = pid
            · by_cases ha : addr0 = addr
              · exfalso
                rw [hw, hp, ha] at hop
                simp [MOp.writesCell] at hop
              · exact Or.inr (Or.inl (fun hc => ha hc.symm))
            · exact Or.inl (fun hc => hp hc.symm)
          · refine Or.inr (Or.inr ?_)
            cases hx : w0
            · rfl
            · exact absurd hx hw
        refine ⟨hIn, ?_, (hvcn pid addr hcase).trans h3⟩
        show pid ∈ ((access tick0 s.1 s.2 pid0 addr0 w0 v0).2.1).map Process.pid
        rw [hmapn]
        exact h2
      · by_cases hmem : p.pid ∈ s.1.map Process.pid
        · simp only [runOp, if_pos hmem]
          exact ⟨h1, h2, h3⟩
        · simp only [runOp, if_neg hmem]
          have hq : (findProcPid s.1 pid).isSome := (findProcPid_isSome_iff s.1 pid).mpr h2
          rcases hfq : findProcPid s.1 pid with _ | q
          · rw [hfq] at hq
            cases hq
          · refine ⟨Inv_create h1 p n hmem, ?_, ?_⟩
            · rw [List.map_append]
              exact List.mem_append_left _ h2
            · rw [vcontent_create hfq p n addr]
              exact h3
    exact ih hrest (runOp s op) hstep.1 hstep.2.1 hstep.2.2

/-- C1.  Starting from any reachable state, a successful write of B to
virtual address addr of process pid, followed by any sequence of
operations none of which writes that cell (accesses by any process to
any other cell, including ones that evict the written page and fault it
back in, and process creations), followed by a successful read of the
same address, returns exactly B.  The write's own successful result also
echoes B. -/
theorem C1_write_read_roundtrip {procs : List Process} {mm : MM}
    (hreach : Reachable procs mm) (tick1 tick2 : Nat) (pid : Int) (addr : Nat)
    (B rw0 rr : Int) (ops : List MOp)
    (hops : ∀ op ∈ ops, MOp.writesCell pid addr op = false)
    (hwok : (access tick1 procs mm pid addr true B).1 = .ok rw0)
    (hrok : (access tick2
        (runOps (access tick1 procs mm pid addr true B).2 ops).1
        (runOps (access tick1 procs mm pid addr true B).2 ops).2 pid addr false 0).1
        = .ok rr) :
    rr = B ∧ rw0 = B := by
  have hI := reachable_inv hreach
  obtain ⟨hI1, _, _, hmap1, _, hres1⟩ := access_master tick1 procs mm pid addr true B hI
  obtain ⟨hrw, hvc1⟩ := (hres1 rw0 hwok).1 rfl
  have hpres0 : pid ∈ procs.map Process.pid := by
    rcases hfp : findProcPid procs pid with _ | p0
    · exfalso
      rw [access_eq_noProc tick1 procs mm pid addr true B hfp] at hwok
      cases hwok
    · exact (findProcPid_isSome_iff procs pid).mp (by rw [hfp]; rfl)
  have hpres1 : pid ∈ ((access tick1 procs mm pid addr true B).2.1).map Process.pid := by
    rw [hmap1]
    exact hpres0
  obtain ⟨hI2, hpres2, hvc2⟩ := runOps_preserve ops hops
    (access tick1 procs mm pid addr true B).2 hI1 hpres1 hvc1
  obtain ⟨_, _, _, _, _, hres2⟩ := access_master tick2
    (runOps (access tick1 procs mm pid addr true B).2 ops).1
    (runOps (access tick1 procs mm pid addr true B).2 ops).2 pid addr false 0 hI2
  have hrr := (hres2 rr hrok).2 rfl
  exact ⟨hrr.trans hvc2, hrw⟩

/-- Concrete witness for C1: one frame of four words.  Write 7 at
address 0; an intervening read of address 4 evicts the dirty page 0 to
the backing store and faults page 1 in; the final read of address 0
faults page 0 back in and still returns 7. -/
theorem C1_write_read_roundtrip_witness :
    (∀ op ∈ ([MOp.acc 1 1 4 false 0] : List MOp), MOp.writesCell 1 0 op = false)
    ∧ (access 0 [initializePageTable { pid := 1, memory_required := 8 } 2]
        (MM.init 1 4) 1 0 true 7).1 = .ok 7
    ∧ (access 2
        (runOps (access 0 [initializePageTable { pid := 1, memory_required := 8 } 2]
          (MM.init 1 4) 1 0 true 7).2 [MOp.acc 1 1 4 false 0]).1
        (runOps (access 0 [initializePageTable { pid := 1, memory_required := 8 } 2]
          (MM.init 1 4) 1 0 true 7).2 [MOp.acc 1 1 4 false 0]).2 1 0 false 0).1 = .ok 7
    ∧ ((7 : Int) = 7 ∧ (7 : Int) = 7) :=
  ⟨by decide, by decide, by decide,
    C1_write_read_roundtrip
      (Reachable.create { pid := 1, memory_required := 8 } 2
        (Reachable.init 1 4 (by decide)) (by decide))
      0 2 1 0 7 7 7 [MOp.acc 1 1 4 false 0] (by decide) (by decide) (by decide)⟩

end Csopesy